import Mathlib

/-!
# Axis constraint enforcement

A shallow embedding of `src/plots/cartesian/constraints.js` (plotly.js): the function
`enforceAxisConstraints` and its helper `updateDomain`.

Conventions of the embedding.

* Numbers are rationals: the development reasons in exact arithmetic.  JavaScript
  `Infinity`, which the source uses as the start value of `minScale` and `matchScale`,
  is the `none` of an `Option ℚ`.  Where the source would divide by zero (JavaScript
  gives an infinity or `NaN`) the rational quotient is `0`; the general theorems exclude
  those inputs by non-degeneracy hypotheses.  The only concrete evaluations that meet
  a zero divisor are the ones on a range collapsed to a point: they state the collapse
  itself and the outcome of a comparison that is false for `0` as for `Infinity`.
* An array of two numbers (`domain`, `range`) is a pair.
* A property that may be absent (`_inputDomain`, `_inputRange`, `_input.domain`,
  `_input.range`) is an `Option`.
* The axis table `fullLayout[id2name(axisID)]` is a function from axis ids to axes;
  mutation in place is a functional update of that table.
* A thrown `TypeError` (reading a property of `undefined`) is the `none` of the result.
* Axes are linear, so the range lineariser `r2l` is the identity.
-/

namespace Constraints

/-- One padding candidate of `ax._min` or `ax._max`: a data value and the pixel
padding it needs. -/
structure Pad where
  val : ℚ
  pad : ℚ
deriving DecidableEq

/-- The user-facing record `ax._input`; the module only writes its `domain` and
`range`. -/
structure AxisInput where
  domain : Option (ℚ × ℚ)
  range : Option (ℚ × ℚ)
deriving DecidableEq

/-- The adjustment mode `ax.constrain`. -/
inductive Constrain where
  | range
  | domain
deriving DecidableEq

/-- The fields of an axis record that the module reads or writes.  `pixels` is the
signed pixel extent of the plot area along the axis, the proportionality constant
that `setScale` uses. -/
structure Axis where
  domain : ℚ × ℚ
  range : ℚ × ℚ
  _m : ℚ
  pixels : ℚ
  constrain : Constrain
  constraintoward : String
  autorange : Bool
  _inputDomain : Option (ℚ × ℚ)
  _inputRange : Option (ℚ × ℚ)
  _constraintShrinkable : Bool
  _min : List Pad
  _max : List Pad
  _input : AxisInput
deriving DecidableEq

/-- The constants the module imports from files that are not part of the source
tree at hand: the tolerance `ALMOST_EQUAL` (constants/numerical) and the anchor
table `FROM_BL` (constants/alignment). -/
structure Consts where
  ALMOST_EQUAL : ℚ
  FROM_BL : String → ℚ

/-- The axis table: `fullLayout[id2name(axisID)]`, `none` for an unknown id. -/
abbrev Layout := String → Option Axis

/-- A constraint group: axis ids with their weights, in `Object.keys` order. -/
abbrev Group := List (String × ℚ)

/-- In-place mutation of the axis stored under `id`. -/
def Layout.set (L : Layout) (id : String) (ax : Axis) : Layout :=
  fun k => if k = id then some ax else L k

/-- Modelled from the spec: the range lineariser `ax.r2l` (set_convert, not in the
source tree), which "maps a possibly-log-scaled range endpoint to a linear value";
on a linear axis it is the identity. -/
def r2l (v : ℚ) : ℚ := v

/-- Modelled from the spec: `ax.setScale()` (set_convert, not in the source tree),
which "recomputes `scale` from current `domain`/`range`"; the scale is signed
pixels per data unit, the pixel length of the domain over the linearised range
width. -/
def setScale (ax : Axis) : Axis :=
  { ax with _m := ax.pixels * (ax.domain.2 - ax.domain.1) / (r2l ax.range.2 - r2l ax.range.1) }

/-- Modelled from the spec: the range rescaler `scaleZoom(ax, factor)` (scale_zoom,
not in the source tree), which "shrinks/grows the axis's data range around the pixel
center of its current domain", leaves the domain untouched, and echoes the range
into the user-facing record. -/
def scaleZoom (ax : Axis) (factor : ℚ) : Axis :=
  let rangeLinear : ℚ × ℚ := (r2l ax.range.1, r2l ax.range.2)
  let center := rangeLinear.1 + (rangeLinear.2 - rangeLinear.1) * (1 / 2)
  let r : ℚ × ℚ := (center + (rangeLinear.1 - center) * factor,
    center + (rangeLinear.2 - center) * factor)
  { ax with range := r, _input := { ax._input with range := some r } }

/-- The source function `updateDomain(ax, factor)` (lines 175-184). -/
def updateDomain (K : Consts) (ax : Axis) (factor : ℚ) : Option Axis :=
  match ax._inputDomain with
  | none => none
  | some inputDomain =>
    let centerFraction := K.FROM_BL ax.constraintoward
    let center := inputDomain.1 + (inputDomain.2 - inputDomain.1) * centerFraction
    let d : ℚ × ℚ := (center + (inputDomain.1 - center) / factor,
      center + (inputDomain.2 - center) / factor)
    some { ax with domain := d, _input := { ax._input with domain := some d } }

/-- The call `Math.min(acc, x)` for an accumulator that starts at `Infinity`. -/
def minInf (acc : Option ℚ) (x : ℚ) : ℚ :=
  match acc with
  | none => x
  | some m => min m x

/-- The quotient `x / d` for a divisor that may be `Infinity`. -/
def divInf (x : ℚ) (d : Option ℚ) : ℚ :=
  match d with
  | none => 0
  | some m => x / m

/-- Lines 46-47: the lazy snapshots of `domain` and `range`. -/
def snapshotInput (ax : Axis) : Axis :=
  let ax1 := match ax._inputDomain with
    | none => { ax with _inputDomain := some ax.domain }
    | some _ => ax
  match ax1._inputRange with
  | none => { ax1 with _inputRange := some ax1.range }
  | some _ => ax1

/-- The variables of the first loop (lines 30-39); `layout` carries the mutated
axes, `normScales` is kept in `axisIDs` order. -/
structure Scan where
  layout : Layout
  minScale : Option ℚ
  maxScale : ℚ
  matchScale : Option ℚ
  normScales : List (String × ℚ)

/-- One iteration of the first loop (lines 43-63). -/
def scanAxis (s : Scan) (entry : String × ℚ) : Option Scan :=
  match s.layout entry.1 with
  | none => none
  | some ax0 =>
    let ax := setScale (snapshotInput ax0)
    let normScale := |ax._m| / entry.2
    let minScale := minInf s.minScale normScale
    let maxScale := max s.maxScale normScale
    if ax._constraintShrinkable then
      some { layout := s.layout.set entry.1 { ax with _constraintShrinkable := false },
             minScale := some minScale,
             maxScale := maxScale,
             matchScale := s.matchScale,
             normScales := s.normScales ++ [(entry.1, normScale)] }
    else
      some { layout := s.layout.set entry.1 ax,
             minScale := some minScale,
             maxScale := maxScale,
             matchScale := some (minInf s.matchScale normScale),
             normScales := s.normScales ++ [(entry.1, normScale)] }

/-- The first loop (lines 30-64) over the members of a group. -/
def scanGroup (group : Group) (L : Layout) : Option Scan :=
  group.foldlM scanAxis
    { layout := L, minScale := none, maxScale := 0, matchScale := none, normScales := [] }

/-- The test of line 67, `minScale > ALMOST_EQUAL * maxScale`. -/
def almostEqual (K : Consts) (minScale : Option ℚ) (maxScale : ℚ) : Bool :=
  match minScale with
  | none => true
  | some m => decide (m > K.ALMOST_EQUAL * maxScale)

/-- The loop of lines 137-142.  Every iteration reads `ax._min[i]`, where `i` is the
index of the group in the outer loop. -/
def repairMin (i : Nat) (ax : Axis) (m outerMin rangeMin : ℚ) : Option ℚ :=
  (List.range ax._min.length).foldlM
    (fun rangeMin _k =>
      match ax._min[i]? with
      | none => none
      | some p =>
        let newVal := p.val - p.pad / m
        some (if newVal > outerMin ∧ newVal < rangeMin then newVal else rangeMin))
    rangeMin

/-- The loop of lines 144-149.  Every iteration reads `ax._max[i]`. -/
def repairMax (i : Nat) (ax : Axis) (m outerMax rangeMax : ℚ) : Option ℚ :=
  (List.range ax._max.length).foldlM
    (fun rangeMax _k =>
      match ax._max[i]? with
      | none => none
      | some p =>
        let newVal := p.val + p.pad / m
        some (if newVal < outerMax ∧ newVal > rangeMax then newVal else rangeMax))
    rangeMax

/-- The autorange branch (lines 111-166): the repaired axis and the adjusted
factor. -/
def autorangeRepair (K : Consts) (i : Nat) (ax : Axis) (factor : ℚ) : Option (Axis × ℚ) :=
  let rangeMin := min ax.range.1 ax.range.2
  let rangeMax := max ax.range.1 ax.range.2
  let rangeCenter := (rangeMin + rangeMax) / 2
  let halfRange := rangeMax - rangeCenter
  let outerMin := rangeCenter - halfRange * factor
  let outerMax := rangeCenter + halfRange * factor
  (updateDomain K ax factor).bind fun ax1 =>
  let ax2 := setScale ax1
  let m := |ax2._m|
  (repairMin i ax2 m outerMin rangeMin).bind fun rangeMin1 =>
  (repairMax i ax2 m outerMax rangeMax).bind fun rangeMax1 =>
  let r : ℚ × ℚ := if ax2.range.1 < ax2.range.2 then (rangeMin1, rangeMax1)
    else (rangeMax1, rangeMin1)
  let ax3 : Axis := { ax2 with range := r, _input := { ax2._input with range := some r } }
  let domainExpand := (rangeMax1 - rangeMin1) / (2 * halfRange)
  some (ax3, factor / domainExpand)

/-- The domain branch (lines 85-168) for one axis. -/
def constrainDomain (K : Consts) (i : Nat) (ax : Axis) (factor0 : ℚ) : Option Axis :=
  match ax._inputDomain, ax._inputRange with
  | some inputDomain, some inputRange =>
    let domainShrunk := (ax.domain.2 - ax.domain.1) / (inputDomain.2 - inputDomain.1)
    let rangeShrunk := (r2l ax.range.2 - r2l ax.range.1) /
      (r2l inputRange.2 - r2l inputRange.1)
    let factor := factor0 / domainShrunk
    if factor * rangeShrunk < 1 then
      some (scaleZoom
        { ax with domain := inputDomain, _input := { ax._input with domain := some inputDomain } }
        factor)
    else
      let axf : Axis × ℚ :=
        if rangeShrunk < 1 then
          ({ ax with range := inputRange, _input := { ax._input with range := some inputRange } },
            factor * rangeShrunk)
        else (ax, factor)
      if axf.1.autorange then
        (autorangeRepair K i axf.1 axf.2).bind fun axg => updateDomain K axg.1 axg.2
      else
        updateDomain K axf.1 axf.2
  | _, _ => none

/-- The body of the second loop (lines 71-170) for one axis. -/
def reconcileAxis (K : Consts) (i : Nat) (matchScale : Option ℚ) (normScale : ℚ)
    (ax : Axis) : Option Axis :=
  if some normScale ≠ matchScale ∨ ax.constrain = Constrain.domain then
    let factor := divInf normScale matchScale
    match ax.constrain with
    | Constrain.range => some (scaleZoom ax factor)
    | Constrain.domain => constrainDomain K i ax factor
  else
    some ax

/-- One iteration of the second loop: `ax = axes[axisID]` is the axis object the
first loop stored, mutated in place. -/
def reconcileStep (K : Consts) (i : Nat) (matchScale : Option ℚ) (L : Layout)
    (entry : String × ℚ) : Option Layout :=
  match L entry.1 with
  | none => none
  | some ax => (reconcileAxis K i matchScale entry.2 ax).map fun ax1 => L.set entry.1 ax1

/-- The body of the outer loop (lines 27-171) for the group with index `i`. -/
def enforceGroup (K : Consts) (i : Nat) (group : Group) (L : Layout) : Option Layout :=
  (scanGroup group L).bind fun s =>
    if almostEqual K s.minScale s.maxScale then some s.layout
    else s.normScales.foldlM (reconcileStep K i s.matchScale) s.layout

/-- The outer loop (line 26) from index `i` on. -/
def enforceFrom (K : Consts) : Nat → List Group → Layout → Option Layout
  | _, [], L => some L
  | i, g :: gs, L => (enforceGroup K i g L).bind fun L1 => enforceFrom K (i + 1) gs L1

/-- The source function `enforceAxisConstraints(gd)` (lines 20-173), with
`gd._fullLayout` given as its constraint groups and its axis table. -/
def enforceAxisConstraints (K : Consts) (constraintGroups : List Group) (fullLayout : Layout) :
    Option Layout :=
  enforceFrom K 0 constraintGroups fullLayout

/-- The scale `setScale` derives from the domain and range of an axis. -/
def scaleOf (ax : Axis) : ℚ := (setScale ax)._m

/-- The normalised scale `|scale| / weight`. -/
def normScaleOf (ax : Axis) (weight : ℚ) : ℚ := |scaleOf ax| / weight

/-- Modelled from the spec: the anchor table `FROM_BL` (constants/alignment, not in
the source tree), "fractional position along the domain, 0 = start edge, 1 = end
edge, 0.5 = center". -/
def fromBL (name : String) : ℚ :=
  if name = "left" ∨ name = "bottom" then 0
  else if name = "right" ∨ name = "top" then 1
  else 1 / 2

/-- Modelled from the spec: the tolerance `ALMOST_EQUAL` (constants/numerical, not in
the source tree), "on the order of 1e-6 relative slack", with the anchor table. -/
def plotlyConsts : Consts :=
  { ALMOST_EQUAL := 1 - 1 / 1000000, FROM_BL := fromBL }

/-- The axis ids of a group, `Object.keys(group)`. -/
def keys (g : Group) : List String := g.map Prod.fst

/-- What the first loop leaves of an axis: snapshots taken, scale set, flag removed. -/
def prepAxis (ax : Axis) : Axis :=
  { setScale (snapshotInput ax) with _constraintShrinkable := false }

/-- What the first loop reads of a member: its normalised scale and its flag. -/
def memberScale (L : Layout) (e : String × ℚ) : ℚ × Bool :=
  match L e.1 with
  | some ax => (normScaleOf ax e.2, ax._constraintShrinkable)
  | none => (0, false)

/-- The value of `minScale` after the first loop has read the members `ps`, started
at `a`. -/
def accMin (a : Option ℚ) (ps : List (ℚ × Bool)) : Option ℚ :=
  ps.foldl (fun a p => some (minInf a p.1)) a

/-- The value of `maxScale` after the first loop has read the members `ps`, started
at `a`. -/
def accMax (a : ℚ) (ps : List (ℚ × Bool)) : ℚ :=
  ps.foldl (fun a p => max a p.1) a

/-- The value of `matchScale` after the first loop has read the members `ps`, started
at `a`: flagged members are left out. -/
def accMatch (a : Option ℚ) (ps : List (ℚ × Bool)) : Option ℚ :=
  ps.foldl (fun a p => if p.2 then a else some (minInf a p.1)) a

/-- The closed form of the first loop over the group `g`, started in state `s`. -/
def scanResult (g : Group) (s : Scan) : Scan :=
  { layout := fun id => if id ∈ keys g then (s.layout id).map prepAxis else s.layout id,
    minScale := accMin s.minScale (g.map (memberScale s.layout)),
    maxScale := accMax s.maxScale (g.map (memberScale s.layout)),
    matchScale := accMatch s.matchScale (g.map (memberScale s.layout)),
    normScales := s.normScales ++ g.map fun e => (e.1, (memberScale s.layout e).1) }

/-- All axis ids of a list of groups, in order. -/
def allKeys : List Group → List String
  | [] => []
  | g :: gs => keys g ++ allKeys gs

/-- What enforcement does to a member axis `ax` of weight `w` in the group with index
`i` and first-loop result `s`: a skipped group only gets the first loop; otherwise the
second-loop body runs on the axis the first loop left. -/
def MemberOutcome (K : Consts) (i : Nat) (s : Scan) (w : ℚ) (ax ax1 : Axis) : Prop :=
  if almostEqual K s.minScale s.maxScale = true then ax1 = prepAxis ax
  else reconcileAxis K i s.matchScale (normScaleOf ax w) (prepAxis ax) = some ax1

/-- A non-degenerate axis: a non-zero pixel extent, a domain and a range of non-zero
width, and snapshots (when present) of non-zero width. -/
def Axis.valid (ax : Axis) : Bool :=
  decide (ax.pixels ≠ 0) && decide (ax.domain.1 ≠ ax.domain.2) &&
  decide (ax.range.1 ≠ ax.range.2) &&
  (match ax._inputDomain with
    | none => true
    | some d => decide (d.1 ≠ d.2)) &&
  (match ax._inputRange with
    | none => true
    | some r => decide (r.1 ≠ r.2))

/-- The snapshot of the domain after the first loop: the stored one, else the current
domain. -/
def inputDomainOf (ax : Axis) : ℚ × ℚ :=
  match ax._inputDomain with
  | none => ax.domain
  | some d => d

/-- The snapshot of the range after the first loop: the stored one, else the current
range. -/
def inputRangeOf (ax : Axis) : ℚ × ℚ :=
  match ax._inputRange with
  | none => ax.range
  | some r => r

/-- A valid member of a group: a positive weight and a known, non-degenerate axis. -/
def validMember (L : Layout) (e : String × ℚ) : Bool :=
  decide (0 < e.2) &&
  (match L e.1 with
    | some ax => ax.valid
    | none => false)

/-- A valid input: every axis id occurs once in the groups, and every member is
valid. -/
def validInput (groups : List Group) (L : Layout) : Bool :=
  decide (allKeys groups).Nodup && groups.all fun g => g.all (validMember L)

/-- Some member of the group does not carry the `_constraintShrinkable` flag. -/
def hasUnflagged (L : Layout) (g : Group) : Bool :=
  g.any fun e =>
    match L e.1 with
    | some ax => !ax._constraintShrinkable
    | none => false

/-- The factor of the domain branch after line 93: `(normScale / matchScale) /
domainShrunk`, for a member axis `ax` of weight `w` as it enters the call. -/
def domainFactor (s : Scan) (ax : Axis) (w : ℚ) : ℚ :=
  divInf (normScaleOf ax w) s.matchScale /
    ((ax.domain.2 - ax.domain.1) / ((inputDomainOf ax).2 - (inputDomainOf ax).1))

/-- The quotient `rangeShrunk` of lines 90-91 for an axis as it enters the call. -/
def rangeShrunkOf (ax : Axis) : ℚ :=
  (r2l ax.range.2 - r2l ax.range.1) / (r2l (inputRangeOf ax).2 - r2l (inputRangeOf ax).1)

/-- The quotient `domainShrunk` of lines 88-89 for an axis as it enters the call. -/
def domainShrunkOf (ax : Axis) : ℚ :=
  (ax.domain.2 - ax.domain.1) / ((inputDomainOf ax).2 - (inputDomainOf ax).1)

/-- The value `halfRange` of lines 124-127 for an axis. -/
def halfRangeOf (ax : Axis) : ℚ :=
  let rangeMin := min ax.range.1 ax.range.2
  let rangeMax := max ax.range.1 ax.range.2
  let rangeCenter := (rangeMin + rangeMax) / 2
  rangeMax - rangeCenter

/-- The bound `outerMin` of lines 124-128 for an axis and a factor. -/
def outerMinOf (ax : Axis) (factor : ℚ) : ℚ :=
  let rangeMin := min ax.range.1 ax.range.2
  let rangeMax := max ax.range.1 ax.range.2
  let rangeCenter := (rangeMin + rangeMax) / 2
  let halfRange := rangeMax - rangeCenter
  rangeCenter - halfRange * factor

/-- The axis that reaches the autorange repair (lines 103-108): the axis the first loop
left, with `range` and `_input.range` reset to `_inputRange` when `rangeShrunk < 1`. -/
def preRepairAxis (ax : Axis) : Axis :=
  if rangeShrunkOf ax < 1 then
    { prepAxis ax with
      range := inputRangeOf ax,
      _input := { (prepAxis ax)._input with range := some (inputRangeOf ax) } }
  else prepAxis ax

/-- The factor that reaches the autorange repair (lines 93-108): `factor`, times
`rangeShrunk` when `rangeShrunk < 1`. -/
def preRepairFactor (s : Scan) (ax : Axis) (w : ℚ) : ℚ :=
  if rangeShrunkOf ax < 1 then domainFactor s ax w * rangeShrunkOf ax
  else domainFactor s ax w

/-- A linear axis as the layout system creates it: anchor "center", no snapshot, no
flag, no padding candidate, nothing echoed yet. -/
def freshAxis (domain range : ℚ × ℚ) (pixels : ℚ) (constrain : Constrain) : Axis :=
  { domain := domain, range := range, _m := 0, pixels := pixels, constrain := constrain,
    constraintoward := "center", autorange := false, _inputDomain := none, _inputRange := none,
    _constraintShrinkable := false, _min := [], _max := [], _input := ⟨none, none⟩ }

/-- A domain-mode axis with `_inputDomain` `[0.1, 0.9]` and the anchor "center". -/
def anchoredAxis : Axis :=
  { freshAxis (1 / 10, 9 / 10) (0, 1) 100 Constrain.domain with
    _inputDomain := some (1 / 10, 9 / 10) }

/-- The domain `updateDomain` writes, from the input domain, the anchor fraction and the
factor. -/
def resizedDomain (d : ℚ × ℚ) (c f : ℚ) : ℚ × ℚ :=
  (d.1 + (d.2 - d.1) * c + (d.1 - (d.1 + (d.2 - d.1) * c)) / f,
    d.1 + (d.2 - d.1) * c + (d.2 - (d.1 + (d.2 - d.1) * c)) / f)

/-- The axis table that knows the axes "x" and "y" only. -/
def twoAxes (x y : Axis) : Layout :=
  fun k => if k = "x" then some x else if k = "y" then some y else none

/-- The constraint group `{x: 1, y: 1}`. -/
def xy : Group := [("x", 1), ("y", 1)]

/-- Two range-mode axes with scales 100 and 200 px/unit. -/
def rangePair : Layout :=
  twoAxes (freshAxis (0, 1) (0, 1) 100 Constrain.range)
    (freshAxis (0, 1) (0, 1 / 2) 100 Constrain.range)

/-- The axes of `rangePair`, both carrying the `_constraintShrinkable` flag. -/
def flaggedPair : Layout :=
  twoAxes { freshAxis (0, 1) (0, 1) 100 Constrain.range with _constraintShrinkable := true }
    { freshAxis (0, 1) (0, 1 / 2) 100 Constrain.range with _constraintShrinkable := true }

/-- Two axes with the same scale 100 px/unit; "y" is a flagged, autorange,
domain-mode axis with a padding candidate. -/
def skipPair : Layout :=
  twoAxes (freshAxis (0, 1) (0, 1) 100 Constrain.range)
    { freshAxis (0, 1) (0, 1) 100 Constrain.domain with
      autorange := true, _constraintShrinkable := true, _max := [{ val := 10, pad := 20 }] }

/-- The domain-mode axis of `switchPair`: its range (0, 1/2) is narrower than its
`_inputRange` (0, 1), its scale is 200 px/unit. -/
def shrunkAxis : Axis :=
  { freshAxis (0, 1) (0, 1 / 2) 100 Constrain.domain with
    _inputDomain := some (0, 1), _inputRange := some (0, 1) }

/-- A range-mode axis "x" of scale 150 px/unit with the domain-mode axis
`shrunkAxis` as "y". -/
def switchPair : Layout :=
  twoAxes (freshAxis (0, 1) (0, 1) 150 Constrain.range) shrunkAxis

/-- An autorange, domain-mode axis of scale 50 px/unit with the one `_max` candidate
`{val: 10, pad: 20}`, over the range `range`. -/
def paddedAxis (range : ℚ × ℚ) (pixels : ℚ) : Axis :=
  { freshAxis (0, 1) range pixels Constrain.domain with
    autorange := true, _inputDomain := some (0, 1), _inputRange := some range,
    _max := [{ val := 10, pad := 20 }] }

/-- The axis `paddedAxis (9.9, 10.1)` as "x" (scale 50 px/unit) with a range-mode axis
"y" of scale 25 px/unit, so that "x" is resized by the factor 2. -/
def paddingPair : Layout :=
  twoAxes (paddedAxis (99 / 10, 101 / 10) 10) (freshAxis (0, 1) (0, 1) 25 Constrain.range)

/-- An autorange, domain-mode axis of scale 50 px/unit over the range (9.5, 10.5)
with the two `_max` candidates `{val: 10, pad: 0}` and `{val: 10, pad: 20}`. -/
def candidatesAxis : Axis :=
  { paddedAxis (19 / 2, 21 / 2) 50 with
    _max := [{ val := 10, pad := 0 }, { val := 10, pad := 20 }] }

/-- The axis `candidatesAxis` as "x" with a range-mode axis "y" of scale 25
px/unit, so that "x" is resized by the factor 2. -/
def candidatesPair : Layout :=
  twoAxes candidatesAxis (freshAxis (0, 1) (0, 1) 25 Constrain.range)

/-- The axis table with the axes "x", "y" (both 100 px/unit, range mode) and "x2",
"y2": "x2" is `paddedAxis (9.5, 10.5)` of scale 50 px/unit, "y2" a range-mode axis of
scale 25 px/unit. -/
def fourAxes : Layout :=
  fun k =>
    if k = "x" then some (freshAxis (0, 1) (0, 1) 100 Constrain.range)
    else if k = "y" then some (freshAxis (0, 1) (0, 1) 100 Constrain.range)
    else if k = "x2" then some (paddedAxis (19 / 2, 21 / 2) 50)
    else if k = "y2" then some (freshAxis (0, 1) (0, 1) 25 Constrain.range)
    else none

/-- The constraint group `{x2: 1, y2: 1}`. -/
def xy2 : Group := [("x2", 1), ("y2", 1)]

/-- The candidate bound of line 145, `val + pad / m`. -/
def paddedMax (p : Pad) (m : ℚ) : ℚ := p.val + p.pad / m

/-- The bound `outerMax` of lines 124-129 for an axis and a factor. -/
def outerMaxOf (ax : Axis) (factor : ℚ) : ℚ :=
  let rangeMin := min ax.range.1 ax.range.2
  let rangeMax := max ax.range.1 ax.range.2
  let rangeCenter := (rangeMin + rangeMax) / 2
  let halfRange := rangeMax - rangeCenter
  rangeCenter + halfRange * factor

/-- The fold the specification describes for `_max`: every candidate in order, each
adopted when it lies strictly between the current maximum and `outerMax`. -/
def foldMaxCandidates (cands : List Pad) (m outerMax rangeMax : ℚ) : ℚ :=
  cands.foldl
    (fun rangeMax p =>
      if rangeMax < paddedMax p m ∧ paddedMax p m < outerMax then paddedMax p m else rangeMax)
    rangeMax

/-- The axis table of `fourAxes` with `candidatesAxis` as "x2". -/
def candidatesFour : Layout :=
  fun k =>
    if k = "x" then some (freshAxis (0, 1) (0, 1) 100 Constrain.range)
    else if k = "y" then some (freshAxis (0, 1) (0, 1) 100 Constrain.range)
    else if k = "x2" then some candidatesAxis
    else if k = "y2" then some (freshAxis (0, 1) (0, 1) 25 Constrain.range)
    else none

/-- A range-mode axis "x" of scale 50 px/unit with the domain-mode axis `shrunkAxis`
(scale 200 px/unit, range half its `_inputRange`) as "y". -/
def restorePair : Layout :=
  twoAxes (freshAxis (0, 1) (0, 1) 50 Constrain.range) shrunkAxis

/-- A domain-mode axis of scale 100 px/unit whose domain `[0, 1/2]` is half its
`_inputDomain` `[0, 1]`, with its range equal to its `_inputRange`. -/
def halvedAxis : Axis :=
  { freshAxis (0, 1 / 2) (0, 1) 200 Constrain.domain with
    _inputDomain := some (0, 1), _inputRange := some (0, 1) }

/-- A range-mode axis "x" of scale 200 px/unit with `halvedAxis` as "y". -/
def recomputePair : Layout :=
  twoAxes (freshAxis (0, 1) (0, 1) 200 Constrain.range) halvedAxis

/-- A domain-mode axis of scale 100 px/unit whose domain `[0, 1]` is twice as wide as
its `_inputDomain` `[1/4, 3/4]`, with its range equal to its `_inputRange`. -/
def wideAxis : Axis :=
  { freshAxis (0, 1) (0, 1) 100 Constrain.domain with
    _inputDomain := some (1 / 4, 3 / 4), _inputRange := some (0, 1) }

/-- A range-mode axis "x" of scale 200 px/unit with `wideAxis` as "y". -/
def widePair : Layout :=
  twoAxes (freshAxis (0, 1) (0, 1) 200 Constrain.range) wideAxis

/-- The value of `updateDomain` on an axis that has its domain snapshot. -/
theorem updateDomain_eq (K : Consts) (ax : Axis) (f : ℚ) (d : ℚ × ℚ)
    (h : ax._inputDomain = some d) :
    updateDomain K ax f = some { ax with
      domain := resizedDomain d (K.FROM_BL ax.constraintoward) f,
      _input := { ax._input with
        domain := some (resizedDomain d (K.FROM_BL ax.constraintoward) f) } } := by
  simp only [updateDomain, h, resizedDomain]

/-- Claim C4 (domain-mode anchoring): for an axis with `_inputDomain` `[d0, d1]`, anchor
fraction `c = FROM_BL[constraintoward]` and a non-zero factor `f`, `updateDomain` returns
and writes to both `domain` and `_input.domain` the pair
`[A + (d0 - A)/f, A + (d1 - A)/f]` with `A = d0 + (d1 - d0) * c`; the new width is
`(d1 - d0)/f` and the anchor point is fixed. -/
theorem updateDomain_anchoring (K : Consts) (ax : Axis) (d0 d1 f : ℚ)
    (hin : ax._inputDomain = some (d0, d1)) (hf : f ≠ 0) :
    ∃ ax1, updateDomain K ax f = some ax1 ∧
      ax1.domain = (d0 + (d1 - d0) * K.FROM_BL ax.constraintoward
          + (d0 - (d0 + (d1 - d0) * K.FROM_BL ax.constraintoward)) / f,
        d0 + (d1 - d0) * K.FROM_BL ax.constraintoward
          + (d1 - (d0 + (d1 - d0) * K.FROM_BL ax.constraintoward)) / f) ∧
      ax1._input.domain = some ax1.domain ∧
      ax1.domain.2 - ax1.domain.1 = (d1 - d0) / f ∧
      ax1.domain.1 + (ax1.domain.2 - ax1.domain.1) * K.FROM_BL ax.constraintoward
        = d0 + (d1 - d0) * K.FROM_BL ax.constraintoward := by
  refine ⟨_, updateDomain_eq K ax f _ hin, rfl, rfl, ?_, ?_⟩
  · simp only [resizedDomain]; field_simp; ring
  · simp only [resizedDomain]; field_simp; ring

/-- The instance of claim C4 in the specification: anchor "center", `_inputDomain`
`[0.1, 0.9]` and factor 2 give `[0.3, 0.7]`. -/
theorem updateDomain_anchoring_witness :
    ∃ ax1, updateDomain plotlyConsts anchoredAxis 2 = some ax1 ∧
      ax1.domain = (3 / 10, 7 / 10) ∧ ax1._input.domain = some (3 / 10, 7 / 10) ∧
      ax1.domain.2 - ax1.domain.1 = (9 / 10 - 1 / 10) / 2 ∧
      ax1.domain.1 + (ax1.domain.2 - ax1.domain.1) * (1 / 2) = 1 / 2 := by
  obtain ⟨ax1, h1, h2, h3, h4, h5⟩ :=
    updateDomain_anchoring plotlyConsts anchoredAxis (1 / 10) (9 / 10) 2 rfl (by norm_num)
  have hc : plotlyConsts.FROM_BL anchoredAxis.constraintoward = 1 / 2 := by decide!
  rw [hc] at h2 h5
  have hd : ax1.domain = (3 / 10, 7 / 10) := by rw [h2]; norm_num
  refine ⟨ax1, h1, hd, ?_, h4, ?_⟩
  · rw [h3, hd]
  · rw [h5]; norm_num

/-- Claim C5 (no compounding): the result of `updateDomain(ax, f)` after
`updateDomain(ax, g)` is the result of `updateDomain(ax, f)` alone; the domain it writes
depends only on `_inputDomain`, `constraintoward` and `f`; `_inputDomain` is left
unchanged; and the factor 1 gives exactly `_inputDomain`. -/
theorem updateDomain_not_compounding (K : Consts) (ax : Axis) (f g : ℚ) :
    ((updateDomain K ax g).bind fun a => updateDomain K a f) = updateDomain K ax f ∧
    (∀ ax2 : Axis, ax2._inputDomain = ax._inputDomain →
      ax2.constraintoward = ax.constraintoward →
      (updateDomain K ax2 f).map (fun a => a.domain)
        = (updateDomain K ax f).map (fun a => a.domain)) ∧
    (∀ a, updateDomain K ax f = some a → a._inputDomain = ax._inputDomain) ∧
    (∀ d, ax._inputDomain = some d →
      ∃ a, updateDomain K ax 1 = some a ∧ a.domain = d ∧ a._input.domain = some d) := by
  refine ⟨?_, ?_, ?_, ?_⟩
  · cases h : ax._inputDomain with
    | none => simp [updateDomain, h]
    | some d => simp [updateDomain, h]
  · intro ax2 h1 h2
    cases h : ax._inputDomain with
    | none => simp [updateDomain, h, h1]
    | some d => simp [updateDomain, h, h1, h2]
  · intro a ha
    cases h : ax._inputDomain with
    | none => simp [updateDomain, h] at ha
    | some d =>
      simp only [updateDomain, h, Option.some.injEq] at ha
      rw [← ha]
  · intro d hd
    refine ⟨_, updateDomain_eq K ax 1 d hd, ?_, ?_⟩ <;> simp [resizedDomain]

theorem snapshotInput_domain (ax : Axis) : (snapshotInput ax).domain = ax.domain := by
  unfold snapshotInput; cases ax._inputDomain <;> cases h : ax._inputRange <;> simp [h]

theorem snapshotInput_range (ax : Axis) : (snapshotInput ax).range = ax.range := by
  unfold snapshotInput; cases ax._inputDomain <;> cases h : ax._inputRange <;> simp [h]

theorem snapshotInput_pixels (ax : Axis) : (snapshotInput ax).pixels = ax.pixels := by
  unfold snapshotInput; cases ax._inputDomain <;> cases h : ax._inputRange <;> simp [h]

theorem snapshotInput_flag (ax : Axis) :
    (snapshotInput ax)._constraintShrinkable = ax._constraintShrinkable := by
  unfold snapshotInput; cases ax._inputDomain <;> cases h : ax._inputRange <;> simp [h]

theorem scanAxis_eq (s : Scan) (e : String × ℚ) (ax : Axis) (h : s.layout e.1 = some ax) :
    scanAxis s e = some
      { layout := s.layout.set e.1 (prepAxis ax),
        minScale := some (minInf s.minScale (normScaleOf ax e.2)),
        maxScale := max s.maxScale (normScaleOf ax e.2),
        matchScale := if ax._constraintShrinkable then s.matchScale
          else some (minInf s.matchScale (normScaleOf ax e.2)),
        normScales := s.normScales ++ [(e.1, normScaleOf ax e.2)] } := by
  have hn : |(setScale (snapshotInput ax))._m| / e.2 = normScaleOf ax e.2 := by
    simp [normScaleOf, scaleOf, setScale, snapshotInput_domain, snapshotInput_range,
      snapshotInput_pixels]
  have hf : (setScale (snapshotInput ax))._constraintShrinkable = ax._constraintShrinkable := by
    simp [setScale, snapshotInput_flag]
  unfold scanAxis
  simp only [h, hn, hf]
  cases hc : ax._constraintShrinkable
  · have hp : prepAxis ax = setScale (snapshotInput ax) := by
      rw [hc] at hf
      unfold prepAxis
      generalize setScale (snapshotInput ax) = a at hf
      cases a
      simp only at hf
      subst hf
      rfl
    simp [hp]
  · simp [prepAxis]


theorem memberScale_set_ne (L : Layout) (id : String) (a : Axis) (e : String × ℚ)
    (h : e.1 ≠ id) : memberScale (L.set id a) e = memberScale L e := by
  simp [memberScale, Layout.set, h]

theorem scan_fold (g : Group) : ∀ s : Scan, (keys g).Nodup →
    (∀ e ∈ g, s.layout e.1 ≠ none) → g.foldlM scanAxis s = some (scanResult g s) := by
  induction g with
  | nil =>
    intro s _ _
    simp [scanResult, keys, accMin, accMax, accMatch]
  | cons e g ih =>
    intro s hnd hk
    have hnd1 : e.1 ∉ keys g ∧ (keys g).Nodup := by simpa [keys] using hnd
    obtain ⟨ax, hax⟩ := Option.ne_none_iff_exists'.mp (hk e (List.mem_cons_self _ _))
    have hne : ∀ e1 ∈ g, e1.1 ≠ e.1 := by
      intro e1 h1 h2
      exact hnd1.1 (by rw [← h2]; exact List.mem_map_of_mem _ h1)
    rw [List.foldlM_cons, scanAxis_eq s e ax hax]
    simp only [Option.bind_eq_bind, Option.some_bind]
    rw [ih _ hnd1.2]
    · have hms : g.map (memberScale (s.layout.set e.1 (prepAxis ax)))
          = g.map (memberScale s.layout) :=
        List.map_congr_left fun e1 h1 => memberScale_set_ne _ _ _ _ (hne e1 h1)
      have hns : (g.map fun e1 => (e1.1, (memberScale (s.layout.set e.1 (prepAxis ax)) e1).1))
          = g.map fun e1 => (e1.1, (memberScale s.layout e1).1) :=
        List.map_congr_left fun e1 h1 => by rw [memberScale_set_ne _ _ _ _ (hne e1 h1)]
      have hme : memberScale s.layout e = (normScaleOf ax e.2, ax._constraintShrinkable) := by
        simp [memberScale, hax]
      simp only [scanResult, hms, hns, List.map_cons, hme, accMin, accMax, accMatch,
        List.foldl_cons, List.append_assoc, List.singleton_append]
      refine congrArg some ?_
      congr 1
      funext id
      by_cases h1 : id = e.1
      · subst h1
        have h2 : ¬ ∃ x, (e.1, x) ∈ g := fun ⟨x, hx⟩ =>
          hnd1.1 (List.mem_map.mpr ⟨(e.1, x), hx, rfl⟩)
        simp [keys, Layout.set, hax, h2]
      · have h3 : (id ∈ keys (e :: g)) = (id ∈ keys g) := by simp [keys, h1]
        simp only [h3, Layout.set, h1, if_false]
    · intro e1 h1
      have := hk e1 (List.mem_cons_of_mem _ h1)
      simpa [Layout.set, hne e1 h1] using this

theorem scan_known (g : Group) : ∀ (s t : Scan), g.foldlM scanAxis s = some t →
    ∀ e ∈ g, s.layout e.1 ≠ none := by
  induction g with
  | nil => intro s t _ e he; cases he
  | cons e g ih =>
    intro s t h e1 he1
    rw [List.foldlM_cons] at h
    cases hs : scanAxis s e with
    | none => simp [hs] at h
    | some s1 =>
      have hk : s.layout e.1 ≠ none := by
        intro hk
        simp [scanAxis, hk] at hs
      rcases List.mem_cons.mp he1 with rfl | h1
      · exact hk
      · simp only [hs, Option.bind_eq_bind, Option.some_bind] at h
        have h2 := ih s1 t h e1 h1
        obtain ⟨ax, hax⟩ := Option.ne_none_iff_exists'.mp hk
        rw [scanAxis_eq s e ax hax] at hs
        cases hs
        by_cases h3 : e1.1 = e.1
        · rw [h3]; exact hk
        · simpa [Layout.set, h3] using h2

theorem scanGroup_eq (g : Group) (L : Layout) (hnd : (keys g).Nodup)
    (hk : ∀ e ∈ g, L e.1 ≠ none) :
    scanGroup g L = some (scanResult g
      { layout := L, minScale := none, maxScale := 0, matchScale := none, normScales := [] }) :=
  scan_fold g _ hnd hk

theorem scanGroup_known (g : Group) (L : Layout) (s : Scan) (h : scanGroup g L = some s) :
    ∀ e ∈ g, L e.1 ≠ none :=
  scan_known g _ s h

theorem scanGroup_congr (g : Group) (L M : Layout) (hnd : (keys g).Nodup)
    (hLM : ∀ e ∈ g, L e.1 = M e.1) (s : Scan) (hs : scanGroup g M = some s) :
    ∃ t, scanGroup g L = some t ∧ t.minScale = s.minScale ∧ t.maxScale = s.maxScale ∧
      t.matchScale = s.matchScale := by
  have hkM := scanGroup_known g M s hs
  have hkL : ∀ e ∈ g, L e.1 ≠ none := fun e he => by rw [hLM e he]; exact hkM e he
  have hm : g.map (memberScale L) = g.map (memberScale M) :=
    List.map_congr_left fun e he => by simp [memberScale, hLM e he]
  rw [scanGroup_eq g M hnd hkM] at hs
  cases hs
  exact ⟨_, scanGroup_eq g L hnd hkL, by simp [scanResult, hm], by simp [scanResult, hm],
    by simp [scanResult, hm]⟩

theorem reconcile_fold (K : Consts) (i : Nat) (ms : Option ℚ) (ns : Group) :
    ∀ L L2 : Layout, ns.foldlM (reconcileStep K i ms) L = some L2 → (keys ns).Nodup →
      (∀ id, id ∉ keys ns → L2 id = L id) ∧
      ∀ e ∈ ns, ∃ ax ax1, L e.1 = some ax ∧ reconcileAxis K i ms e.2 ax = some ax1 ∧
        L2 e.1 = some ax1 := by
  induction ns with
  | nil =>
    intro L L2 h _
    simp only [List.foldlM_nil, Option.pure_def, Option.some.injEq] at h
    subst h
    exact ⟨fun _ _ => rfl, fun e he => by cases he⟩
  | cons e ns ih =>
    intro L L2 h hnd
    have hnd1 : e.1 ∉ keys ns ∧ (keys ns).Nodup := by simpa [keys] using hnd
    rw [List.foldlM_cons] at h
    cases hL : L e.1 with
    | none => simp [reconcileStep, hL] at h
    | some ax =>
      cases hr : reconcileAxis K i ms e.2 ax with
      | none => simp [reconcileStep, hL, hr] at h
      | some ax1 =>
        simp only [reconcileStep, hL, hr, Option.map_some', Option.bind_eq_bind,
          Option.some_bind] at h
        obtain ⟨hframe, hmem⟩ := ih _ L2 h hnd1.2
        refine ⟨?_, ?_⟩
        · intro id hid
          have h1 : id ≠ e.1 ∧ id ∉ keys ns := by simpa [keys] using hid
          rw [hframe id h1.2]
          simp [Layout.set, h1.1]
        · intro e1 he1
          rcases List.mem_cons.mp he1 with rfl | h1
          · refine ⟨ax, ax1, hL, hr, ?_⟩
            rw [hframe _ hnd1.1]
            simp [Layout.set]
          · obtain ⟨a, a1, ha, hr1, h2⟩ := hmem e1 h1
            have hne : e1.1 ≠ e.1 := fun hh =>
              hnd1.1 (by rw [← hh]; exact List.mem_map_of_mem _ h1)
            refine ⟨a, a1, ?_, hr1, h2⟩
            simpa [Layout.set, hne] using ha

theorem enforceGroup_spec (K : Consts) (i : Nat) (g : Group) (L L1 : Layout)
    (h : enforceGroup K i g L = some L1) (hnd : (keys g).Nodup) :
    ∃ s, scanGroup g L = some s ∧ (∀ id, id ∉ keys g → L1 id = L id) ∧
      ∀ e ∈ g, ∃ ax ax1, L e.1 = some ax ∧ L1 e.1 = some ax1 ∧
        MemberOutcome K i s e.2 ax ax1 := by
  unfold enforceGroup at h
  cases hs : scanGroup g L with
  | none => simp [hs] at h
  | some s =>
    have hk := scanGroup_known g L s hs
    have hs1 := hs
    rw [scanGroup_eq g L hnd hk] at hs1
    simp only [hs, Option.some_bind] at h
    have hlay : ∀ e ∈ g, ∀ ax, L e.1 = some ax → s.layout e.1 = some (prepAxis ax) := by
      intro e he ax hax
      cases hs1
      have : e.1 ∈ keys g := List.mem_map_of_mem _ he
      simp [scanResult, this, hax]
    have hframe : ∀ id, id ∉ keys g → s.layout id = L id := by
      intro id hid
      cases hs1
      simp [scanResult, hid]
    have hns : s.normScales = g.map fun e => (e.1, (memberScale L e).1) := by
      cases hs1
      simp [scanResult]
    refine ⟨s, rfl, ?_, ?_⟩
    · intro id hid
      by_cases hc : almostEqual K s.minScale s.maxScale = true
      · simp only [hc, if_true, Option.some.injEq] at h
        rw [← h]; exact hframe id hid
      · simp only [hc] at h
        have hkn : keys s.normScales = keys g := by
          rw [hns]; simp [keys, Function.comp_def]
        have := (reconcile_fold K i s.matchScale s.normScales s.layout L1 h
          (by rw [hkn]; exact hnd)).1 id (by rw [hkn]; exact hid)
        rw [this]; exact hframe id hid
    · intro e he
      obtain ⟨ax, hax⟩ := Option.ne_none_iff_exists'.mp (hk e he)
      by_cases hc : almostEqual K s.minScale s.maxScale = true
      · simp only [hc, if_true, Option.some.injEq] at h
        refine ⟨ax, prepAxis ax, hax, ?_, ?_⟩
        · rw [← h]; exact hlay e he ax hax
        · simp [MemberOutcome, hc]
      · simp only [hc] at h
        have hkn : keys s.normScales = keys g := by
          rw [hns]; simp [keys, Function.comp_def]
        have hmem : (e.1, normScaleOf ax e.2) ∈ s.normScales := by
          rw [hns]
          refine List.mem_map.mpr ⟨e, he, ?_⟩
          simp [memberScale, hax]
        obtain ⟨a, a1, ha, hr, h2⟩ := (reconcile_fold K i s.matchScale s.normScales s.layout L1 h
          (by rw [hkn]; exact hnd)).2 _ hmem
        rw [hlay e he ax hax] at ha
        cases ha
        exact ⟨ax, a1, hax, h2, by simpa [MemberOutcome, hc] using hr⟩

theorem mem_allKeys_of_getElem (gs : List Group) :
    ∀ (j : Nat) (g : Group), gs[j]? = some g → ∀ id, id ∈ keys g → id ∈ allKeys gs := by
  induction gs with
  | nil => intro j g hj; simp at hj
  | cons g1 gs ih =>
    intro j g hj id hid
    cases j with
    | zero =>
      simp only [List.getElem?_cons_zero, Option.some.injEq] at hj
      subst hj
      simp [allKeys, hid]
    | succ j =>
      simp only [List.getElem?_cons_succ] at hj
      simp only [allKeys, List.mem_append]
      exact Or.inr (ih j g hj id hid)

theorem nodup_keys_of_getElem (gs : List Group) :
    (allKeys gs).Nodup → ∀ (j : Nat) (g : Group), gs[j]? = some g → (keys g).Nodup := by
  induction gs with
  | nil => intro _ j g hj; simp at hj
  | cons g1 gs ih =>
    intro hnd j g hj
    simp only [allKeys] at hnd
    cases j with
    | zero =>
      simp only [List.getElem?_cons_zero, Option.some.injEq] at hj
      subst hj
      exact (List.nodup_append.mp hnd).1
    | succ j =>
      simp only [List.getElem?_cons_succ] at hj
      exact ih (List.nodup_append.mp hnd).2.1 j g hj

theorem MemberOutcome_congr (K : Consts) (i : Nat) (s t : Scan) (w : ℚ) (ax ax1 : Axis)
    (h1 : t.minScale = s.minScale) (h2 : t.maxScale = s.maxScale)
    (h3 : t.matchScale = s.matchScale) (h : MemberOutcome K i s w ax ax1) :
    MemberOutcome K i t w ax ax1 := by
  unfold MemberOutcome at *
  rw [h1, h2, h3]
  exact h

theorem enforceFrom_spec (K : Consts) (gs : List Group) :
    ∀ (i : Nat) (L L2 : Layout), enforceFrom K i gs L = some L2 → (allKeys gs).Nodup →
      (∀ id, id ∉ allKeys gs → L2 id = L id) ∧
      ∀ (j : Nat) (g : Group), gs[j]? = some g →
        ∃ s, scanGroup g L = some s ∧
          ∀ e ∈ g, ∃ ax ax1, L e.1 = some ax ∧ L2 e.1 = some ax1 ∧
            MemberOutcome K (i + j) s e.2 ax ax1 := by
  induction gs with
  | nil =>
    intro i L L2 h _
    simp only [enforceFrom, Option.some.injEq] at h
    subst h
    exact ⟨fun _ _ => rfl, fun j g hj => by simp at hj⟩
  | cons g0 gs ih =>
    intro i L L2 h hnd
    simp only [allKeys] at hnd
    obtain ⟨hnd0, hnds, hdisj⟩ := List.nodup_append.mp hnd
    simp only [enforceFrom] at h
    cases hg : enforceGroup K i g0 L with
    | none => simp [hg] at h
    | some L1 =>
      simp only [hg, Option.some_bind] at h
      obtain ⟨s0, hs0, hframe0, hmem0⟩ := enforceGroup_spec K i g0 L L1 hg hnd0
      obtain ⟨hframe, hmem⟩ := ih (i + 1) L1 L2 h hnds
      refine ⟨?_, ?_⟩
      · intro id hid
        have h1 : id ∉ keys g0 ∧ id ∉ allKeys gs := by simpa [allKeys] using hid
        rw [hframe id h1.2, hframe0 id h1.1]
      · intro j g hj
        cases j with
        | zero =>
          simp only [List.getElem?_cons_zero, Option.some.injEq] at hj
          subst hj
          refine ⟨s0, hs0, fun e he => ?_⟩
          obtain ⟨ax, ax1, hax, hax1, ho⟩ := hmem0 e he
          have hk : e.1 ∈ keys g0 := List.mem_map_of_mem _ he
          exact ⟨ax, ax1, hax, by rw [hframe _ (fun hh => hdisj hk hh)]; exact hax1, ho⟩
        | succ j =>
          simp only [List.getElem?_cons_succ] at hj
          obtain ⟨s, hs, hm⟩ := hmem j g hj
          have hsub : ∀ id, id ∈ keys g → id ∈ allKeys gs :=
            fun id hid => mem_allKeys_of_getElem gs j g hj id hid
          have hndg : (keys g).Nodup := nodup_keys_of_getElem gs hnds j g hj
          have hLL1 : ∀ e ∈ g, L e.1 = L1 e.1 := by
            intro e he
            have hk : e.1 ∈ allKeys gs := hsub _ (List.mem_map_of_mem _ he)
            exact (hframe0 _ (fun hh => hdisj hh hk)).symm
          obtain ⟨t, ht, h1, h2, h3⟩ := scanGroup_congr g L L1 hndg hLL1 s hs
          refine ⟨t, ht, fun e he => ?_⟩
          obtain ⟨ax, ax1, hax, hax1, ho⟩ := hm e he
          refine ⟨ax, ax1, by rw [hLL1 e he]; exact hax, hax1, ?_⟩
          have hi : i + (j + 1) = i + 1 + j := by omega
          rw [hi]
          exact MemberOutcome_congr K _ s t e.2 ax ax1 h1 h2 h3 ho

theorem prepAxis_domain (ax : Axis) : (prepAxis ax).domain = ax.domain := by
  simp [prepAxis, setScale, snapshotInput_domain]

theorem prepAxis_range (ax : Axis) : (prepAxis ax).range = ax.range := by
  simp [prepAxis, setScale, snapshotInput_range]

theorem prepAxis_pixels (ax : Axis) : (prepAxis ax).pixels = ax.pixels := by
  simp [prepAxis, setScale, snapshotInput_pixels]

theorem prepAxis_m (ax : Axis) : (prepAxis ax)._m = scaleOf ax := by
  simp [prepAxis, scaleOf, setScale, snapshotInput_domain, snapshotInput_range,
    snapshotInput_pixels]

theorem snapshotInput_constrain (ax : Axis) : (snapshotInput ax).constrain = ax.constrain := by
  unfold snapshotInput; cases ax._inputDomain <;> cases h : ax._inputRange <;> simp [h]

theorem snapshotInput_autorange (ax : Axis) : (snapshotInput ax).autorange = ax.autorange := by
  unfold snapshotInput; cases ax._inputDomain <;> cases h : ax._inputRange <;> simp [h]

theorem snapshotInput_input (ax : Axis) : (snapshotInput ax)._input = ax._input := by
  unfold snapshotInput; cases ax._inputDomain <;> cases h : ax._inputRange <;> simp [h]

theorem snapshotInput_inputDomain (ax : Axis) :
    (snapshotInput ax)._inputDomain = some (inputDomainOf ax) := by
  unfold snapshotInput inputDomainOf
  cases h1 : ax._inputDomain <;> cases h : ax._inputRange <;> simp [h, h1]

theorem snapshotInput_inputRange (ax : Axis) :
    (snapshotInput ax)._inputRange = some (inputRangeOf ax) := by
  unfold snapshotInput inputRangeOf
  cases h1 : ax._inputDomain <;> cases h : ax._inputRange <;> simp [h, h1]

theorem prepAxis_constrain (ax : Axis) : (prepAxis ax).constrain = ax.constrain := by
  simp [prepAxis, setScale, snapshotInput_constrain]

theorem prepAxis_autorange (ax : Axis) : (prepAxis ax).autorange = ax.autorange := by
  simp [prepAxis, setScale, snapshotInput_autorange]

theorem prepAxis_input (ax : Axis) : (prepAxis ax)._input = ax._input := by
  simp [prepAxis, setScale, snapshotInput_input]

theorem prepAxis_inputDomain (ax : Axis) :
    (prepAxis ax)._inputDomain = some (inputDomainOf ax) := by
  simp [prepAxis, setScale, snapshotInput_inputDomain]

theorem prepAxis_inputRange (ax : Axis) :
    (prepAxis ax)._inputRange = some (inputRangeOf ax) := by
  simp [prepAxis, setScale, snapshotInput_inputRange]

theorem normScaleOf_eq (ax : Axis) (w : ℚ) :
    normScaleOf ax w
      = |ax.pixels| * |ax.domain.2 - ax.domain.1| / |ax.range.2 - ax.range.1| / w := by
  simp [normScaleOf, scaleOf, setScale, r2l, abs_div, abs_mul]

theorem normScaleOf_prepAxis (ax : Axis) (w : ℚ) :
    normScaleOf (prepAxis ax) w = normScaleOf ax w := by
  rw [normScaleOf_eq, normScaleOf_eq, prepAxis_domain, prepAxis_range, prepAxis_pixels]

theorem valid_iff (ax : Axis) : ax.valid = true ↔
    ax.pixels ≠ 0 ∧ ax.domain.1 ≠ ax.domain.2 ∧ ax.range.1 ≠ ax.range.2 ∧
      (inputDomainOf ax).1 ≠ (inputDomainOf ax).2 ∧
      (inputRangeOf ax).1 ≠ (inputRangeOf ax).2 := by
  unfold Axis.valid inputDomainOf inputRangeOf
  cases ax._inputDomain <;> cases ax._inputRange <;> simp <;> tauto

theorem normScaleOf_pos (ax : Axis) (w : ℚ) (hv : ax.valid = true) (hw : 0 < w) :
    0 < normScaleOf ax w := by
  obtain ⟨hp, hd, hr, _, _⟩ := (valid_iff ax).mp hv
  rw [normScaleOf_eq]
  have h1 : 0 < |ax.pixels| := abs_pos.mpr hp
  have h2 : 0 < |ax.domain.2 - ax.domain.1| := abs_pos.mpr (sub_ne_zero.mpr (Ne.symm hd))
  have h3 : 0 < |ax.range.2 - ax.range.1| := abs_pos.mpr (sub_ne_zero.mpr (Ne.symm hr))
  positivity

/-- The scale relation behind every branch of the second loop: if the new widths
`D1`, `R1` relate to the old widths `D`, `R` by `|D1| * |R| * k = |D| * |R1|`, the
normalised scale is divided by `k`. -/
theorem normScaleOf_rescaled (ax ax1 : Axis) (w k : ℚ) (hp : ax1.pixels = ax.pixels)
    (hk : 0 < k) (hr : ax.range.1 ≠ ax.range.2) (hr1 : ax1.range.1 ≠ ax1.range.2)
    (h : |ax1.domain.2 - ax1.domain.1| * |ax.range.2 - ax.range.1| * k
      = |ax.domain.2 - ax.domain.1| * |ax1.range.2 - ax1.range.1|) :
    normScaleOf ax1 w = normScaleOf ax w / k := by
  rw [normScaleOf_eq, normScaleOf_eq, hp]
  have h3 : 0 < |ax.range.2 - ax.range.1| := abs_pos.mpr (sub_ne_zero.mpr (Ne.symm hr))
  have h4 : 0 < |ax1.range.2 - ax1.range.1| := abs_pos.mpr (sub_ne_zero.mpr (Ne.symm hr1))
  by_cases hw : w = 0
  · simp [hw]
  · field_simp
    linear_combination (|ax.pixels| * w) * h

theorem resizedDomain_width (d : ℚ × ℚ) (c f : ℚ) :
    (resizedDomain d c f).2 - (resizedDomain d c f).1 = (d.2 - d.1) / f := by
  simp only [resizedDomain]; ring

theorem scaleZoom_width (ax : Axis) (f : ℚ) :
    (scaleZoom ax f).range.2 - (scaleZoom ax f).range.1 = (ax.range.2 - ax.range.1) * f := by
  simp only [scaleZoom, r2l]; ring

theorem foldlM_le (step : ℚ → Nat → Option ℚ)
    (hstep : ∀ r k r1, step r k = some r1 → r1 ≤ r) :
    ∀ (ks : List Nat) (r0 r : ℚ), ks.foldlM step r0 = some r → r ≤ r0 := by
  intro ks
  induction ks with
  | nil => intro r0 r h; simp at h; rw [h]
  | cons k ks ih =>
    intro r0 r h
    rw [List.foldlM_cons] at h
    cases hs : step r0 k with
    | none => simp [hs] at h
    | some r1 =>
      simp only [hs, Option.bind_eq_bind, Option.some_bind] at h
      exact le_trans (ih _ _ h) (hstep _ _ _ hs)

theorem foldlM_ge (step : ℚ → Nat → Option ℚ)
    (hstep : ∀ r k r1, step r k = some r1 → r ≤ r1) :
    ∀ (ks : List Nat) (r0 r : ℚ), ks.foldlM step r0 = some r → r0 ≤ r := by
  intro ks
  induction ks with
  | nil => intro r0 r h; simp at h; rw [h]
  | cons k ks ih =>
    intro r0 r h
    rw [List.foldlM_cons] at h
    cases hs : step r0 k with
    | none => simp [hs] at h
    | some r1 =>
      simp only [hs, Option.bind_eq_bind, Option.some_bind] at h
      exact le_trans (hstep _ _ _ hs) (ih _ _ h)

theorem repairMin_le (i : Nat) (ax : Axis) (m o r0 r : ℚ)
    (h : repairMin i ax m o r0 = some r) : r ≤ r0 := by
  refine foldlM_le _ ?_ _ _ _ h
  intro r k r1 hs
  cases hp : ax._min[i]? with
  | none => simp [hp] at hs
  | some p =>
    simp only [hp, Option.some.injEq] at hs
    rw [← hs]
    split_ifs with hc
    · exact le_of_lt hc.2
    · exact le_refl _

theorem repairMax_ge (i : Nat) (ax : Axis) (m o r0 r : ℚ)
    (h : repairMax i ax m o r0 = some r) : r0 ≤ r := by
  refine foldlM_ge _ ?_ _ _ _ h
  intro r k r1 hs
  cases hp : ax._max[i]? with
  | none => simp [hp] at hs
  | some p =>
    simp only [hp, Option.some.injEq] at hs
    rw [← hs]
    split_ifs with hc
    · exact le_of_lt hc.2
    · exact le_refl _

theorem autorangeRepair_spec (K : Consts) (i : Nat) (a : Axis) (f : ℚ) (a3 : Axis) (f3 : ℚ)
    (h : autorangeRepair K i a f = some (a3, f3)) :
    ∃ lo hi, lo ≤ min a.range.1 a.range.2 ∧ max a.range.1 a.range.2 ≤ hi ∧
      a3.range = (if a.range.1 < a.range.2 then (lo, hi) else (hi, lo)) ∧
      f3 = f / ((hi - lo) / (2 * (max a.range.1 a.range.2
        - (min a.range.1 a.range.2 + max a.range.1 a.range.2) / 2))) ∧
      a3.pixels = a.pixels ∧ a3._inputDomain = a._inputDomain ∧
      a3.constraintoward = a.constraintoward := by
  unfold autorangeRepair at h
  simp only [Option.bind_eq_some] at h
  obtain ⟨a1, hu, lo, h1, hi, h2, h3⟩ := h
  simp only [Option.some.injEq, Prod.mk.injEq] at h3
  obtain ⟨h3, h4⟩ := h3
  cases hd : a._inputDomain with
  | none => simp [updateDomain, hd] at hu
  | some d =>
    rw [updateDomain_eq K a f d hd] at hu
    cases hu
    refine ⟨lo, hi, repairMin_le _ _ _ _ _ _ h1, repairMax_ge _ _ _ _ _ _ h2, ?_, h4.symm,
      ?_, ?_, ?_⟩
    · rw [← h3]; simp [setScale]
    · rw [← h3]; simp [setScale]
    · rw [← h3]; simp [setScale, hd]
    · rw [← h3]; simp [setScale]

theorem updateDomain_widths (K : Consts) (a a1 : Axis) (f : ℚ) (I : ℚ × ℚ)
    (hI : a._inputDomain = some I) (h : updateDomain K a f = some a1) :
    a1.pixels = a.pixels ∧ a1.range = a.range ∧
      a1.domain.2 - a1.domain.1 = (I.2 - I.1) / f := by
  rw [updateDomain_eq K a f I hI] at h
  cases h
  exact ⟨rfl, rfl, resizedDomain_width _ _ _⟩

theorem finalUpdate_widths (K : Consts) (i : Nat) (a a1 : Axis) (f2 : ℚ) (I : ℚ × ℚ)
    (hI : a._inputDomain = some I) (hR : a.range.1 ≠ a.range.2) (hf2 : f2 ≠ 0)
    (h : (if a.autorange then
        (autorangeRepair K i a f2).bind fun axg => updateDomain K axg.1 axg.2
      else updateDomain K a f2) = some a1) :
    a1.pixels = a.pixels ∧ a1.range.1 ≠ a1.range.2 ∧
      |a1.domain.2 - a1.domain.1| * |a.range.2 - a.range.1| * |f2|
        = |I.2 - I.1| * |a1.range.2 - a1.range.1| := by
  have hRw : a.range.2 - a.range.1 ≠ 0 := sub_ne_zero.mpr (Ne.symm hR)
  have hfa := abs_pos.mpr hf2
  by_cases hauto : a.autorange = true
  · simp only [hauto, if_true, Option.bind_eq_some] at h
    obtain ⟨⟨a3, f3⟩, hrep, hu⟩ := h
    obtain ⟨lo, hi, hlo, hhi, hr3, hf3, hp3, hI3, _⟩ := autorangeRepair_spec K i a f2 a3 f3 hrep
    obtain ⟨hp, hr, hw⟩ := updateDomain_widths K a3 a1 f3 I (by rw [hI3, hI]) hu
    rw [hw, hr, hr3, hp, hp3, hf3]
    rcases lt_or_gt_of_ne hR with hlt | hgt
    · have hmin : min a.range.1 a.range.2 = a.range.1 := min_eq_left (le_of_lt hlt)
      have hmax : max a.range.1 a.range.2 = a.range.2 := max_eq_right (le_of_lt hlt)
      rw [hmin] at hlo
      rw [hmax] at hhi
      have hpos : 0 < hi - lo := by linarith
      have hpos2 : 0 < a.range.2 - a.range.1 := by linarith
      simp only [hlt, if_true, hmin, hmax]
      refine ⟨trivial, ?_, ?_⟩
      · intro hh; linarith
      rw [abs_div, abs_div, abs_div, abs_mul, abs_of_pos hpos, abs_of_pos hpos2]
      have h2 : |(2:ℚ)| = 2 := abs_of_pos (by norm_num)
      have h3 : |a.range.2 - (a.range.1 + a.range.2) / 2| = (a.range.2 - a.range.1) / 2 := by
        rw [abs_of_pos (by linarith)]; ring
      rw [h2, h3]
      field_simp
      ring
    · have hmin : min a.range.1 a.range.2 = a.range.2 := min_eq_right (le_of_lt hgt)
      have hmax : max a.range.1 a.range.2 = a.range.1 := max_eq_left (le_of_lt hgt)
      rw [hmin] at hlo
      rw [hmax] at hhi
      have hpos : 0 < hi - lo := by linarith
      have hpos2 : 0 < a.range.1 - a.range.2 := by linarith
      have hnlt : ¬ a.range.1 < a.range.2 := not_lt.mpr (le_of_lt hgt)
      simp only [hnlt, if_false, hmin, hmax]
      refine ⟨trivial, ?_, ?_⟩
      · intro hh; linarith
      rw [abs_div, abs_div, abs_div, abs_mul, abs_of_pos hpos, abs_sub_comm lo hi,
        abs_of_pos hpos, abs_sub_comm a.range.2 a.range.1, abs_of_pos hpos2]
      have h2 : |(2:ℚ)| = 2 := abs_of_pos (by norm_num)
      have h3 : |a.range.1 - (a.range.2 + a.range.1) / 2| = (a.range.1 - a.range.2) / 2 := by
        rw [abs_of_pos (by linarith)]; ring
      rw [h2, h3]
      field_simp
      ring
  · simp only [hauto, if_false] at h
    obtain ⟨hp, hr, hw⟩ := updateDomain_widths K a a1 f2 I hI h
    rw [hw, hr, hp, abs_div]
    refine ⟨rfl, hR, ?_⟩
    field_simp

theorem scaleZoom_domain (ax : Axis) (f : ℚ) : (scaleZoom ax f).domain = ax.domain := rfl

theorem constrainDomain_widths (K : Consts) (i : Nat) (a a1 : Axis) (f0 : ℚ) (I J : ℚ × ℚ)
    (hI : a._inputDomain = some I) (hJ : a._inputRange = some J) (hf0 : 0 < f0)
    (hD : a.domain.1 ≠ a.domain.2) (hR : a.range.1 ≠ a.range.2)
    (hIn : I.1 ≠ I.2) (hJn : J.1 ≠ J.2)
    (h : constrainDomain K i a f0 = some a1) :
    a1.pixels = a.pixels ∧ a1.range.1 ≠ a1.range.2 ∧
      |a1.domain.2 - a1.domain.1| * |a.range.2 - a.range.1| * f0
        = |a.domain.2 - a.domain.1| * |a1.range.2 - a1.range.1| := by
  have hDw : a.domain.2 - a.domain.1 ≠ 0 := sub_ne_zero.mpr (Ne.symm hD)
  have hRw : a.range.2 - a.range.1 ≠ 0 := sub_ne_zero.mpr (Ne.symm hR)
  have hIw : I.2 - I.1 ≠ 0 := sub_ne_zero.mpr (Ne.symm hIn)
  have hJw : J.2 - J.1 ≠ 0 := sub_ne_zero.mpr (Ne.symm hJn)
  have hDa := abs_pos.mpr hDw
  have hRa := abs_pos.mpr hRw
  have hIa := abs_pos.mpr hIw
  have hJa := abs_pos.mpr hJw
  have hf1 : f0 / ((a.domain.2 - a.domain.1) / (I.2 - I.1)) ≠ 0 :=
    div_ne_zero (ne_of_gt hf0) (div_ne_zero hDw hIw)
  have hf1a : |f0 / ((a.domain.2 - a.domain.1) / (I.2 - I.1))|
      = f0 * |I.2 - I.1| / |a.domain.2 - a.domain.1| := by
    rw [abs_div, abs_div, abs_of_pos hf0]; field_simp
  unfold constrainDomain at h
  simp only [hI, hJ, r2l] at h
  by_cases hA : f0 / ((a.domain.2 - a.domain.1) / (I.2 - I.1)) *
      ((a.range.2 - a.range.1) / (J.2 - J.1)) < 1
  · simp only [hA, if_true, Option.some.injEq] at h
    subst h
    refine ⟨rfl, ?_, ?_⟩
    · intro hh
      have h0 := scaleZoom_width
        { a with domain := I, _inputDomain := some I, _inputRange := some J,
                 _input := { a._input with domain := some I } }
        (f0 / ((a.domain.2 - a.domain.1) / (I.2 - I.1)))
      rw [hh, sub_self] at h0
      exact (mul_ne_zero hRw hf1) h0.symm
    · rw [scaleZoom_width, scaleZoom_domain]
      simp only [abs_mul, hf1a]
      field_simp
      ring
  · simp only [hA, if_false] at h
    by_cases hB : (a.range.2 - a.range.1) / (J.2 - J.1) < 1
    · simp only [hB, if_true] at h
      have hf2 : f0 / ((a.domain.2 - a.domain.1) / (I.2 - I.1)) *
          ((a.range.2 - a.range.1) / (J.2 - J.1)) ≠ 0 := by
        intro hh; rw [hh] at hA; exact hA (by norm_num)
      obtain ⟨hp, hr1, hrel⟩ := finalUpdate_widths K i
        { a with range := J, _inputDomain := some I, _inputRange := some J,
                 _input := { a._input with range := some J } } a1 _ I rfl hJn hf2 h
      refine ⟨hp, hr1, ?_⟩
      simp only at hrel
      rw [abs_mul, hf1a, abs_div] at hrel
      field_simp at hrel
      refine mul_left_cancel₀ (mul_ne_zero (ne_of_gt hIa) (ne_of_gt hJa)) ?_
      linear_combination hrel
    · simp only [hB, if_false] at h
      obtain ⟨hp, hr1, hrel⟩ := finalUpdate_widths K i a a1 _ I hI hR hf1 h
      refine ⟨hp, hr1, ?_⟩
      rw [hf1a] at hrel
      field_simp at hrel
      refine mul_left_cancel₀ (ne_of_gt hIa) ?_
      linear_combination hrel

theorem reconcile_norm (K : Consts) (i : Nat) (ax ax1 : Axis) (w ms : ℚ)
    (hv : ax.valid = true) (hw : 0 < w) (hms : 0 < ms)
    (h : reconcileAxis K i (some ms) (normScaleOf ax w) (prepAxis ax) = some ax1) :
    normScaleOf ax1 w = ms := by
  obtain ⟨hp, hd, hr, hId, hIr⟩ := (valid_iff ax).mp hv
  have hn := normScaleOf_pos ax w hv hw
  have hk : 0 < normScaleOf ax w / ms := div_pos hn hms
  have hfin : normScaleOf (prepAxis ax) w / (normScaleOf ax w / ms) = ms := by
    rw [normScaleOf_prepAxis]
    field_simp
  have hr0 : (prepAxis ax).range.1 ≠ (prepAxis ax).range.2 := by rw [prepAxis_range]; exact hr
  have hd0 : (prepAxis ax).domain.1 ≠ (prepAxis ax).domain.2 := by
    rw [prepAxis_domain]; exact hd
  unfold reconcileAxis at h
  by_cases hc : some (normScaleOf ax w) ≠ some ms ∨ (prepAxis ax).constrain = Constrain.domain
  · simp only [hc, if_true, divInf] at h
    cases hm : (prepAxis ax).constrain with
    | range =>
      simp only [hm, Option.some.injEq] at h
      subst h
      rw [normScaleOf_rescaled (prepAxis ax)
        (scaleZoom (prepAxis ax) (normScaleOf ax w / ms)) w _ rfl hk hr0 ?_ ?_, hfin]
      · intro hh
        have h0 := scaleZoom_width (prepAxis ax) (normScaleOf ax w / ms)
        rw [hh, sub_self] at h0
        exact (mul_ne_zero (sub_ne_zero.mpr (Ne.symm hr0)) (ne_of_gt hk)) h0.symm
      · rw [scaleZoom_width, scaleZoom_domain, abs_mul, abs_of_pos hk]
        ring
    | domain =>
      simp only [hm] at h
      obtain ⟨hp1, hr1, hrel⟩ := constrainDomain_widths K i (prepAxis ax) ax1 _
        (inputDomainOf ax) (inputRangeOf ax) (prepAxis_inputDomain ax) (prepAxis_inputRange ax)
        hk hd0 hr0 hId hIr h
      rw [normScaleOf_rescaled (prepAxis ax) ax1 w _ hp1 hk hr0 hr1 hrel, hfin]
  · simp only [hc, if_false, Option.some.injEq] at h
    subst h
    have : normScaleOf ax w = ms := by
      by_contra hne
      exact hc (Or.inl (fun hh => hne (Option.some.inj hh)))
    rw [normScaleOf_prepAxis, this]

theorem accMin_some (ps : List (ℚ × Bool)) :
    ∀ m0 : ℚ, ∃ m, accMin (some m0) ps = some m ∧ m ≤ m0 ∧ ∀ p ∈ ps, m ≤ p.1 := by
  induction ps with
  | nil => intro m0; exact ⟨m0, rfl, le_refl _, fun p hp => by cases hp⟩
  | cons p ps ih =>
    intro m0
    obtain ⟨m, h1, h2, h3⟩ := ih (min m0 p.1)
    refine ⟨m, h1, le_trans h2 (min_le_left _ _), ?_⟩
    intro q hq
    rcases List.mem_cons.mp hq with rfl | hq
    · exact le_trans h2 (min_le_right _ _)
    · exact h3 q hq

theorem accMin_none (ps : List (ℚ × Bool)) (hne : ps ≠ []) :
    ∃ m, accMin none ps = some m ∧ ∀ p ∈ ps, m ≤ p.1 := by
  cases ps with
  | nil => exact absurd rfl hne
  | cons p ps =>
    obtain ⟨m, h1, h2, h3⟩ := accMin_some ps p.1
    refine ⟨m, h1, ?_⟩
    intro q hq
    rcases List.mem_cons.mp hq with rfl | hq
    · exact h2
    · exact h3 q hq

theorem accMax_ge (ps : List (ℚ × Bool)) :
    ∀ a : ℚ, a ≤ accMax a ps ∧ ∀ p ∈ ps, p.1 ≤ accMax a ps := by
  induction ps with
  | nil => intro a; exact ⟨le_refl _, fun p hp => by cases hp⟩
  | cons p ps ih =>
    intro a
    obtain ⟨h1, h2⟩ := ih (max a p.1)
    refine ⟨le_trans (le_max_left _ _) h1, ?_⟩
    intro q hq
    rcases List.mem_cons.mp hq with rfl | hq
    · exact le_trans (le_max_right _ _) h1
    · exact h2 q hq

theorem accMatch_mem (ps : List (ℚ × Bool)) :
    ∀ (a : Option ℚ) (ms : ℚ), accMatch a ps = some ms →
      a = some ms ∨ ∃ p ∈ ps, p.2 = false ∧ p.1 = ms := by
  induction ps with
  | nil => intro a ms h; exact Or.inl h
  | cons p ps ih =>
    intro a ms h
    have h1 : accMatch (if p.2 then a else some (minInf a p.1)) ps = some ms := h
    rcases ih _ ms h1 with h2 | ⟨q, hq, h3⟩
    · cases hp : p.2 with
      | true =>
        simp only [hp, if_true] at h2
        exact Or.inl h2
      | false =>
        simp only [hp, Bool.false_eq_true, if_false, Option.some.injEq] at h2
        cases a with
        | none => exact Or.inr ⟨p, List.mem_cons_self _ _, hp, h2⟩
        | some m0 =>
          simp only [minInf] at h2
          rcases min_choice m0 p.1 with h4 | h4
          · left; rw [← h2, h4]
          · right; exact ⟨p, List.mem_cons_self _ _, hp, by rw [← h2, h4]⟩
    · exact Or.inr ⟨q, List.mem_cons_of_mem _ hq, h3⟩

theorem accMatch_isSome (ps : List (ℚ × Bool)) :
    ∀ a : Option ℚ, (a.isSome = true ∨ ∃ p ∈ ps, p.2 = false) →
      ∃ ms, accMatch a ps = some ms := by
  induction ps with
  | nil =>
    intro a h
    rcases h with h | ⟨p, hp, _⟩
    · exact Option.isSome_iff_exists.mp h
    · cases hp
  | cons p ps ih =>
    intro a h
    have hstep : accMatch a (p :: ps)
        = accMatch (if p.2 then a else some (minInf a p.1)) ps := rfl
    rw [hstep]
    apply ih
    rcases h with h | ⟨q, hq, hq2⟩
    · left; split_ifs <;> simp [h]
    · rcases List.mem_cons.mp hq with rfl | hq
      · left; simp [hq2]
      · exact Or.inr ⟨q, hq, hq2⟩

theorem accMin_const (ps : List (ℚ × Bool)) (c : ℚ) (h : ∀ p ∈ ps, p.1 = c) :
    accMin (some c) ps = some c ∧ accMax c ps = c := by
  induction ps with
  | nil => exact ⟨rfl, rfl⟩
  | cons p ps ih =>
    have hp : p.1 = c := h p (List.mem_cons_self _ _)
    obtain ⟨h1, h2⟩ := ih fun q hq => h q (List.mem_cons_of_mem _ hq)
    have e1 : accMin (some c) (p :: ps) = accMin (some (min c p.1)) ps := rfl
    have e2 : accMax c (p :: ps) = accMax (max c p.1) ps := rfl
    rw [e1, e2, hp, min_self, max_self]
    exact ⟨h1, h2⟩

theorem accMin_fst (a : Option ℚ) (ps : List (ℚ × Bool)) :
    accMin a ps = (ps.map Prod.fst).foldl (fun a x => some (minInf a x)) a := by
  simp [accMin, List.foldl_map]

theorem accMax_fst (a : ℚ) (ps : List (ℚ × Bool)) :
    accMax a ps = (ps.map Prod.fst).foldl (fun a x => max a x) a := by
  simp [accMax, List.foldl_map]

theorem scanGroup_acc (g : Group) (L : Layout) (s : Scan) (hnd : (keys g).Nodup)
    (hs : scanGroup g L = some s) :
    s.minScale = accMin none (g.map (memberScale L)) ∧
    s.maxScale = accMax 0 (g.map (memberScale L)) ∧
    s.matchScale = accMatch none (g.map (memberScale L)) := by
  rw [scanGroup_eq g L hnd (scanGroup_known g L s hs)] at hs
  cases hs
  exact ⟨rfl, rfl, rfl⟩

theorem memberScale_mem (g : Group) (L : Layout) (e : String × ℚ) (ax : Axis) (he : e ∈ g)
    (hax : L e.1 = some ax) :
    (normScaleOf ax e.2, ax._constraintShrinkable) ∈ g.map (memberScale L) :=
  List.mem_map.mpr ⟨e, he, by simp [memberScale, hax]⟩

/-- In a group that passes the tolerance test, every pair of normalised scales is
within the tolerance. -/
theorem skip_pairs (K : Consts) (ps : List (ℚ × Bool)) (hAE : 0 ≤ K.ALMOST_EQUAL)
    (h : almostEqual K (accMin none ps) (accMax 0 ps) = true) (p q : ℚ × Bool)
    (hp : p ∈ ps) (hq : q ∈ ps) :
    min p.1 q.1 > K.ALMOST_EQUAL * max p.1 q.1 := by
  obtain ⟨m, hm, hle⟩ := accMin_none ps (List.ne_nil_of_mem hp)
  have hmax := (accMax_ge ps 0).2
  rw [hm] at h
  simp only [almostEqual, decide_eq_true_eq] at h
  have h1 : m ≤ min p.1 q.1 := le_min (hle p hp) (hle q hq)
  have h2 : max p.1 q.1 ≤ accMax 0 ps := max_le (hmax p hp) (hmax q hq)
  have h3 := mul_le_mul_of_nonneg_left h2 hAE
  linarith

/-- A group whose normalised scales all equal a positive `c` passes the tolerance
test. -/
theorem skip_of_const (K : Consts) (ps : List (ℚ × Bool)) (c : ℚ) (hAE : K.ALMOST_EQUAL < 1)
    (hc : 0 < c) (h : ∀ p ∈ ps, p.1 = c) :
    almostEqual K (accMin none ps) (accMax 0 ps) = true := by
  cases ps with
  | nil => rfl
  | cons p ps =>
    have hp : p.1 = c := h p (List.mem_cons_self _ _)
    obtain ⟨h1, h2⟩ := accMin_const ps c fun q hq => h q (List.mem_cons_of_mem _ hq)
    have e1 : accMin none (p :: ps) = accMin (some p.1) ps := rfl
    have e2 : accMax 0 (p :: ps) = accMax (max 0 p.1) ps := rfl
    rw [e1, e2, hp, max_eq_right (le_of_lt hc), h1, h2]
    simp only [almostEqual, decide_eq_true_eq]
    nlinarith

theorem validInput_nodup (groups : List Group) (L : Layout) (hv : validInput groups L = true) :
    (allKeys groups).Nodup := by
  simp only [validInput, Bool.and_eq_true, decide_eq_true_eq] at hv
  exact hv.1

theorem validInput_member (groups : List Group) (L : Layout) (hv : validInput groups L = true)
    (g : Group) (hg : g ∈ groups) (e : String × ℚ) (he : e ∈ g) :
    0 < e.2 ∧ ∃ ax, L e.1 = some ax ∧ ax.valid = true := by
  simp only [validInput, Bool.and_eq_true, decide_eq_true_eq, List.all_eq_true] at hv
  have h := hv.2 g hg e he
  simp only [validMember, Bool.and_eq_true, decide_eq_true_eq] at h
  refine ⟨h.1, ?_⟩
  cases hL : L e.1 with
  | none => simp [hL] at h
  | some ax => exact ⟨ax, rfl, by simpa [hL] using h.2⟩

theorem enforce_member (K : Consts) (groups : List Group) (L L2 : Layout)
    (h : enforceAxisConstraints K groups L = some L2) (hnd : (allKeys groups).Nodup)
    (g : Group) (hg : g ∈ groups) :
    (keys g).Nodup ∧ ∃ j s, groups[j]? = some g ∧ scanGroup g L = some s ∧
      ∀ e ∈ g, ∃ ax ax1, L e.1 = some ax ∧ L2 e.1 = some ax1 ∧
        MemberOutcome K j s e.2 ax ax1 := by
  obtain ⟨j, hj⟩ := List.getElem?_of_mem hg
  obtain ⟨s, hs, hm⟩ := (enforceFrom_spec K groups 0 L L2 h hnd).2 j g hj
  refine ⟨nodup_keys_of_getElem groups hnd j g hj, j, s, hj, hs, ?_⟩
  intro e he
  obtain ⟨ax, ax1, h1, h2, h3⟩ := hm e he
  exact ⟨ax, ax1, h1, h2, by simpa using h3⟩

/-- What the first call leaves of a group: a skipped group keeps the axes of the
first loop; any other group with a finite `matchScale` ends with every normalised
scale equal to it. -/
theorem first_call_group (K : Consts) (groups : List Group) (L L2 : Layout)
    (hv : validInput groups L = true)
    (hfin : ∀ g ∈ groups, ∀ s, scanGroup g L = some s →
      almostEqual K s.minScale s.maxScale = false → hasUnflagged L g = true)
    (h : enforceAxisConstraints K groups L = some L2) (g : Group) (hg : g ∈ groups) :
    ∃ s, scanGroup g L = some s ∧
      ((almostEqual K s.minScale s.maxScale = true ∧
          ∀ e ∈ g, ∃ ax, L e.1 = some ax ∧ L2 e.1 = some (prepAxis ax)) ∨
        (almostEqual K s.minScale s.maxScale = false ∧
          ∃ ms, 0 < ms ∧ s.matchScale = some ms ∧
            ∀ e ∈ g, ∃ ax1, L2 e.1 = some ax1 ∧ normScaleOf ax1 e.2 = ms)) := by
  have hnd := validInput_nodup groups L hv
  obtain ⟨hndg, j, s, hj, hs, hm⟩ := enforce_member K groups L L2 h hnd g hg
  refine ⟨s, hs, ?_⟩
  cases hc : almostEqual K s.minScale s.maxScale with
  | true =>
    left
    refine ⟨rfl, fun e he => ?_⟩
    obtain ⟨ax, ax1, h1, h2, h3⟩ := hm e he
    simp only [MemberOutcome, hc, if_true] at h3
    exact ⟨ax, h1, by rw [h2, h3]⟩
  | false =>
    right
    refine ⟨rfl, ?_⟩
    obtain ⟨_, _, hmatch⟩ := scanGroup_acc g L s hndg hs
    have hun := hfin g hg s hs hc
    simp only [hasUnflagged, List.any_eq_true] at hun
    obtain ⟨e0, he0, hf0⟩ := hun
    obtain ⟨_, ax0, hax0, _⟩ := validInput_member groups L hv g hg e0 he0
    simp only [hax0, Bool.not_eq_true'] at hf0
    obtain ⟨ms, hms⟩ := accMatch_isSome (g.map (memberScale L)) none
      (Or.inr ⟨_, memberScale_mem g L e0 ax0 he0 hax0, hf0⟩)
    have hpos : 0 < ms := by
      rcases accMatch_mem _ none ms hms with h0 | ⟨p, hp, _, hp1⟩
      · cases h0
      · obtain ⟨e1, he1, rfl⟩ := List.mem_map.mp hp
        obtain ⟨hw1, ax1, hax1, hv1⟩ := validInput_member groups L hv g hg e1 he1
        rw [← hp1]
        simp only [memberScale, hax1]
        exact normScaleOf_pos ax1 e1.2 hv1 hw1
    rw [← hmatch] at hms
    refine ⟨ms, hpos, hms, fun e he => ?_⟩
    obtain ⟨ax, ax1, h1, h2, h3⟩ := hm e he
    obtain ⟨hw, ax', hax', hvax⟩ := validInput_member groups L hv g hg e he
    rw [h1] at hax'
    cases hax'
    simp only [MemberOutcome, hc, Bool.false_eq_true, if_false, hms] at h3
    exact ⟨ax1, h2, reconcile_norm K j ax ax1 e.2 ms hvax hw hpos h3⟩

theorem nodup_keys_of_mem (gs : List Group) (hnd : (allKeys gs).Nodup) (g : Group)
    (hg : g ∈ gs) : (keys g).Nodup := by
  obtain ⟨j, hj⟩ := List.getElem?_of_mem hg
  exact nodup_keys_of_getElem gs hnd j g hj

theorem mem_allKeys_of_mem (gs : List Group) (g : Group) (hg : g ∈ gs) (id : String)
    (hid : id ∈ keys g) : id ∈ allKeys gs := by
  obtain ⟨j, hj⟩ := List.getElem?_of_mem hg
  exact mem_allKeys_of_getElem gs j g hj id hid

/-- A call in which every group passes the tolerance test only runs the first loop on
every member. -/
theorem enforceFrom_all_skip (K : Consts) (gs : List Group) :
    ∀ (i : Nat) (M : Layout), (allKeys gs).Nodup →
      (∀ g ∈ gs, ∃ s, scanGroup g M = some s ∧ almostEqual K s.minScale s.maxScale = true) →
      ∃ M2, enforceFrom K i gs M = some M2 ∧
        ∀ id, M2 id = if id ∈ allKeys gs then (M id).map prepAxis else M id := by
  induction gs with
  | nil =>
    intro i M _ _
    exact ⟨M, rfl, fun id => by simp [allKeys]⟩
  | cons g gs ih =>
    intro i M hnd hall
    simp only [allKeys] at hnd
    obtain ⟨hnd0, hnds, hdisj⟩ := List.nodup_append.mp hnd
    obtain ⟨s, hs, hskip⟩ := hall g (List.mem_cons_self _ _)
    have hs1 := hs
    rw [scanGroup_eq g M hnd0 (scanGroup_known g M s hs)] at hs1
    have hlay : ∀ id, s.layout id = if id ∈ keys g then (M id).map prepAxis else M id := by
      intro id; cases hs1; rfl
    have hg : enforceGroup K i g M = some s.layout := by
      simp [enforceGroup, hs, hskip]
    have hall1 : ∀ g1 ∈ gs, ∃ s1, scanGroup g1 s.layout = some s1 ∧
        almostEqual K s1.minScale s1.maxScale = true := by
      intro g1 hg1
      obtain ⟨s1, hs1', hsk1⟩ := hall g1 (List.mem_cons_of_mem _ hg1)
      have hagree : ∀ e ∈ g1, s.layout e.1 = M e.1 := by
        intro e he
        have hk : e.1 ∈ allKeys gs := mem_allKeys_of_mem gs g1 hg1 _ (List.mem_map_of_mem _ he)
        rw [hlay, if_neg (fun hh => hdisj hh hk)]
      obtain ⟨t, ht, h1, h2, _⟩ := scanGroup_congr g1 s.layout M
        (nodup_keys_of_mem gs hnds g1 hg1) hagree s1 hs1'
      exact ⟨t, ht, by rw [h1, h2]; exact hsk1⟩
    obtain ⟨M2, hM2, hM2l⟩ := ih (i + 1) s.layout hnds hall1
    refine ⟨M2, by simp [enforceFrom, hg, hM2], fun id => ?_⟩
    rw [hM2l id, hlay id]
    by_cases h1 : id ∈ keys g
    · have h2 : id ∉ allKeys gs := fun hh => hdisj h1 hh
      simp [allKeys, h1, h2]
    · by_cases h2 : id ∈ allKeys gs <;> simp [allKeys, h1, h2]

theorem matchScale_pos (groups : List Group) (L : Layout) (hv : validInput groups L = true)
    (g : Group) (hg : g ∈ groups) (s : Scan) (hs : scanGroup g L = some s) (ms : ℚ)
    (hms : s.matchScale = some ms) : 0 < ms := by
  have hndg := nodup_keys_of_mem groups (validInput_nodup groups L hv) g hg
  obtain ⟨_, _, hmatch⟩ := scanGroup_acc g L s hndg hs
  rw [hmatch] at hms
  rcases accMatch_mem _ none ms hms with h0 | ⟨p, hp, _, hp1⟩
  · cases h0
  · obtain ⟨e1, he1, rfl⟩ := List.mem_map.mp hp
    obtain ⟨hw1, ax1, hax1, hv1⟩ := validInput_member groups L hv g hg e1 he1
    rw [← hp1]
    simp only [memberScale, hax1]
    exact normScaleOf_pos ax1 e1.2 hv1 hw1

theorem constrainDomain_switch (K : Consts) (i : Nat) (a : Axis) (f0 : ℚ) (I J : ℚ × ℚ)
    (hI : a._inputDomain = some I) (hJ : a._inputRange = some J)
    (hA : f0 / ((a.domain.2 - a.domain.1) / (I.2 - I.1)) *
      ((a.range.2 - a.range.1) / (J.2 - J.1)) < 1) :
    constrainDomain K i a f0 = some (scaleZoom
      { a with domain := I, _input := { a._input with domain := some I } }
      (f0 / ((a.domain.2 - a.domain.1) / (I.2 - I.1)))) := by
  unfold constrainDomain
  simp only [hI, hJ, r2l, hA, if_true]

/-- The repair writes only `domain`, `_m`, `range` and `_input`. -/
theorem autorangeRepair_frame (K : Consts) (i : Nat) (a : Axis) (f : ℚ) (a3 : Axis) (f3 : ℚ)
    (h : autorangeRepair K i a f = some (a3, f3)) :
    a3._inputDomain = a._inputDomain ∧ a3._inputRange = a._inputRange ∧
      a3._constraintShrinkable = a._constraintShrinkable ∧ a3.constrain = a.constrain ∧
      a3.autorange = a.autorange ∧ a3._min = a._min ∧ a3._max = a._max := by
  unfold autorangeRepair at h
  simp only [Option.bind_eq_some] at h
  obtain ⟨a1, hu, lo, h1, hi, h2, h3⟩ := h
  simp only [Option.some.injEq, Prod.mk.injEq] at h3
  obtain ⟨h3, _⟩ := h3
  cases hd : a._inputDomain with
  | none => simp [updateDomain, hd] at hu
  | some d =>
    rw [updateDomain_eq K a f d hd] at hu
    cases hu
    rw [← h3]
    simp [setScale, hd]

/-- The domain updater writes only `domain` and `_input.domain`. -/
theorem updateDomain_frame (K : Consts) (a a1 : Axis) (f : ℚ) (h : updateDomain K a f = some a1) :
    a1._inputDomain = a._inputDomain ∧ a1._inputRange = a._inputRange ∧
      a1._constraintShrinkable = a._constraintShrinkable ∧ a1._m = a._m ∧
      a1.range = a.range ∧ a1._input.range = a._input.range := by
  cases hd : a._inputDomain with
  | none => simp [updateDomain, hd] at h
  | some d =>
    rw [updateDomain_eq K a f d hd] at h
    cases h
    simp [hd]

/-- The value of the domain branch on an axis that is not autorange. -/
theorem constrainDomain_plain (K : Consts) (i : Nat) (a : Axis) (f0 : ℚ) (I J : ℚ × ℚ)
    (hI : a._inputDomain = some I) (hJ : a._inputRange = some J) (hauto : a.autorange = false) :
    constrainDomain K i a f0 =
      if f0 / ((a.domain.2 - a.domain.1) / (I.2 - I.1)) *
          ((a.range.2 - a.range.1) / (J.2 - J.1)) < 1 then
        some (scaleZoom { a with domain := I, _input := { a._input with domain := some I } }
          (f0 / ((a.domain.2 - a.domain.1) / (I.2 - I.1))))
      else if (a.range.2 - a.range.1) / (J.2 - J.1) < 1 then
        updateDomain K { a with range := J, _input := { a._input with range := some J } }
          (f0 / ((a.domain.2 - a.domain.1) / (I.2 - I.1)) *
            ((a.range.2 - a.range.1) / (J.2 - J.1)))
      else updateDomain K a (f0 / ((a.domain.2 - a.domain.1) / (I.2 - I.1))) := by
  unfold constrainDomain
  simp only [hI, hJ, r2l]
  by_cases hA : f0 / ((a.domain.2 - a.domain.1) / (I.2 - I.1)) *
      ((a.range.2 - a.range.1) / (J.2 - J.1)) < 1
  · simp only [hA, if_true]
  · simp only [hA, if_false]
    by_cases hB : (a.range.2 - a.range.1) / (J.2 - J.1) < 1
    · simp only [hB, if_true, hauto, Bool.false_eq_true, if_false]
    · simp only [hB, if_false, hauto, Bool.false_eq_true, if_false]

/-- The second-loop body leaves the snapshots and the flag of an axis alone. -/
theorem reconcileAxis_frame (K : Consts) (i : Nat) (ms : Option ℚ) (n : ℚ) (a a1 : Axis)
    (h : reconcileAxis K i ms n a = some a1) :
    a1._inputDomain = a._inputDomain ∧ a1._inputRange = a._inputRange ∧
      a1._constraintShrinkable = a._constraintShrinkable := by
  unfold reconcileAxis at h
  split_ifs at h with hc
  · cases hm : a.constrain with
    | range =>
      simp only [hm, Option.some.injEq] at h
      subst h
      exact ⟨rfl, rfl, rfl⟩
    | domain =>
      simp only [hm] at h
      unfold constrainDomain at h
      cases hI : a._inputDomain with
      | none => simp [hI] at h
      | some I =>
        cases hJ : a._inputRange with
        | none => simp [hI, hJ] at h
        | some J =>
          simp only [hI, hJ] at h
          split_ifs at h with hA hB hauto hauto
          · simp only [Option.some.injEq] at h
            subst h
            exact ⟨rfl, rfl, rfl⟩
          · simp only [Option.bind_eq_some] at h
            obtain ⟨⟨a3, f3⟩, hrep, hu⟩ := h
            obtain ⟨e1, e2, e3, _⟩ := autorangeRepair_frame K i _ _ a3 f3 hrep
            obtain ⟨u1, u2, u3, _⟩ := updateDomain_frame K a3 a1 f3 hu
            exact ⟨by rw [u1, e1], by rw [u2, e2], by rw [u3, e3]⟩
          · obtain ⟨u1, u2, u3, _⟩ := updateDomain_frame K _ a1 _ h
            exact ⟨by rw [u1], by rw [u2], by rw [u3]⟩
          · simp only [Option.bind_eq_some] at h
            obtain ⟨⟨a3, f3⟩, hrep, hu⟩ := h
            obtain ⟨e1, e2, e3, _⟩ := autorangeRepair_frame K i _ _ a3 f3 hrep
            obtain ⟨u1, u2, u3, _⟩ := updateDomain_frame K a3 a1 f3 hu
            exact ⟨by rw [u1, e1, hI], by rw [u2, e2, hJ], by rw [u3, e3]⟩
          · obtain ⟨u1, u2, u3, _⟩ := updateDomain_frame K _ a1 _ h
            exact ⟨by rw [u1, hI], by rw [u2, hJ], by rw [u3]⟩
  · simp only [Option.some.injEq] at h
    subst h
    exact ⟨rfl, rfl, rfl⟩

/-- The second-loop body leaves the stored scale alone, except on the autorange
path of the domain branch. -/
theorem reconcileAxis_m (K : Consts) (i : Nat) (ms : Option ℚ) (n : ℚ) (a a1 : Axis)
    (h : reconcileAxis K i ms n a = some a1)
    (hc : a.constrain = Constrain.range ∨ a.autorange = false) : a1._m = a._m := by
  unfold reconcileAxis at h
  split_ifs at h with hcond
  · cases hm : a.constrain with
    | range =>
      simp only [hm, Option.some.injEq] at h
      subst h
      rfl
    | domain =>
      simp only [hm] at h
      have hauto : a.autorange = false := by
        rcases hc with hc | hc
        · rw [hm] at hc; cases hc
        · exact hc
      cases hI : a._inputDomain with
      | none => simp [constrainDomain, hI] at h
      | some I =>
        cases hJ : a._inputRange with
        | none => simp [constrainDomain, hI, hJ] at h
        | some J =>
          rw [constrainDomain_plain K i a _ I J hI hJ hauto] at h
          split_ifs at h with hA hB
          · simp only [Option.some.injEq] at h
            subst h
            rfl
          · exact (updateDomain_frame K _ a1 _ h).2.2.2.1
          · exact (updateDomain_frame K _ a1 _ h).2.2.2.1
  · simp only [Option.some.injEq] at h
    subst h
    rfl

theorem prepAxis_flag (ax : Axis) : (prepAxis ax)._constraintShrinkable = false := rfl

theorem inputDomainOf_some (ax : Axis) (d : ℚ × ℚ) (h : ax._inputDomain = some d) :
    inputDomainOf ax = d := by
  simp [inputDomainOf, h]

theorem inputDomainOf_none (ax : Axis) (h : ax._inputDomain = none) :
    inputDomainOf ax = ax.domain := by
  simp [inputDomainOf, h]

theorem inputRangeOf_some (ax : Axis) (r : ℚ × ℚ) (h : ax._inputRange = some r) :
    inputRangeOf ax = r := by
  simp [inputRangeOf, h]

theorem inputRangeOf_none (ax : Axis) (h : ax._inputRange = none) :
    inputRangeOf ax = ax.range := by
  simp [inputRangeOf, h]

/-- What a whole call leaves of the snapshots, the flag and (off the autorange path)
the stored scale of a member axis. -/
theorem enforce_member_frame (K : Consts) (groups : List Group) (L L2 : Layout)
    (hnd : (allKeys groups).Nodup) (h : enforceAxisConstraints K groups L = some L2)
    (g : Group) (hg : g ∈ groups) (e : String × ℚ) (he : e ∈ g) (ax : Axis)
    (hax : L e.1 = some ax) :
    ∃ ax1, L2 e.1 = some ax1 ∧ ax1._inputDomain = some (inputDomainOf ax) ∧
      ax1._inputRange = some (inputRangeOf ax) ∧ ax1._constraintShrinkable = false := by
  obtain ⟨_, j, s, _, hs, hm⟩ := enforce_member K groups L L2 h hnd g hg
  obtain ⟨ax0, ax1, h1, h2, h3⟩ := hm e he
  rw [hax] at h1
  cases h1
  refine ⟨ax1, h2, ?_⟩
  unfold MemberOutcome at h3
  split_ifs at h3 with hc
  · subst h3
    exact ⟨prepAxis_inputDomain ax, prepAxis_inputRange ax, rfl⟩
  · obtain ⟨f1, f2, f3⟩ := reconcileAxis_frame K j _ _ _ ax1 h3
    exact ⟨by rw [f1, prepAxis_inputDomain], by rw [f2, prepAxis_inputRange],
      by rw [f3, prepAxis_flag]⟩

/-- What a whole call does to a domain-mode member that is not autorange, in a group
that is not skipped: the three cases of the domain branch, on the axis the first loop
left. -/
theorem enforce_domain_plain (K : Consts) (groups : List Group) (L L2 : Layout)
    (hnd : (allKeys groups).Nodup) (h : enforceAxisConstraints K groups L = some L2)
    (g : Group) (hg : g ∈ groups) (s : Scan) (hs : scanGroup g L = some s)
    (hns : almostEqual K s.minScale s.maxScale = false)
    (e : String × ℚ) (he : e ∈ g) (ax : Axis) (hax : L e.1 = some ax)
    (hmode : ax.constrain = Constrain.domain) (hauto : ax.autorange = false) :
    ∃ ax1, L2 e.1 = some ax1 ∧
      (if domainFactor s ax e.2 * rangeShrunkOf ax < 1 then
        some (scaleZoom
          { prepAxis ax with
            domain := inputDomainOf ax,
            _input := { (prepAxis ax)._input with domain := some (inputDomainOf ax) } }
          (domainFactor s ax e.2))
      else if rangeShrunkOf ax < 1 then
        updateDomain K
          { prepAxis ax with
            range := inputRangeOf ax,
            _input := { (prepAxis ax)._input with range := some (inputRangeOf ax) } }
          (domainFactor s ax e.2 * rangeShrunkOf ax)
      else updateDomain K (prepAxis ax) (domainFactor s ax e.2)) = some ax1 := by
  obtain ⟨_, j, s1, _, hs1, hm⟩ := enforce_member K groups L L2 h hnd g hg
  rw [hs] at hs1
  cases hs1
  obtain ⟨ax0, ax1, h1, h2, h3⟩ := hm e he
  rw [hax] at h1
  cases h1
  have hm1 : (prepAxis ax).constrain = Constrain.domain := by rw [prepAxis_constrain, hmode]
  have ha1 : (prepAxis ax).autorange = false := by rw [prepAxis_autorange, hauto]
  simp only [MemberOutcome, hns, Bool.false_eq_true, if_false, reconcileAxis, hm1, or_true,
    if_true] at h3
  rw [constrainDomain_plain K j (prepAxis ax) _ _ _ (prepAxis_inputDomain ax)
    (prepAxis_inputRange ax) ha1] at h3
  simp only [prepAxis_domain, prepAxis_range] at h3
  refine ⟨ax1, h2, ?_⟩
  simpa only [domainFactor, rangeShrunkOf, r2l, prepAxis_domain, prepAxis_range] using h3

theorem snapshotInput_constraintoward (ax : Axis) :
    (snapshotInput ax).constraintoward = ax.constraintoward := by
  unfold snapshotInput; cases ax._inputDomain <;> cases h : ax._inputRange <;> simp [h]

theorem prepAxis_constraintoward (ax : Axis) :
    (prepAxis ax).constraintoward = ax.constraintoward := by
  simp [prepAxis, setScale, snapshotInput_constraintoward]

theorem scaleOf_eq (ax : Axis) :
    scaleOf ax = ax.pixels * (ax.domain.2 - ax.domain.1) / (ax.range.2 - ax.range.1) := by
  simp [scaleOf, setScale, r2l]

theorem normScaleOf_scaleOf (ax : Axis) (w : ℚ) : normScaleOf ax w = |scaleOf ax| / w := rfl

theorem resizedDomain_anchor (d : ℚ × ℚ) (c f : ℚ) :
    (resizedDomain d c f).1 + ((resizedDomain d c f).2 - (resizedDomain d c f).1) * c
      = d.1 + (d.2 - d.1) * c := by
  simp only [resizedDomain]
  ring

/-- A factor of at least 1 keeps the resized domain inside the input domain, with its
orientation. -/
theorem resizedDomain_inside (d : ℚ × ℚ) (c f : ℚ) (hd : d.1 < d.2) (hc0 : 0 ≤ c)
    (hc1 : c ≤ 1) (hf : 1 ≤ f) :
    d.1 ≤ (resizedDomain d c f).1 ∧ (resizedDomain d c f).1 < (resizedDomain d c f).2 ∧
      (resizedDomain d c f).2 ≤ d.2 := by
  have hfpos : 0 < f := lt_of_lt_of_le one_pos hf
  have hw : 0 < d.2 - d.1 := sub_pos.mpr hd
  have hlt : (resizedDomain d c f).1 < (resizedDomain d c f).2 := by
    have := resizedDomain_width d c f
    have h2 : 0 < (d.2 - d.1) / f := div_pos hw hfpos
    linarith
  simp only [resizedDomain] at hlt ⊢
  have h1 : d.1 - (d.1 + (d.2 - d.1) * c) ≤ (d.1 - (d.1 + (d.2 - d.1) * c)) / f := by
    rw [le_div_iff₀ hfpos]
    nlinarith [mul_nonneg hw.le hc0]
  have h2 : (d.2 - (d.1 + (d.2 - d.1) * c)) / f ≤ d.2 - (d.1 + (d.2 - d.1) * c) := by
    rw [div_le_iff₀ hfpos]
    nlinarith [mul_nonneg hw.le (sub_nonneg.mpr hc1)]
  refine ⟨by linarith, hlt, by linarith⟩

/-- A factor strictly between 0 and 1 makes the resized domain cover the input
domain. -/
theorem resizedDomain_covering (d : ℚ × ℚ) (c f : ℚ) (hd : d.1 < d.2) (hc0 : 0 ≤ c)
    (hc1 : c ≤ 1) (hf0 : 0 < f) (hf1 : f < 1) :
    (resizedDomain d c f).1 ≤ d.1 ∧ d.2 ≤ (resizedDomain d c f).2 := by
  have hw : 0 < d.2 - d.1 := sub_pos.mpr hd
  simp only [resizedDomain]
  have h1 : (d.1 - (d.1 + (d.2 - d.1) * c)) / f ≤ d.1 - (d.1 + (d.2 - d.1) * c) := by
    rw [div_le_iff₀ hf0]
    nlinarith [mul_nonneg hw.le hc0]
  have h2 : d.2 - (d.1 + (d.2 - d.1) * c) ≤ (d.2 - (d.1 + (d.2 - d.1) * c)) / f := by
    rw [le_div_iff₀ hf0]
    nlinarith [mul_nonneg hw.le (sub_nonneg.mpr hc1)]
  exact ⟨by linarith, by linarith⟩

theorem rangePair_returns :
    (enforceAxisConstraints plotlyConsts [xy] rangePair).isSome = true := by decide!

theorem rangePair_scans : (scanGroup xy rangePair).isSome = true := by decide!

theorem skipPair_returns :
    (enforceAxisConstraints plotlyConsts [xy] skipPair).isSome = true := by decide!

theorem skipPair_scans : (scanGroup xy skipPair).isSome = true := by decide!

theorem switchPair_returns :
    (enforceAxisConstraints plotlyConsts [xy] switchPair).isSome = true := by decide!

theorem switchPair_scans : (scanGroup xy switchPair).isSome = true := by decide!

theorem plotlyConsts_tolerance :
    0 ≤ plotlyConsts.ALMOST_EQUAL ∧ plotlyConsts.ALMOST_EQUAL < 1 := by decide!

theorem rangePair_unflagged (K : Consts) : ∀ g ∈ [xy], ∀ s, scanGroup g rangePair = some s →
    almostEqual K s.minScale s.maxScale = false → hasUnflagged rangePair g = true := by
  intro g hg _ _ _
  rw [List.mem_singleton.mp hg]
  decide!

theorem restorePair_returns :
    (enforceAxisConstraints plotlyConsts [xy] restorePair).isSome = true := by decide!

theorem restorePair_scans : (scanGroup xy restorePair).isSome = true := by decide!

theorem recomputePair_returns :
    (enforceAxisConstraints plotlyConsts [xy] recomputePair).isSome = true := by decide!

theorem recomputePair_scans : (scanGroup xy recomputePair).isSome = true := by decide!

theorem paddedRepair_returns :
    (autorangeRepair plotlyConsts 0 (paddedAxis (19 / 2, 21 / 2) 50) 2).isSome = true := by
  decide!

theorem fourAxes_returns :
    (enforceAxisConstraints plotlyConsts [xy2] fourAxes).isSome = true := by decide!

theorem fourAxes_scans : (scanGroup xy2 fourAxes).isSome = true := by decide!

theorem foldlM_inv (step : ℚ → Nat → Option ℚ) (P : ℚ → Prop)
    (hstep : ∀ r k r1, P r → step r k = some r1 → P r1) :
    ∀ (ks : List Nat) (r0 r : ℚ), P r0 → ks.foldlM step r0 = some r → P r := by
  intro ks
  induction ks with
  | nil => intro r0 r h0 h; simp at h; rw [← h]; exact h0
  | cons k ks ih =>
    intro r0 r h0 h
    rw [List.foldlM_cons] at h
    cases hs : step r0 k with
    | none => simp [hs] at h
    | some r1 =>
      simp only [hs, Option.bind_eq_bind, Option.some_bind] at h
      exact ih _ _ (hstep _ _ _ h0 hs) h

theorem repairMin_ge_outer (i : Nat) (ax : Axis) (m o r0 r : ℚ) (h0 : o ≤ r0)
    (h : repairMin i ax m o r0 = some r) : o ≤ r := by
  refine foldlM_inv _ (fun x => o ≤ x) ?_ _ _ _ h0 h
  intro r k r1 hr hs
  cases hp : ax._min[i]? with
  | none => simp [hp] at hs
  | some p =>
    simp only [hp, Option.some.injEq] at hs
    rw [← hs]
    split_ifs with hc
    · exact le_of_lt hc.1
    · exact hr

theorem repairMax_le_outer (i : Nat) (ax : Axis) (m o r0 r : ℚ) (h0 : r0 ≤ o)
    (h : repairMax i ax m o r0 = some r) : r ≤ o := by
  refine foldlM_inv _ (fun x => x ≤ o) ?_ _ _ _ h0 h
  intro r k r1 hr hs
  cases hp : ax._max[i]? with
  | none => simp [hp] at hs
  | some p =>
    simp only [hp, Option.some.injEq] at hs
    rw [← hs]
    split_ifs with hc
    · exact le_of_lt hc.1
    · exact hr

/-- The repaired range: its ends `lo ≤ hi` widen the old ends and stay within the
outer bounds when the old ends do; the adjusted factor is the factor over
`domainExpand`. -/
theorem autorangeRepair_bounds (K : Consts) (i : Nat) (a : Axis) (f : ℚ) (a3 : Axis) (f3 : ℚ)
    (h : autorangeRepair K i a f = some (a3, f3)) :
    ∃ lo hi, lo ≤ min a.range.1 a.range.2 ∧ max a.range.1 a.range.2 ≤ hi ∧
      (outerMinOf a f ≤ min a.range.1 a.range.2 → outerMinOf a f ≤ lo) ∧
      (max a.range.1 a.range.2 ≤ outerMaxOf a f → hi ≤ outerMaxOf a f) ∧
      a3.range = (if a.range.1 < a.range.2 then (lo, hi) else (hi, lo)) ∧
      f3 = f / ((hi - lo) / (2 * halfRangeOf a)) := by
  unfold autorangeRepair at h
  simp only [Option.bind_eq_some] at h
  obtain ⟨a1, hu, lo, h1, hi, h2, h3⟩ := h
  simp only [Option.some.injEq, Prod.mk.injEq] at h3
  obtain ⟨h3, h4⟩ := h3
  cases hd : a._inputDomain with
  | none => simp [updateDomain, hd] at hu
  | some d =>
    rw [updateDomain_eq K a f d hd] at hu
    cases hu
    refine ⟨lo, hi, repairMin_le _ _ _ _ _ _ h1, repairMax_ge _ _ _ _ _ _ h2,
      fun h0 => repairMin_ge_outer _ _ _ _ _ _ h0 h1,
      fun h0 => repairMax_le_outer _ _ _ _ _ _ h0 h2, ?_, h4.symm⟩
    rw [← h3]; simp [setScale]

theorem min_max_of_oriented (r : ℚ × ℚ) (lo hi : ℚ) (hle : lo ≤ hi) (c : Prop) [Decidable c]
    (hr : r = if c then (lo, hi) else (hi, lo)) :
    min r.1 r.2 = lo ∧ max r.1 r.2 = hi := by
  by_cases hc : c
  · rw [hr, if_pos hc]
    exact ⟨min_eq_left hle, max_eq_right hle⟩
  · rw [hr, if_neg hc]
    exact ⟨min_eq_right hle, max_eq_left hle⟩

theorem accMin_attained (ps : List (ℚ × Bool)) :
    ∀ (m0 m : ℚ), accMin (some m0) ps = some m → m = m0 ∨ ∃ p ∈ ps, p.1 = m := by
  induction ps with
  | nil => intro m0 m h; left; exact (Option.some.inj h).symm
  | cons p ps ih =>
    intro m0 m h
    have h1 : accMin (some (min m0 p.1)) ps = some m := h
    rcases ih _ m h1 with h2 | ⟨q, hq, h3⟩
    · rcases min_choice m0 p.1 with h4 | h4
      · left; rw [h2, h4]
      · right; exact ⟨p, List.mem_cons_self _ _, by rw [h2, h4]⟩
    · exact Or.inr ⟨q, List.mem_cons_of_mem _ hq, h3⟩

theorem accMin_none_attained (ps : List (ℚ × Bool)) (m : ℚ) (h : accMin none ps = some m) :
    ∃ p ∈ ps, p.1 = m := by
  cases ps with
  | nil => cases h
  | cons p ps =>
    have h1 : accMin (some p.1) ps = some m := h
    rcases accMin_attained ps _ m h1 with h2 | ⟨q, hq, h3⟩
    · exact ⟨p, List.mem_cons_self _ _, h2.symm⟩
    · exact ⟨q, List.mem_cons_of_mem _ hq, h3⟩

theorem accMax_attained (ps : List (ℚ × Bool)) :
    ∀ a : ℚ, accMax a ps = a ∨ ∃ p ∈ ps, p.1 = accMax a ps := by
  induction ps with
  | nil => intro a; left; rfl
  | cons p ps ih =>
    intro a
    have e : accMax a (p :: ps) = accMax (max a p.1) ps := rfl
    rw [e]
    rcases ih (max a p.1) with h2 | ⟨q, hq, h3⟩
    · rcases max_choice a p.1 with h4 | h4
      · left; rw [h2, h4]
      · right; exact ⟨p, List.mem_cons_self _ _, by rw [h2, h4]⟩
    · exact Or.inr ⟨q, List.mem_cons_of_mem _ hq, h3⟩

theorem accMax_zero_attained (ps : List (ℚ × Bool)) (hne : ps ≠ [])
    (hpos : ∀ p ∈ ps, 0 ≤ p.1) : ∃ p ∈ ps, p.1 = accMax 0 ps := by
  rcases accMax_attained ps 0 with h | h
  · obtain ⟨p, hp⟩ := List.exists_mem_of_ne_nil ps hne
    refine ⟨p, hp, ?_⟩
    have h1 := (accMax_ge ps 0).2 p hp
    rw [h] at h1 ⊢
    exact le_antisymm h1 (hpos p hp)
  · exact h

theorem accMatch_le (ps : List (ℚ × Bool)) :
    ∀ (a : Option ℚ) (ms : ℚ), accMatch a ps = some ms →
      (∀ m0, a = some m0 → ms ≤ m0) ∧ ∀ p ∈ ps, p.2 = false → ms ≤ p.1 := by
  induction ps with
  | nil =>
    intro a ms h
    refine ⟨fun m0 h0 => ?_, fun p hp => by cases hp⟩
    have h1 : a = some ms := h
    rw [h0] at h1
    exact le_of_eq (Option.some.inj h1).symm
  | cons p ps ih =>
    intro a ms h
    have h1 : accMatch (if p.2 then a else some (minInf a p.1)) ps = some ms := h
    obtain ⟨h2, h3⟩ := ih _ ms h1
    cases hp : p.2 with
    | true =>
      simp only [hp, if_true] at h2
      refine ⟨h2, fun q hq hq2 => ?_⟩
      rcases List.mem_cons.mp hq with rfl | hq
      · rw [hp] at hq2; cases hq2
      · exact h3 q hq hq2
    | false =>
      simp only [hp, Bool.false_eq_true, if_false] at h2
      have h4 := h2 _ rfl
      refine ⟨fun m0 h0 => ?_, fun q hq hq2 => ?_⟩
      · rw [h0] at h4
        exact le_trans h4 (min_le_left _ _)
      · rcases List.mem_cons.mp hq with rfl | hq
        · cases a with
          | none => exact h4
          | some m0 => exact le_trans h4 (min_le_right _ _)
        · exact h3 q hq hq2

theorem accMatch_none_of_flagged (ps : List (ℚ × Bool)) (h : ∀ p ∈ ps, p.2 = true) :
    accMatch none ps = none := by
  induction ps with
  | nil => rfl
  | cons p ps ih =>
    have e : accMatch none (p :: ps) = accMatch (if p.2 then none else some (minInf none p.1)) ps :=
      rfl
    rw [e, h p (List.mem_cons_self _ _), if_pos rfl]
    exact ih fun q hq => h q (List.mem_cons_of_mem _ hq)

theorem accMatch_none_iff (ps : List (ℚ × Bool)) :
    accMatch none ps = none ↔ ∀ p ∈ ps, p.2 = true := by
  refine ⟨fun h p hp => ?_, accMatch_none_of_flagged ps⟩
  by_contra hc
  obtain ⟨ms, hms⟩ := accMatch_isSome ps none (Or.inr ⟨p, hp, by simpa using hc⟩)
  rw [h] at hms
  cases hms

theorem accMatch_eq_accMin (ps : List (ℚ × Bool)) :
    ∀ a : Option ℚ, (∀ p ∈ ps, p.2 = false) → accMatch a ps = accMin a ps := by
  induction ps with
  | nil => intro a _; rfl
  | cons p ps ih =>
    intro a h
    have e1 : accMatch a (p :: ps) = accMatch (if p.2 then a else some (minInf a p.1)) ps := rfl
    have e2 : accMin a (p :: ps) = accMin (some (minInf a p.1)) ps := rfl
    rw [e1, e2, h p (List.mem_cons_self _ _)]
    simp only [Bool.false_eq_true, if_false]
    exact ih _ fun q hq => h q (List.mem_cons_of_mem _ hq)

/-- A pair the first loop reads belongs to a member of the group. -/
theorem memberScale_inv (g : Group) (L : Layout) (hk : ∀ e ∈ g, L e.1 ≠ none)
    (p : ℚ × Bool) (hp : p ∈ g.map (memberScale L)) :
    ∃ e ∈ g, ∃ ax, L e.1 = some ax ∧ p = (normScaleOf ax e.2, ax._constraintShrinkable) := by
  obtain ⟨e, he, rfl⟩ := List.mem_map.mp hp
  obtain ⟨ax, hax⟩ := Option.ne_none_iff_exists'.mp (hk e he)
  exact ⟨e, he, ax, hax, by simp [memberScale, hax]⟩

theorem normScaleOf_nonneg (ax : Axis) (w : ℚ) (hw : 0 < w) : 0 ≤ normScaleOf ax w :=
  div_nonneg (abs_nonneg _) hw.le

/-- The repair followed by the last domain resize (lines 124-168): the adjusted factor
is the factor over `domainExpand`, the final domain is the one the domain updater writes
for it, and the scale of the final domain and range is that of the domain resized by the
unadjusted factor over the unrepaired range. -/
theorem repairBlock_compensated (K : Consts) (i : Nat) (a : Axis) (f : ℚ) (a3 : Axis) (f3 : ℚ)
    (a1 : Axis) (I : ℚ × ℚ) (hI : a._inputDomain = some I) (hW : 0 < 2 * halfRangeOf a)
    (hrep : autorangeRepair K i a f = some (a3, f3)) (hu : updateDomain K a3 f3 = some a1) :
    f3 = f / ((max a3.range.1 a3.range.2 - min a3.range.1 a3.range.2) / (2 * halfRangeOf a)) ∧
    a1.domain = resizedDomain I (K.FROM_BL a.constraintoward) f3 ∧
    a1.range = a3.range ∧
    (a1.domain.2 - a1.domain.1) / (max a3.range.1 a3.range.2 - min a3.range.1 a3.range.2)
      = (I.2 - I.1) / f / (2 * halfRangeOf a) ∧
    ∀ a0, updateDomain K a f = some a0 →
      scaleOf a1 = scaleOf a0 ∧ ∀ w, normScaleOf a1 w = normScaleOf a0 w := by
  obtain ⟨lo, hi, hlo, hhi, _, _, hr, hf3⟩ := autorangeRepair_bounds K i a f a3 f3 hrep
  obtain ⟨_, _, _, _, _, _, hp3, hI3, hc3⟩ := autorangeRepair_spec K i a f a3 f3 hrep
  have hmm : min a.range.1 a.range.2 ≤ max a.range.1 a.range.2 :=
    le_trans (min_le_left _ _) (le_max_left _ _)
  have hWeq : 2 * halfRangeOf a = max a.range.1 a.range.2 - min a.range.1 a.range.2 := by
    simp only [halfRangeOf]; ring
  have hle : lo ≤ hi := le_trans hlo (le_trans hmm hhi)
  obtain ⟨hmin3, hmax3⟩ := min_max_of_oriented a3.range lo hi hle _ hr
  have hW1 : 0 < hi - lo := by rw [hWeq] at hW; linarith
  have hu1 := hu
  rw [updateDomain_eq K a3 f3 I (by rw [hI3, hI])] at hu1
  simp only [Option.some.injEq, hc3] at hu1
  have hdom : a1.domain = resizedDomain I (K.FROM_BL a.constraintoward) f3 := by rw [← hu1]
  have hrange : a1.range = a3.range := by rw [← hu1]
  have hpix : a1.pixels = a.pixels := by rw [← hu1]; exact hp3
  have hwidth : a1.domain.2 - a1.domain.1 = (I.2 - I.1) * ((hi - lo) / (2 * halfRangeOf a)) / f := by
    rw [hdom, resizedDomain_width, hf3]
    rw [div_div_eq_mul_div]
  refine ⟨by rw [hmax3, hmin3]; exact hf3, hdom, hrange, ?_, ?_⟩
  · rw [hmax3, hmin3, hwidth]
    have h1 : hi - lo ≠ 0 := ne_of_gt hW1
    have h2 : 2 * halfRangeOf a ≠ 0 := ne_of_gt hW
    by_cases hf0 : f = 0
    · simp [hf0]
    · field_simp
      ring
  · intro a0 ha0
    rw [updateDomain_eq K a f I hI] at ha0
    simp only [Option.some.injEq] at ha0
    have hs : scaleOf a1 = scaleOf a0 := by
      rw [scaleOf_eq, scaleOf_eq, hpix, hwidth, hrange, hr, ← ha0]
      simp only [resizedDomain_width]
      have h1 : hi - lo ≠ 0 := ne_of_gt hW1
      have h2 : 2 * halfRangeOf a ≠ 0 := ne_of_gt hW
      by_cases hasc : a.range.1 < a.range.2
      · have e1 : min a.range.1 a.range.2 = a.range.1 := min_eq_left hasc.le
        have e2 : max a.range.1 a.range.2 = a.range.2 := max_eq_right hasc.le
        rw [e1, e2] at hWeq
        rw [if_pos hasc, hWeq]
        rw [hWeq] at h2
        by_cases hf0 : f = 0
        · simp [hf0]
        · field_simp
          ring
      · have hge : a.range.2 ≤ a.range.1 := not_lt.mp hasc
        have e1 : min a.range.1 a.range.2 = a.range.2 := min_eq_right hge
        have e2 : max a.range.1 a.range.2 = a.range.1 := max_eq_left hge
        rw [e1, e2] at hWeq
        rw [if_neg hasc, hWeq]
        rw [hWeq] at h2
        have h3 : a.range.2 - a.range.1 ≠ 0 := by
          intro h0; apply h2; linarith
        have h4 : lo - hi ≠ 0 := by
          intro h0; apply h1; linarith
        by_cases hf0 : f = 0
        · simp [hf0]
        · field_simp
          ring
    exact ⟨hs, fun w => by rw [normScaleOf_scaleOf, normScaleOf_scaleOf, hs]⟩

/-- The value of the domain branch on an autorange axis that does not switch regime:
the repair, then the domain resize with the repaired axis and the adjusted factor. -/
theorem constrainDomain_autorange (K : Consts) (i : Nat) (a : Axis) (f0 : ℚ) (I J : ℚ × ℚ)
    (hI : a._inputDomain = some I) (hJ : a._inputRange = some J) (hauto : a.autorange = true)
    (hge : ¬ f0 / ((a.domain.2 - a.domain.1) / (I.2 - I.1)) *
          ((a.range.2 - a.range.1) / (J.2 - J.1)) < 1) :
    constrainDomain K i a f0 =
      (autorangeRepair K i
        (if (a.range.2 - a.range.1) / (J.2 - J.1) < 1 then
          { a with range := J, _input := { a._input with range := some J } }
        else a)
        (if (a.range.2 - a.range.1) / (J.2 - J.1) < 1 then
          f0 / ((a.domain.2 - a.domain.1) / (I.2 - I.1)) *
            ((a.range.2 - a.range.1) / (J.2 - J.1))
        else f0 / ((a.domain.2 - a.domain.1) / (I.2 - I.1)))).bind
        fun axg => updateDomain K axg.1 axg.2 := by
  unfold constrainDomain
  simp only [hI, hJ, r2l]
  simp only [hge, if_false]
  by_cases hB : (a.range.2 - a.range.1) / (J.2 - J.1) < 1
  · simp only [hB, if_true, hauto]
  · simp only [hB, if_false, hauto, if_true]

/-- The domain branch of a whole call on an autorange member that does not switch
regime: the final axis is the domain resize of the repaired axis. -/
theorem enforce_domain_autorange (K : Consts) (groups : List Group) (L L2 : Layout)
    (hnd : (allKeys groups).Nodup) (h : enforceAxisConstraints K groups L = some L2)
    (g : Group) (hg : g ∈ groups) (s : Scan) (hs : scanGroup g L = some s)
    (hns : almostEqual K s.minScale s.maxScale = false)
    (e : String × ℚ) (he : e ∈ g) (ax : Axis) (hax : L e.1 = some ax)
    (hmode : ax.constrain = Constrain.domain) (hauto : ax.autorange = true)
    (hge : 1 ≤ domainFactor s ax e.2 * rangeShrunkOf ax) :
    ∃ j ax1, groups[j]? = some g ∧ L2 e.1 = some ax1 ∧
      ((autorangeRepair K j (preRepairAxis ax) (preRepairFactor s ax e.2)).bind
        fun axg => updateDomain K axg.1 axg.2) = some ax1 := by
  obtain ⟨_, j, s1, hj, hs1, hm⟩ := enforce_member K groups L L2 h hnd g hg
  rw [hs] at hs1
  cases hs1
  obtain ⟨ax0, ax1, h1, h2, h3⟩ := hm e he
  rw [hax] at h1
  cases h1
  have hm1 : (prepAxis ax).constrain = Constrain.domain := by rw [prepAxis_constrain, hmode]
  have ha1 : (prepAxis ax).autorange = true := by rw [prepAxis_autorange, hauto]
  simp only [MemberOutcome, hns, Bool.false_eq_true, if_false, reconcileAxis, hm1, or_true,
    if_true] at h3
  have hge1 : ¬ divInf (normScaleOf ax e.2) s.matchScale /
      (((prepAxis ax).domain.2 - (prepAxis ax).domain.1) /
        ((inputDomainOf ax).2 - (inputDomainOf ax).1)) *
      (((prepAxis ax).range.2 - (prepAxis ax).range.1) /
        ((inputRangeOf ax).2 - (inputRangeOf ax).1)) < 1 := by
    simp only [prepAxis_domain, prepAxis_range]
    simpa only [domainFactor, rangeShrunkOf, r2l, not_lt] using hge
  rw [constrainDomain_autorange K j (prepAxis ax) _ _ _ (prepAxis_inputDomain ax)
    (prepAxis_inputRange ax) ha1 hge1] at h3
  refine ⟨j, ax1, hj, h2, ?_⟩
  simp only [prepAxis_domain, prepAxis_range] at h3
  simpa only [preRepairAxis, preRepairFactor, domainFactor, rangeShrunkOf, r2l,
    prepAxis_domain, prepAxis_range] using h3

theorem preRepairAxis_inputDomain (ax : Axis) :
    (preRepairAxis ax)._inputDomain = some (inputDomainOf ax) := by
  unfold preRepairAxis
  split_ifs
  · exact prepAxis_inputDomain ax
  · exact prepAxis_inputDomain ax

theorem preRepairAxis_constraintoward (ax : Axis) :
    (preRepairAxis ax).constraintoward = ax.constraintoward := by
  unfold preRepairAxis
  split_ifs
  · exact prepAxis_constraintoward ax
  · exact prepAxis_constraintoward ax

/-- Claim C3 (the tolerance skip is mutation-free): when the first loop over a group
finds `minScale > ALMOST_EQUAL * maxScale`, every member axis of that group ends the call
as the first loop left it (snapshots taken, scale set, flag removed): its `domain`, its
`range` and its `_input` record are unchanged, whatever its mode, `autorange` or flag. -/
theorem skipped_group_unchanged (K : Consts) (groups : List Group) (L L2 : Layout)
    (hnd : (allKeys groups).Nodup) (h : enforceAxisConstraints K groups L = some L2)
    (g : Group) (hg : g ∈ groups) (s : Scan) (hs : scanGroup g L = some s)
    (hskip : almostEqual K s.minScale s.maxScale = true) :
    ∀ e ∈ g, ∃ ax ax1, L e.1 = some ax ∧ L2 e.1 = some ax1 ∧ ax1 = prepAxis ax ∧
      ax1.domain = ax.domain ∧ ax1.range = ax.range ∧ ax1._input = ax._input := by
  obtain ⟨_, j, s1, _, hs1, hm⟩ := enforce_member K groups L L2 h hnd g hg
  rw [hs] at hs1
  cases hs1
  intro e he
  obtain ⟨ax, ax1, h1, h2, h3⟩ := hm e he
  simp only [MemberOutcome, hskip, if_true] at h3
  subst h3
  exact ⟨ax, _, h1, h2, rfl, prepAxis_domain ax, prepAxis_range ax, prepAxis_input ax⟩

/-- Claim C6 (range-mode correctness): in a group that is not skipped, a member axis
with `constrain = 'range'` keeps its domain; when its normalised scale differs from
`matchScale` it ends as `scaleZoom` applied once, with the factor
`normScale / matchScale`, to the axis the first loop left, so its range width is
multiplied by that factor; when they are equal it is not rescaled at all. -/
theorem range_mode_correct (K : Consts) (groups : List Group) (L L2 : Layout)
    (hnd : (allKeys groups).Nodup) (h : enforceAxisConstraints K groups L = some L2)
    (g : Group) (hg : g ∈ groups) (s : Scan) (hs : scanGroup g L = some s)
    (hns : almostEqual K s.minScale s.maxScale = false)
    (e : String × ℚ) (he : e ∈ g) (ax : Axis) (hax : L e.1 = some ax)
    (hmode : ax.constrain = Constrain.range) :
    ∃ ax1, L2 e.1 = some ax1 ∧ ax1.domain = ax.domain ∧
      (some (normScaleOf ax e.2) ≠ s.matchScale →
        ax1 = scaleZoom (prepAxis ax) (divInf (normScaleOf ax e.2) s.matchScale) ∧
        ax1.range.2 - ax1.range.1
          = (ax.range.2 - ax.range.1) * divInf (normScaleOf ax e.2) s.matchScale) ∧
      (some (normScaleOf ax e.2) = s.matchScale → ax1 = prepAxis ax ∧ ax1.range = ax.range) := by
  obtain ⟨_, j, s1, _, hs1, hm⟩ := enforce_member K groups L L2 h hnd g hg
  rw [hs] at hs1
  cases hs1
  obtain ⟨ax0, ax1, h1, h2, h3⟩ := hm e he
  rw [hax] at h1
  cases h1
  have hm1 : (prepAxis ax).constrain = Constrain.range := by rw [prepAxis_constrain, hmode]
  simp only [MemberOutcome, hns, Bool.false_eq_true, if_false, reconcileAxis, hm1] at h3
  refine ⟨ax1, h2, ?_, ?_, ?_⟩
  · by_cases hc : some (normScaleOf ax e.2) = s.matchScale
    · simp [hc] at h3
      rw [← h3, prepAxis_domain]
    · simp [hc] at h3
      rw [← h3, scaleZoom_domain, prepAxis_domain]
  · intro hc
    simp [hc] at h3
    refine ⟨h3.symm, ?_⟩
    rw [← h3, scaleZoom_width, prepAxis_range]
  · intro hc
    simp [hc] at h3
    exact ⟨h3.symm, by rw [← h3, prepAxis_range]⟩

/-- Claim C7 (regime switch): in a group that is not skipped, a domain-mode member with
`factor * rangeShrunk < 1`, where `factor = (normScale / matchScale) / domainShrunk`,
ends with `domain` and `_input.domain` equal to `_inputDomain`; it is exactly the axis
the first loop left, with the domain reset and `scaleZoom` applied once with that factor
(no domain resize, no autorange repair); and on a valid input with a finite `matchScale`
its normalised scale, recomputed from the final domain and range, is `matchScale`. -/
theorem regime_switch (K : Consts) (groups : List Group) (L L2 : Layout)
    (hnd : (allKeys groups).Nodup) (h : enforceAxisConstraints K groups L = some L2)
    (g : Group) (hg : g ∈ groups) (s : Scan) (hs : scanGroup g L = some s)
    (hns : almostEqual K s.minScale s.maxScale = false)
    (e : String × ℚ) (he : e ∈ g) (ax : Axis) (hax : L e.1 = some ax)
    (hmode : ax.constrain = Constrain.domain)
    (hlt : domainFactor s ax e.2 * rangeShrunkOf ax < 1) :
    ∃ ax1, L2 e.1 = some ax1 ∧
      ax1.domain = inputDomainOf ax ∧ ax1._input.domain = some (inputDomainOf ax) ∧
      ax1 = scaleZoom
        { prepAxis ax with
          domain := inputDomainOf ax,
          _input := { (prepAxis ax)._input with domain := some (inputDomainOf ax) } }
        (domainFactor s ax e.2) ∧
      ax1.range.2 - ax1.range.1 = (ax.range.2 - ax.range.1) * domainFactor s ax e.2 ∧
      (validInput groups L = true → ∀ ms, s.matchScale = some ms →
        normScaleOf ax1 e.2 = ms) := by
  obtain ⟨_, j, s1, _, hs1, hm⟩ := enforce_member K groups L L2 h hnd g hg
  rw [hs] at hs1
  cases hs1
  obtain ⟨ax0, ax1, h1, h2, h3⟩ := hm e he
  rw [hax] at h1
  cases h1
  have hm1 : (prepAxis ax).constrain = Constrain.domain := by rw [prepAxis_constrain, hmode]
  have h4 := h3
  simp only [MemberOutcome, hns, Bool.false_eq_true, if_false, reconcileAxis, hm1, or_true,
    if_true] at h4
  have hA : divInf (normScaleOf ax e.2) s.matchScale /
      (((prepAxis ax).domain.2 - (prepAxis ax).domain.1) /
        ((inputDomainOf ax).2 - (inputDomainOf ax).1)) *
      (((prepAxis ax).range.2 - (prepAxis ax).range.1) /
        ((inputRangeOf ax).2 - (inputRangeOf ax).1)) < 1 := by
    rw [prepAxis_domain, prepAxis_range]
    simpa [domainFactor, rangeShrunkOf, r2l] using hlt
  rw [constrainDomain_switch K j (prepAxis ax) _ _ _ (prepAxis_inputDomain ax)
    (prepAxis_inputRange ax) hA, prepAxis_domain] at h4
  simp only [Option.some.injEq] at h4
  refine ⟨ax1, h2, by rw [← h4]; rfl, by rw [← h4]; rfl, h4.symm, ?_, ?_⟩
  · rw [← h4, scaleZoom_width]
    simp only [prepAxis_range, domainFactor]
  · intro hv ms hms
    obtain ⟨hw, ax', hax', hvax⟩ := validInput_member groups L hv g hg e he
    rw [hax] at hax'
    cases hax'
    have hpos := matchScale_pos groups L hv g hg s hs ms hms
    simp only [MemberOutcome, hns, Bool.false_eq_true, if_false, hms] at h3
    exact reconcile_norm K j ax ax1 e.2 ms hvax hw hpos h3

/-- Claim C1 (constraint satisfaction), amended: for a valid input in which every group
that fails the tolerance test has a member without the `_constraintShrinkable` flag, and
a tolerance with `0 ≤ ALMOST_EQUAL < 1`: whenever `enforceAxisConstraints` returns, in
every group that was not skipped the normalised scales recomputed from the final domain
and range all equal `matchScale`, and in every group every pair of members satisfies
`min > ALMOST_EQUAL * max`. -/
theorem constraint_satisfaction (K : Consts) (groups : List Group) (L L2 : Layout)
    (hAE0 : 0 ≤ K.ALMOST_EQUAL) (hAE1 : K.ALMOST_EQUAL < 1)
    (hv : validInput groups L = true)
    (hfin : ∀ g ∈ groups, ∀ s, scanGroup g L = some s →
      almostEqual K s.minScale s.maxScale = false → hasUnflagged L g = true)
    (h : enforceAxisConstraints K groups L = some L2) :
    ∀ g ∈ groups, ∃ s, scanGroup g L = some s ∧
      (almostEqual K s.minScale s.maxScale = false →
        ∃ ms, s.matchScale = some ms ∧
          ∀ e ∈ g, ∃ ax1, L2 e.1 = some ax1 ∧ normScaleOf ax1 e.2 = ms) ∧
      ∀ a ∈ g, ∀ b ∈ g, ∃ axa axb, L2 a.1 = some axa ∧ L2 b.1 = some axb ∧
        min (normScaleOf axa a.2) (normScaleOf axb b.2)
          > K.ALMOST_EQUAL * max (normScaleOf axa a.2) (normScaleOf axb b.2) := by
  intro g hg
  have hndg := nodup_keys_of_mem groups (validInput_nodup groups L hv) g hg
  obtain ⟨s, hs, hcase⟩ := first_call_group K groups L L2 hv hfin h g hg
  refine ⟨s, hs, ?_, ?_⟩
  · intro hns
    rcases hcase with ⟨hsk, _⟩ | ⟨_, ms, _, hms, hall⟩
    · rw [hsk] at hns; cases hns
    · exact ⟨ms, hms, hall⟩
  · intro a ha b hb
    rcases hcase with ⟨hsk, hall⟩ | ⟨_, ms, hpos, _, hall⟩
    · obtain ⟨axa, hLa, hL2a⟩ := hall a ha
      obtain ⟨axb, hLb, hL2b⟩ := hall b hb
      refine ⟨_, _, hL2a, hL2b, ?_⟩
      simp only [normScaleOf_prepAxis]
      obtain ⟨hmin, hmax, _⟩ := scanGroup_acc g L s hndg hs
      rw [hmin, hmax] at hsk
      exact skip_pairs K (g.map (memberScale L)) hAE0 hsk
        (normScaleOf axa a.2, axa._constraintShrinkable)
        (normScaleOf axb b.2, axb._constraintShrinkable)
        (memberScale_mem g L a axa ha hLa) (memberScale_mem g L b axb hb hLb)
    · obtain ⟨axa, hL2a, hna⟩ := hall a ha
      obtain ⟨axb, hL2b, hnb⟩ := hall b hb
      refine ⟨_, _, hL2a, hL2b, ?_⟩
      rw [hna, hnb, min_self, max_self]
      nlinarith

/-- Claim C2 (tolerance idempotence), amended: for a valid input in which every group
that fails the tolerance test has a member without the `_constraintShrinkable` flag, and
`ALMOST_EQUAL < 1`: after a first call that returns, a second call returns, skips every
group, and leaves the `domain` and `range` of every axis as the first call left them;
the stored scale `_m` of a member axis after the second call is the scale of that domain
and range. -/
theorem second_call_fixed (K : Consts) (groups : List Group) (L L1 : Layout)
    (hAE1 : K.ALMOST_EQUAL < 1) (hv : validInput groups L = true)
    (hfin : ∀ g ∈ groups, ∀ s, scanGroup g L = some s →
      almostEqual K s.minScale s.maxScale = false → hasUnflagged L g = true)
    (h : enforceAxisConstraints K groups L = some L1) :
    ∃ L2, enforceAxisConstraints K groups L1 = some L2 ∧
      (∀ g ∈ groups, ∃ s, scanGroup g L1 = some s ∧
        almostEqual K s.minScale s.maxScale = true) ∧
      ∀ id ax1, L1 id = some ax1 →
        ∃ ax2, L2 id = some ax2 ∧ ax2.domain = ax1.domain ∧ ax2.range = ax1.range ∧
          (id ∈ allKeys groups → ax2._m = scaleOf ax1) := by
  have hnd := validInput_nodup groups L hv
  have hall : ∀ g ∈ groups, ∃ s, scanGroup g L1 = some s ∧
      almostEqual K s.minScale s.maxScale = true := by
    intro g hg
    have hndg := nodup_keys_of_mem groups hnd g hg
    obtain ⟨s, hs, hcase⟩ := first_call_group K groups L L1 hv hfin h g hg
    have hknown : ∀ e ∈ g, L1 e.1 ≠ none := by
      intro e he
      rcases hcase with ⟨_, hm⟩ | ⟨_, ms, _, _, hm⟩
      · obtain ⟨ax, _, h2⟩ := hm e he
        rw [h2]; simp
      · obtain ⟨ax1, h2, _⟩ := hm e he
        rw [h2]; simp
    refine ⟨_, scanGroup_eq g L1 hndg hknown, ?_⟩
    simp only [scanResult]
    rcases hcase with ⟨hsk, hm⟩ | ⟨_, ms, hpos, _, hm⟩
    · obtain ⟨hmin, hmax, _⟩ := scanGroup_acc g L s hndg hs
      rw [hmin, hmax] at hsk
      have hfst : (g.map (memberScale L1)).map Prod.fst = (g.map (memberScale L)).map Prod.fst := by
        rw [List.map_map, List.map_map]
        refine List.map_congr_left fun e he => ?_
        obtain ⟨ax, h1, h2⟩ := hm e he
        simp [memberScale, h1, h2, normScaleOf_prepAxis]
      rw [accMin_fst, accMax_fst, hfst, ← accMin_fst, ← accMax_fst]
      exact hsk
    · refine skip_of_const K _ ms hAE1 hpos ?_
      intro p hp
      obtain ⟨e, he, rfl⟩ := List.mem_map.mp hp
      obtain ⟨ax1, h2, hn⟩ := hm e he
      simp [memberScale, h2, hn]
  obtain ⟨L2, hL2, hlay⟩ := enforceFrom_all_skip K groups 0 L1 hnd hall
  refine ⟨L2, hL2, hall, ?_⟩
  intro id ax1 hax1
  rw [hlay id, hax1]
  by_cases hid : id ∈ allKeys groups
  · simp only [hid, if_true, Option.map_some']
    exact ⟨_, rfl, prepAxis_domain ax1, prepAxis_range ax1, fun _ => prepAxis_m ax1⟩
  · simp only [hid, if_false]
    exact ⟨ax1, rfl, rfl, rfl, fun hh => False.elim hh⟩

/-- The repair of an axis in the first group with no `_min` candidate and one `_max`
candidate: it returns, the scale it uses is the old scale over the factor, and the upper
end of the repaired range is the candidate bound when that lies strictly between the old
maximum and `outerMax`, the old maximum otherwise. -/
theorem autorangeRepair_single (K : Consts) (ax : Axis) (f : ℚ) (p : Pad) (I : ℚ × ℚ)
    (hI : ax._inputDomain = some I) (hdom : ax.domain = I)
    (hmin : ax._min = []) (hmax : ax._max = [p]) :
    ∃ ax3 f3, autorangeRepair K 0 ax f = some (ax3, f3) ∧
      ax3._m = scaleOf ax / f ∧ ax3._inputDomain = some I ∧
      max ax3.range.1 ax3.range.2
        = (if paddedMax p |scaleOf ax / f| < outerMaxOf ax f ∧
              paddedMax p |scaleOf ax / f| > max ax.range.1 ax.range.2
            then paddedMax p |scaleOf ax / f| else max ax.range.1 ax.range.2) ∧
      (paddedMax p |scaleOf ax / f| < outerMaxOf ax f →
        paddedMax p |scaleOf ax / f| ≤ max ax3.range.1 ax3.range.2) := by
  have hm : ax.pixels * ((resizedDomain I (K.FROM_BL ax.constraintoward) f).2
      - (resizedDomain I (K.FROM_BL ax.constraintoward) f).1) / (r2l ax.range.2 - r2l ax.range.1)
      = scaleOf ax / f := by
    rw [resizedDomain_width, ← hdom]
    simp only [scaleOf, setScale]
    ring
  have hrep : autorangeRepair K 0 ax f = some
      ({ ax with
          domain := resizedDomain I (K.FROM_BL ax.constraintoward) f,
          _m := scaleOf ax / f,
          range := if ax.range.1 < ax.range.2 then
              (min ax.range.1 ax.range.2,
                if paddedMax p |scaleOf ax / f| < outerMaxOf ax f ∧
                    paddedMax p |scaleOf ax / f| > max ax.range.1 ax.range.2
                  then paddedMax p |scaleOf ax / f| else max ax.range.1 ax.range.2)
            else
              ((if paddedMax p |scaleOf ax / f| < outerMaxOf ax f ∧
                    paddedMax p |scaleOf ax / f| > max ax.range.1 ax.range.2
                  then paddedMax p |scaleOf ax / f| else max ax.range.1 ax.range.2),
                min ax.range.1 ax.range.2),
          _input :=
            { domain := some (resizedDomain I (K.FROM_BL ax.constraintoward) f),
              range := some (if ax.range.1 < ax.range.2 then
              (min ax.range.1 ax.range.2,
                if paddedMax p |scaleOf ax / f| < outerMaxOf ax f ∧
                    paddedMax p |scaleOf ax / f| > max ax.range.1 ax.range.2
                  then paddedMax p |scaleOf ax / f| else max ax.range.1 ax.range.2)
            else
              ((if paddedMax p |scaleOf ax / f| < outerMaxOf ax f ∧
                    paddedMax p |scaleOf ax / f| > max ax.range.1 ax.range.2
                  then paddedMax p |scaleOf ax / f| else max ax.range.1 ax.range.2),
                min ax.range.1 ax.range.2)) } },
        f / (((if paddedMax p |scaleOf ax / f| < outerMaxOf ax f ∧
                    paddedMax p |scaleOf ax / f| > max ax.range.1 ax.range.2
                  then paddedMax p |scaleOf ax / f| else max ax.range.1 ax.range.2)
              - min ax.range.1 ax.range.2) /
            (2 * (max ax.range.1 ax.range.2
              - (min ax.range.1 ax.range.2 + max ax.range.1 ax.range.2) / 2)))) := by
    unfold autorangeRepair
    rw [updateDomain_eq K ax f I hI]
    simp only [Option.some_bind, repairMin, repairMax, setScale, hmin, hmax, List.length_nil,
      List.length_cons, List.range_zero, List.foldlM_nil, Option.pure_def, hm,
      List.range_succ, List.nil_append, List.foldlM_cons, List.getElem?_cons_zero,
      Option.bind_eq_bind, paddedMax, outerMaxOf]
  have hle : min ax.range.1 ax.range.2 ≤ max ax.range.1 ax.range.2 :=
    le_trans (min_le_left _ _) (le_max_left _ _)
  have hX : max ax.range.1 ax.range.2 ≤
      (if paddedMax p |scaleOf ax / f| < outerMaxOf ax f ∧
          paddedMax p |scaleOf ax / f| > max ax.range.1 ax.range.2
        then paddedMax p |scaleOf ax / f| else max ax.range.1 ax.range.2) := by
    split_ifs with h1
    · exact le_of_lt h1.2
    · exact le_refl _
  have hY : paddedMax p |scaleOf ax / f| < outerMaxOf ax f →
      paddedMax p |scaleOf ax / f| ≤
        (if paddedMax p |scaleOf ax / f| < outerMaxOf ax f ∧
            paddedMax p |scaleOf ax / f| > max ax.range.1 ax.range.2
          then paddedMax p |scaleOf ax / f| else max ax.range.1 ax.range.2) := by
    intro hlt
    split_ifs with h1
    · exact le_refl _
    · by_contra hc
      exact h1 ⟨hlt, not_le.mp hc⟩
  have hmaxeq : max
      (if ax.range.1 < ax.range.2 then
          (min ax.range.1 ax.range.2,
            if paddedMax p |scaleOf ax / f| < outerMaxOf ax f ∧
                paddedMax p |scaleOf ax / f| > max ax.range.1 ax.range.2
              then paddedMax p |scaleOf ax / f| else max ax.range.1 ax.range.2)
        else
          ((if paddedMax p |scaleOf ax / f| < outerMaxOf ax f ∧
                paddedMax p |scaleOf ax / f| > max ax.range.1 ax.range.2
              then paddedMax p |scaleOf ax / f| else max ax.range.1 ax.range.2),
            min ax.range.1 ax.range.2)).1
      (if ax.range.1 < ax.range.2 then
          (min ax.range.1 ax.range.2,
            if paddedMax p |scaleOf ax / f| < outerMaxOf ax f ∧
                paddedMax p |scaleOf ax / f| > max ax.range.1 ax.range.2
              then paddedMax p |scaleOf ax / f| else max ax.range.1 ax.range.2)
        else
          ((if paddedMax p |scaleOf ax / f| < outerMaxOf ax f ∧
                paddedMax p |scaleOf ax / f| > max ax.range.1 ax.range.2
              then paddedMax p |scaleOf ax / f| else max ax.range.1 ax.range.2),
            min ax.range.1 ax.range.2)).2
      = (if paddedMax p |scaleOf ax / f| < outerMaxOf ax f ∧
            paddedMax p |scaleOf ax / f| > max ax.range.1 ax.range.2
          then paddedMax p |scaleOf ax / f| else max ax.range.1 ax.range.2) := by
    by_cases hasc : ax.range.1 < ax.range.2
    · simp only [hasc, if_true]
      exact max_eq_right (le_trans hle hX)
    · simp only [hasc, if_false]
      exact max_eq_left (le_trans hle hX)
  refine ⟨_, _, hrep, rfl, hI, hmaxeq, ?_⟩
  intro hlt
  exact le_trans (hY hlt) (le_of_eq hmaxeq.symm)

/-- Claim C8 (autorange padding), amended: for an autorange, domain-mode axis in the first
group whose domain and range equal their snapshots, with no `_min` candidate and one
`_max` candidate `{val, pad}`, resized by a factor `f ≥ 1` from the scale `s`: the domain
branch returns, the scale it uses to recompute the padding bound is `s / f`, the
candidate bound is `val + pad / |s / f|`, the upper end of the final range is that bound
when it lies strictly between the old maximum and `outerMax` and the old maximum
otherwise, so the final range includes the bound whenever the bound is below
`outerMax`. -/
theorem autorange_padding (K : Consts) (ax : Axis) (f : ℚ) (p : Pad) (I : ℚ × ℚ)
    (hI : ax._inputDomain = some I) (hdom : ax.domain = I) (hIn : I.1 ≠ I.2)
    (hJ : ax._inputRange = some ax.range) (hR : ax.range.1 ≠ ax.range.2)
    (hauto : ax.autorange = true) (hf : 1 ≤ f)
    (hmin : ax._min = []) (hmax : ax._max = [p]) :
    ∃ ax1, constrainDomain K 0 ax f = some ax1 ∧
      ax1._m = scaleOf ax / f ∧
      max ax1.range.1 ax1.range.2
        = (if paddedMax p |scaleOf ax / f| < outerMaxOf ax f ∧
              paddedMax p |scaleOf ax / f| > max ax.range.1 ax.range.2
            then paddedMax p |scaleOf ax / f| else max ax.range.1 ax.range.2) ∧
      (paddedMax p |scaleOf ax / f| < outerMaxOf ax f →
        paddedMax p |scaleOf ax / f| ≤ max ax1.range.1 ax1.range.2) := by
  obtain ⟨ax3, f3, hrep, hm3, hI3, hmax3, hincl⟩ :=
    autorangeRepair_single K ax f p I hI hdom hmin hmax
  have hDw : I.2 - I.1 ≠ 0 := sub_ne_zero.mpr (Ne.symm hIn)
  have hRw : ax.range.2 - ax.range.1 ≠ 0 := sub_ne_zero.mpr (Ne.symm hR)
  have hds : (ax.domain.2 - ax.domain.1) / (I.2 - I.1) = 1 := by
    rw [hdom]; exact div_self hDw
  have hrs : (ax.range.2 - ax.range.1) / (ax.range.2 - ax.range.1) = 1 := div_self hRw
  have hA : ¬ f < 1 := not_lt.mpr hf
  have hcd : constrainDomain K 0 ax f
      = (autorangeRepair K 0 ax f).bind fun axg => updateDomain K axg.1 axg.2 := by
    unfold constrainDomain
    simp only [hI, hJ, r2l, hds, hrs, div_one, mul_one, hA, if_false, lt_irrefl, hauto,
      if_true]
  rw [hcd, hrep, Option.some_bind, updateDomain_eq K ax3 f3 I hI3]
  exact ⟨_, rfl, hm3, hmax3, hincl⟩

/-- The amended claim C1 on two range-mode axes of scales 100 and 200 px/unit. -/
theorem constraint_satisfaction_witness :
    ∃ L2, enforceAxisConstraints plotlyConsts [xy] rangePair = some L2 ∧
      ∀ g ∈ [xy], ∃ s, scanGroup g rangePair = some s ∧
        (almostEqual plotlyConsts s.minScale s.maxScale = false →
          ∃ ms, s.matchScale = some ms ∧
            ∀ e ∈ g, ∃ ax1, L2 e.1 = some ax1 ∧ normScaleOf ax1 e.2 = ms) ∧
        ∀ a ∈ g, ∀ b ∈ g, ∃ axa axb, L2 a.1 = some axa ∧ L2 b.1 = some axb ∧
          min (normScaleOf axa a.2) (normScaleOf axb b.2)
            > plotlyConsts.ALMOST_EQUAL * max (normScaleOf axa a.2) (normScaleOf axb b.2) :=
  ⟨_, (Option.some_get rangePair_returns).symm,
    constraint_satisfaction plotlyConsts [xy] rangePair _ plotlyConsts_tolerance.1
      plotlyConsts_tolerance.2 (by decide!) (rangePair_unflagged plotlyConsts)
      (Option.some_get rangePair_returns).symm⟩

/-- The amended claim C2 on two range-mode axes of scales 100 and 200 px/unit. -/
theorem second_call_fixed_witness :
    ∃ L1 L2, enforceAxisConstraints plotlyConsts [xy] rangePair = some L1 ∧
      enforceAxisConstraints plotlyConsts [xy] L1 = some L2 ∧
      (∀ g ∈ [xy], ∃ s, scanGroup g L1 = some s ∧
        almostEqual plotlyConsts s.minScale s.maxScale = true) ∧
      ∀ id ax1, L1 id = some ax1 →
        ∃ ax2, L2 id = some ax2 ∧ ax2.domain = ax1.domain ∧ ax2.range = ax1.range ∧
          (id ∈ allKeys [xy] → ax2._m = scaleOf ax1) := by
  obtain ⟨L2, h2, hall, hfix⟩ := second_call_fixed plotlyConsts [xy] rangePair
    (Option.get _ rangePair_returns) plotlyConsts_tolerance.2 (by decide!)
    (rangePair_unflagged plotlyConsts) (Option.some_get rangePair_returns).symm
  exact ⟨_, L2, (Option.some_get rangePair_returns).symm, h2, hall, hfix⟩

/-- Claim C3 on a group of two axes with equal scales, one of them a flagged,
autorange, domain-mode axis. -/
theorem skipped_group_unchanged_witness :
    ∃ L2, enforceAxisConstraints plotlyConsts [xy] skipPair = some L2 ∧
      ∀ e ∈ xy, ∃ ax ax1, skipPair e.1 = some ax ∧ L2 e.1 = some ax1 ∧ ax1 = prepAxis ax ∧
        ax1.domain = ax.domain ∧ ax1.range = ax.range ∧ ax1._input = ax._input :=
  ⟨_, (Option.some_get skipPair_returns).symm,
    skipped_group_unchanged plotlyConsts [xy] skipPair _ (by decide!)
      (Option.some_get skipPair_returns).symm xy (List.mem_singleton_self _)
      (Option.get _ skipPair_scans) (Option.some_get skipPair_scans).symm (by decide!)⟩

/-- Claim C7 on a domain-mode axis of scale 200 px/unit whose range is half its
`_inputRange`, grouped with an axis of scale 150 px/unit: the factor is 4/3, the domain
is reset to `[0, 1]`, the range becomes `[-1/12, 7/12]` and the scale 150 px/unit. -/
theorem regime_switch_witness :
    ∃ L2 ax1, enforceAxisConstraints plotlyConsts [xy] switchPair = some L2 ∧
      L2 "y" = some ax1 ∧ ax1.domain = (0, 1) ∧ ax1._input.domain = some (0, 1) ∧
      ax1.range = (-1 / 12, 7 / 12) ∧ normScaleOf ax1 1 = 150 := by
  obtain ⟨ax1, h1, h2, h3, h4, _, h6⟩ := regime_switch plotlyConsts [xy] switchPair
    (Option.get _ switchPair_returns) (by decide!) (Option.some_get switchPair_returns).symm xy
    (List.mem_singleton_self _) (Option.get _ switchPair_scans)
    (Option.some_get switchPair_scans).symm (by decide!)
    ("y", 1) (by decide!) shrunkAxis rfl rfl (by decide!)
  refine ⟨_, ax1, (Option.some_get switchPair_returns).symm, h1, ?_, ?_, ?_, ?_⟩
  · rw [h2]; decide!
  · rw [h3]; decide!
  · rw [h4]; decide!
  · exact h6 (by decide!) 150 (by decide!)

/-- The amended claim C8 on the candidate `{val: 10, pad: 20}`, the scale 50 px/unit
and the factor 2, over the range `[9.5, 10.5]`: the scale used is 25 px/unit, the
candidate bound is 10.8 and the final range ends at 10.8, also when the axis is
resized by a whole call. -/
theorem autorange_padding_witness :
    ∃ ax1, constrainDomain plotlyConsts 0 (paddedAxis (19 / 2, 21 / 2) 50) 2 = some ax1 ∧
      scaleOf (paddedAxis (19 / 2, 21 / 2) 50) = 50 ∧ ax1._m = 25 ∧
      paddedMax { val := 10, pad := 20 } 25 = 54 / 5 ∧
      max ax1.range.1 ax1.range.2 = 54 / 5 ∧
      (enforceAxisConstraints plotlyConsts [xy2] fourAxes).map
          (fun L2 => (L2 "x2").map fun a => (a._m, a.range))
        = some (some (25, (19 / 2, 54 / 5))) := by
  obtain ⟨ax1, h1, h2, h3, _⟩ := autorange_padding plotlyConsts
    (paddedAxis (19 / 2, 21 / 2) 50) 2 { val := 10, pad := 20 } (0, 1) rfl rfl (by decide!)
    rfl (by decide!) rfl (by decide!) rfl rfl
  refine ⟨ax1, h1, by decide!, ?_, by decide!, ?_, by decide!⟩
  · rw [h2]; decide!
  · rw [h3]; decide!

/-- The instance of claim C6 in the specification: two range-mode axes with weights 1:1
and scales 100 and 200 px/unit end with the same scale 100 px/unit, and the axis that
started at 200 has its range width multiplied by 2 with its domain unchanged. -/
theorem range_mode_correct_witness :
    ∃ L2 ax1, enforceAxisConstraints plotlyConsts [xy] rangePair = some L2 ∧
      L2 "y" = some ax1 ∧ ax1.domain = (0, 1) ∧
      ax1.range.2 - ax1.range.1 = (1 / 2 - 0) * 2 ∧
      (L2 "x").map scaleOf = some 100 ∧ scaleOf ax1 = 100 := by
  obtain ⟨ax1, h1, h2, h3, _⟩ := range_mode_correct plotlyConsts [xy] rangePair
    (Option.get _ rangePair_returns) (by decide!) (Option.some_get rangePair_returns).symm xy
    (List.mem_singleton_self _) (Option.get _ rangePair_scans)
    (Option.some_get rangePair_scans).symm (by decide!)
    ("y", 1) (by decide!) (freshAxis (0, 1) (0, 1 / 2) 100 Constrain.range) rfl rfl
  obtain ⟨h4, h5⟩ := h3 (by decide!)
  have hf : divInf (normScaleOf (freshAxis (0, 1) (0, 1 / 2) 100 Constrain.range) 1)
      ((scanGroup xy rangePair).get rangePair_scans).matchScale = 2 := by decide!
  rw [hf] at h4 h5
  refine ⟨_, ax1, (Option.some_get rangePair_returns).symm, h1, h2, h5, by decide!, ?_⟩
  rw [h4]
  decide!

/-- Claim C1 fails as stated: on the valid input of two range-mode axes that both carry
the `_constraintShrinkable` flag, `matchScale` stays `Infinity`, every factor is 0, both
ranges collapse to a point, and the recomputed scales do not satisfy
`min > ALMOST_EQUAL * max`. -/
theorem constraint_satisfaction_counterexample :
    validInput [xy] flaggedPair = true ∧
    (enforceAxisConstraints plotlyConsts [xy] flaggedPair).map
        (fun L2 => ((L2 "x").map fun a => a.range, (L2 "y").map fun a => a.range))
      = some (some (1 / 2, 1 / 2), some (1 / 4, 1 / 4)) ∧
    (enforceAxisConstraints plotlyConsts [xy] flaggedPair).map
        (fun L2 =>
          match L2 "x", L2 "y" with
          | some a, some b =>
            decide (min (normScaleOf a 1) (normScaleOf b 1)
              > plotlyConsts.ALMOST_EQUAL * max (normScaleOf a 1) (normScaleOf b 1))
          | _, _ => false)
      = some false := by
  decide!

/-- Claim C2 fails as stated: on two range-mode axes of scales 100 and 200 px/unit the
first call leaves the range `[-1/4, 3/4]` with the stored scale `_m = 200` on the second
axis; the second call keeps the range and stores `_m = 100`.  And when both axes carry
the `_constraintShrinkable` flag the first call collapses both ranges, so the group
does not pass the tolerance test of the second call. -/
theorem second_call_counterexample :
    validInput [xy] rangePair = true ∧
    ((enforceAxisConstraints plotlyConsts [xy] rangePair).bind fun L1 =>
      (enforceAxisConstraints plotlyConsts [xy] L1).map fun L2 =>
        ((L1 "y").map fun a => (a.range, a._m), (L2 "y").map fun a => (a.range, a._m)))
      = some (some ((-1 / 4, 3 / 4), 200), some ((-1 / 4, 3 / 4), 100)) ∧
    validInput [xy] flaggedPair = true ∧
    ((enforceAxisConstraints plotlyConsts [xy] flaggedPair).bind fun L1 =>
      (scanGroup xy L1).map fun s => almostEqual plotlyConsts s.minScale s.maxScale)
      = some false := by
  decide!

/-- Claim C8 fails as stated: an autorange, domain-mode axis of scale 50 px/unit with
the `_max` candidate `{val: 10, pad: 20}` over the range `[9.9, 10.1]`, resized by the
factor 2, ends with the domain `[1/4, 3/4]`, the scale 25 px/unit (not 100) and the
range `[9.9, 10.1]`, whose upper end is below 10.2. -/
theorem autorange_padding_counterexample :
    validInput [xy] paddingPair = true ∧
    (paddingPair "x").map scaleOf = some 50 ∧
    (enforceAxisConstraints plotlyConsts [xy] paddingPair).map
        (fun L2 => (L2 "x").map fun a => (a.domain, a._m, a.range))
      = some (some ((1 / 4, 3 / 4), 25, (99 / 10, 101 / 10))) ∧
    (101 / 10 : ℚ) < 10 + 20 / 100 := by
  decide!

/-- Claim C9 at a concrete input: in the first group an axis with the `_max` candidates
`{val: 10, pad: 0}` and `{val: 10, pad: 20}` keeps the range `[9.5, 10.5]`, because both
iterations read `_max[0]`, while the fold over both candidates gives the upper end
10.8. -/
theorem repair_reads_group_index :
    validInput [xy] candidatesPair = true ∧
    (enforceAxisConstraints plotlyConsts [xy] candidatesPair).map
        (fun L2 => (L2 "x").map fun a => (a._m, a.range))
      = some (some (25, (19 / 2, 21 / 2))) ∧
    repairMax 0 candidatesAxis 25 11 (21 / 2) = some (21 / 2) ∧
    foldMaxCandidates candidatesAxis._max 25 11 (21 / 2) = 54 / 5 := by
  decide!

/-- Claim C10 at a concrete input: on a valid input of two groups, the second group
holding an autorange, domain-mode axis with one `_max` candidate, the call throws
(`_max[1]` is `undefined`); the same group alone, at index 0, is processed. -/
theorem enforce_throws_in_second_group :
    validInput [xy, xy2] fourAxes = true ∧
    (enforceAxisConstraints plotlyConsts [xy, xy2] fourAxes).isNone = true ∧
    (enforceAxisConstraints plotlyConsts [xy2] fourAxes).map
        (fun L2 => (L2 "x2").map fun a => a.range)
      = some (some (19 / 2, 54 / 5)) := by
  decide!

/-- Claim C11 (input snapshots are a fixed baseline): for every member axis of a group,
after `enforceAxisConstraints` returns `_inputDomain` (resp. `_inputRange`) has the value
it had before the call when it was present, and is the domain (resp. range) the axis
had before the call when it was absent; and the second-loop body, with its regime reset,
range restore, autorange repair and domain resize, never changes either snapshot. -/
theorem snapshots_fixed (K : Consts) (groups : List Group) (L L2 : Layout)
    (hnd : (allKeys groups).Nodup) (h : enforceAxisConstraints K groups L = some L2)
    (g : Group) (hg : g ∈ groups) (e : String × ℚ) (he : e ∈ g) (ax : Axis)
    (hax : L e.1 = some ax) :
    (∃ ax1, L2 e.1 = some ax1 ∧
      (∀ d, ax._inputDomain = some d → ax1._inputDomain = some d) ∧
      (ax._inputDomain = none → ax1._inputDomain = some ax.domain) ∧
      (∀ r, ax._inputRange = some r → ax1._inputRange = some r) ∧
      (ax._inputRange = none → ax1._inputRange = some ax.range)) ∧
    ∀ (i : Nat) (ms : Option ℚ) (n : ℚ) (a a1 : Axis), reconcileAxis K i ms n a = some a1 →
      a1._inputDomain = a._inputDomain ∧ a1._inputRange = a._inputRange := by
  refine ⟨?_, fun i ms n a a1 hr => ?_⟩
  · obtain ⟨ax1, h1, h2, h3, _⟩ := enforce_member_frame K groups L L2 hnd h g hg e he ax hax
    refine ⟨ax1, h1, ?_, ?_, ?_, ?_⟩
    · intro d hd; rw [h2, inputDomainOf_some ax d hd]
    · intro hd; rw [h2, inputDomainOf_none ax hd]
    · intro r hr; rw [h3, inputRangeOf_some ax r hr]
    · intro hr; rw [h3, inputRangeOf_none ax hr]
  · obtain ⟨f1, f2, _⟩ := reconcileAxis_frame K i ms n a a1 hr
    exact ⟨f1, f2⟩

/-- Claim C13 (scale is an output), amended: after `enforceAxisConstraints` returns,
the stored scale `_m` of a member axis is the scale `setScale` derives from the domain
and range the axis had when the call began, for every member of a skipped group and
every member that is in range mode or not autorange; it is the scale of the final
domain and range for the members of a skipped group and for a range-mode member whose
normalised scale equals `matchScale`, whose domain and range the call leaves alone. -/
theorem stored_scale (K : Consts) (groups : List Group) (L L2 : Layout)
    (hnd : (allKeys groups).Nodup) (h : enforceAxisConstraints K groups L = some L2)
    (g : Group) (hg : g ∈ groups) (s : Scan) (hs : scanGroup g L = some s)
    (e : String × ℚ) (he : e ∈ g) (ax : Axis) (hax : L e.1 = some ax) :
    ∃ ax1, L2 e.1 = some ax1 ∧
      (almostEqual K s.minScale s.maxScale = true ∨ ax.constrain = Constrain.range ∨
        ax.autorange = false → ax1._m = scaleOf ax) ∧
      (almostEqual K s.minScale s.maxScale = true ∨
        (ax.constrain = Constrain.range ∧ some (normScaleOf ax e.2) = s.matchScale) →
          ax1._m = scaleOf ax1) := by
  obtain ⟨_, j, s1, _, hs1, hm⟩ := enforce_member K groups L L2 h hnd g hg
  rw [hs] at hs1
  cases hs1
  obtain ⟨ax0, ax1, h1, h2, h3⟩ := hm e he
  rw [hax] at h1
  cases h1
  have hprep : scaleOf (prepAxis ax) = scaleOf ax := by
    simp only [scaleOf, setScale, prepAxis_domain, prepAxis_range, prepAxis_pixels]
  refine ⟨ax1, h2, ?_, ?_⟩
  · intro hc
    unfold MemberOutcome at h3
    split_ifs at h3 with hsk
    · rw [h3, prepAxis_m]
    · have hc1 : (prepAxis ax).constrain = Constrain.range ∨ (prepAxis ax).autorange = false := by
        rw [prepAxis_constrain, prepAxis_autorange]
        rcases hc with hc | hc
        · exact absurd hc hsk
        · exact hc
      rw [reconcileAxis_m K j _ _ _ ax1 h3 hc1, prepAxis_m]
  · intro hc
    unfold MemberOutcome at h3
    split_ifs at h3 with hsk
    · rw [h3, prepAxis_m, hprep]
    · rcases hc with hc | ⟨hc1, hc2⟩
      · exact absurd hc hsk
      · have hm1 : (prepAxis ax).constrain = Constrain.range := by
          rw [prepAxis_constrain, hc1]
        simp only [reconcileAxis, hc2, hm1, ne_eq, not_true_eq_false, false_or, if_false,
          Option.some.injEq] at h3
        simp at h3
        rw [← h3, prepAxis_m, hprep]

/-- Claim C11 on two range-mode axes without snapshots, of scales 100 and 200 px/unit:
the second axis ends with the range `[-1/4, 3/4]` and the snapshots `[0, 1]` and
`[0, 1/2]` of the domain and range it had before the call. -/
theorem snapshots_fixed_witness :
    ∃ L2 ax1, enforceAxisConstraints plotlyConsts [xy] rangePair = some L2 ∧
      L2 "y" = some ax1 ∧ ax1.range = (-1 / 4, 3 / 4) ∧
      ax1._inputDomain = some (0, 1) ∧ ax1._inputRange = some (0, 1 / 2) := by
  obtain ⟨⟨ax1, h1, _, h3, _, h5⟩, _⟩ := snapshots_fixed plotlyConsts [xy] rangePair
    (Option.get _ rangePair_returns) (by decide!) (Option.some_get rangePair_returns).symm xy
    (List.mem_singleton_self _) ("y", 1) (by decide!)
    (freshAxis (0, 1) (0, 1 / 2) 100 Constrain.range) rfl
  have hr : ((enforceAxisConstraints plotlyConsts [xy] rangePair).get rangePair_returns "y").map
      (fun a => a.range) = some (-1 / 4, 3 / 4) := by decide!
  rw [h1] at hr
  exact ⟨_, ax1, (Option.some_get rangePair_returns).symm, h1, by simpa using hr, h3 rfl, h5 rfl⟩

/-- Claim C12 at a concrete input: the group `{x2: 1, y2: 1}` alone leaves the range
`[9.5, 10.5]` on "x2" (both iterations read `_max[0]`); the same group after the group
`{x: 1, y: 1}`, over disjoint axes, leaves the range `[9.5, 10.8]` (both iterations read
`_max[1]`). -/
theorem group_result_depends_on_position :
    validInput [xy, xy2] candidatesFour = true ∧
    (enforceAxisConstraints plotlyConsts [xy2] candidatesFour).map
        (fun L2 => (L2 "x2").map fun a => (a.domain, a.range))
      = some (some ((1 / 4, 3 / 4), (19 / 2, 21 / 2))) ∧
    (enforceAxisConstraints plotlyConsts [xy, xy2] candidatesFour).map
        (fun L2 => (L2 "x2").map fun a => (a.domain, a.range))
      = some (some ((7 / 40, 33 / 40), (19 / 2, 54 / 5))) := by
  decide!

/-- Claim C13 fails as stated: on two range-mode axes of scales 100 and 200 px/unit the
second axis ends with the stored scale `_m = 200` while the scale of its final domain
and range is 100. -/
theorem stored_scale_counterexample :
    validInput [xy] rangePair = true ∧
    (enforceAxisConstraints plotlyConsts [xy] rangePair).map
        (fun L2 => (L2 "y").map fun a => (a.domain, a.range, a._m, scaleOf a))
      = some (some ((0, 1), (-1 / 4, 3 / 4), 200, 100)) := by
  decide!

/-- The amended claim C13 on two range-mode axes of scales 100 and 200 px/unit: the
second axis ends with `_m = 200`, the scale of the domain and range it had when the call
began. -/
theorem stored_scale_witness :
    ∃ L2 ax1, enforceAxisConstraints plotlyConsts [xy] rangePair = some L2 ∧
      L2 "y" = some ax1 ∧ ax1._m = 200 := by
  obtain ⟨ax1, h1, h2, _⟩ := stored_scale plotlyConsts [xy] rangePair
    (Option.get _ rangePair_returns) (by decide!) (Option.some_get rangePair_returns).symm xy
    (List.mem_singleton_self _) (Option.get _ rangePair_scans)
    (Option.some_get rangePair_scans).symm ("y", 1) (by decide!)
    (freshAxis (0, 1) (0, 1 / 2) 100 Constrain.range) rfl
  refine ⟨_, ax1, (Option.some_get rangePair_returns).symm, h1, ?_⟩
  rw [h2 (Or.inr (Or.inl rfl))]
  decide!

/-- Claim C14 (the regime restore preserves the net scale change): in a group that is not
skipped, a domain-mode member that is not autorange, with `factor * rangeShrunk ≥ 1` and
`rangeShrunk < 1` where `factor = (normScale / matchScale) / domainShrunk`, ends with
`range` and `_input.range` equal to `_inputRange`, with the domain `updateDomain` writes
for the factor `factor * rangeShrunk`, of width `_inputDomain` width over
`factor * rangeShrunk`; and on a valid input with a finite `matchScale` the scale
recomputed from the final domain and range is the scale before the call divided by
`normScale / matchScale`, so the normalised scale is `matchScale`. -/
theorem regime_restore (K : Consts) (groups : List Group) (L L2 : Layout)
    (hnd : (allKeys groups).Nodup) (h : enforceAxisConstraints K groups L = some L2)
    (g : Group) (hg : g ∈ groups) (s : Scan) (hs : scanGroup g L = some s)
    (hns : almostEqual K s.minScale s.maxScale = false)
    (e : String × ℚ) (he : e ∈ g) (ax : Axis) (hax : L e.1 = some ax)
    (hmode : ax.constrain = Constrain.domain) (hauto : ax.autorange = false)
    (hge : 1 ≤ domainFactor s ax e.2 * rangeShrunkOf ax) (hrs : rangeShrunkOf ax < 1) :
    ∃ ax1, L2 e.1 = some ax1 ∧
      ax1.range = inputRangeOf ax ∧ ax1._input.range = some (inputRangeOf ax) ∧
      ax1.domain = resizedDomain (inputDomainOf ax) (K.FROM_BL ax.constraintoward)
        (domainFactor s ax e.2 * rangeShrunkOf ax) ∧
      ax1._input.domain = some ax1.domain ∧
      ax1.domain.2 - ax1.domain.1 = ((inputDomainOf ax).2 - (inputDomainOf ax).1) /
        (domainFactor s ax e.2 * rangeShrunkOf ax) ∧
      (validInput groups L = true → ∀ ms, s.matchScale = some ms →
        scaleOf ax1 = scaleOf ax / (normScaleOf ax e.2 / ms) ∧ normScaleOf ax1 e.2 = ms) := by
  obtain ⟨ax1, h1, h2⟩ := enforce_domain_plain K groups L L2 hnd h g hg s hs hns e he ax hax
    hmode hauto
  rw [if_neg (not_lt.mpr hge), if_pos hrs,
    updateDomain_eq K
      { prepAxis ax with
        range := inputRangeOf ax,
        _input := { (prepAxis ax)._input with range := some (inputRangeOf ax) } }
      _ (inputDomainOf ax) (prepAxis_inputDomain ax)] at h2
  simp only [Option.some.injEq, prepAxis_constraintoward] at h2
  have hpix : ax1.pixels = ax.pixels := by rw [← h2]; exact prepAxis_pixels ax
  have hw := resizedDomain_width (inputDomainOf ax) (K.FROM_BL ax.constraintoward)
    (domainFactor s ax e.2 * rangeShrunkOf ax)
  have hdom : ax1.domain = resizedDomain (inputDomainOf ax) (K.FROM_BL ax.constraintoward)
      (domainFactor s ax e.2 * rangeShrunkOf ax) := by rw [← h2]
  have hrange : ax1.range = inputRangeOf ax := by rw [← h2]
  refine ⟨ax1, h1, hrange, by rw [← h2], hdom, by rw [← h2], by rw [hdom, hw], ?_⟩
  intro hv ms hms
  obtain ⟨hwt, ax', hax', hvax⟩ := validInput_member groups L hv g hg e he
  rw [hax] at hax'
  cases hax'
  obtain ⟨hp, hd, hr, hId, hIr⟩ := (valid_iff ax).mp hvax
  have hpos := matchScale_pos groups L hv g hg s hs ms hms
  have hn := normScaleOf_pos ax e.2 hvax hwt
  have hDw : ax.domain.2 - ax.domain.1 ≠ 0 := sub_ne_zero.mpr (Ne.symm hd)
  have hRw : ax.range.2 - ax.range.1 ≠ 0 := sub_ne_zero.mpr (Ne.symm hr)
  have hIw : (inputDomainOf ax).2 - (inputDomainOf ax).1 ≠ 0 := sub_ne_zero.mpr (Ne.symm hId)
  have hJw : (inputRangeOf ax).2 - (inputRangeOf ax).1 ≠ 0 := sub_ne_zero.mpr (Ne.symm hIr)
  have hscale : scaleOf ax1 = scaleOf ax / (normScaleOf ax e.2 / ms) := by
    rw [scaleOf_eq, scaleOf_eq, hpix, hrange, hdom, hw]
    simp only [domainFactor, rangeShrunkOf, r2l, hms, divInf]
    generalize normScaleOf ax e.2 = n at hn
    have hn0 : n ≠ 0 := ne_of_gt hn
    have hm0 : ms ≠ 0 := ne_of_gt hpos
    field_simp
    ring
  refine ⟨hscale, ?_⟩
  have hnorm : normScaleOf ax1 e.2 = normScaleOf ax e.2 / (normScaleOf ax e.2 / ms) := by
    show |scaleOf ax1| / e.2 = |scaleOf ax| / e.2 / (normScaleOf ax e.2 / ms)
    rw [hscale, abs_div, abs_of_pos (div_pos hn hpos)]
    exact div_right_comm _ _ _
  rw [hnorm]
  have hn0 : normScaleOf ax e.2 ≠ 0 := ne_of_gt hn
  field_simp

/-- Claim C20 (shrink stays inside, grow covers): for an axis with `_inputDomain`
`[d0, d1]`, `d0 < d1`, and an anchor fraction in `[0, 1]`, `updateDomain` with a factor
of at least 1 writes a domain inside the input domain, of the same orientation, and
with a factor strictly between 0 and 1 a domain that covers the input domain; and in a
group that is not skipped a domain-mode member that is not autorange, with
`rangeShrunk ≤ 1`, ends the call with its domain inside its `_inputDomain`. -/
theorem resize_inside_or_covering (K : Consts) :
    (∀ (ax : Axis) (f d0 d1 : ℚ), ax._inputDomain = some (d0, d1) → d0 < d1 →
      0 ≤ K.FROM_BL ax.constraintoward → K.FROM_BL ax.constraintoward ≤ 1 →
      ∃ a, updateDomain K ax f = some a ∧
        (1 ≤ f → d0 ≤ a.domain.1 ∧ a.domain.1 < a.domain.2 ∧ a.domain.2 ≤ d1) ∧
        (0 < f → f < 1 → a.domain.1 ≤ d0 ∧ d1 ≤ a.domain.2)) ∧
    ∀ (groups : List Group) (L L2 : Layout) (g : Group) (s : Scan) (e : String × ℚ)
      (ax : Axis), (allKeys groups).Nodup → enforceAxisConstraints K groups L = some L2 →
      g ∈ groups → scanGroup g L = some s → almostEqual K s.minScale s.maxScale = false →
      e ∈ g → L e.1 = some ax → ax.constrain = Constrain.domain → ax.autorange = false →
      rangeShrunkOf ax ≤ 1 → (inputDomainOf ax).1 < (inputDomainOf ax).2 →
      0 ≤ K.FROM_BL ax.constraintoward → K.FROM_BL ax.constraintoward ≤ 1 →
      ∃ ax1, L2 e.1 = some ax1 ∧ (inputDomainOf ax).1 ≤ ax1.domain.1 ∧
        ax1.domain.1 < ax1.domain.2 ∧ ax1.domain.2 ≤ (inputDomainOf ax).2 := by
  refine ⟨?_, ?_⟩
  · intro ax f d0 d1 hI hd hc0 hc1
    refine ⟨_, updateDomain_eq K ax f (d0, d1) hI, ?_, ?_⟩
    · intro hf
      exact resizedDomain_inside (d0, d1) _ f hd hc0 hc1 hf
    · intro hf0 hf1
      exact resizedDomain_covering (d0, d1) _ f hd hc0 hc1 hf0 hf1
  · intro groups L L2 g s e ax hnd h hg hs hns he hax hmode hauto hrs hd hc0 hc1
    obtain ⟨ax1, h1, h2⟩ := enforce_domain_plain K groups L L2 hnd h g hg s hs hns e he ax hax
      hmode hauto
    refine ⟨ax1, h1, ?_⟩
    by_cases hA : domainFactor s ax e.2 * rangeShrunkOf ax < 1
    · rw [if_pos hA] at h2
      simp only [Option.some.injEq] at h2
      have hdom : ax1.domain = inputDomainOf ax := by rw [← h2]; rfl
      rw [hdom]
      exact ⟨le_refl _, hd, le_refl _⟩
    · rw [if_neg hA] at h2
      by_cases hB : rangeShrunkOf ax < 1
      · rw [if_pos hB, updateDomain_eq K
          { prepAxis ax with
            range := inputRangeOf ax,
            _input := { (prepAxis ax)._input with range := some (inputRangeOf ax) } }
          _ (inputDomainOf ax) (prepAxis_inputDomain ax)] at h2
        simp only [Option.some.injEq, prepAxis_constraintoward] at h2
        have hdom : ax1.domain = resizedDomain (inputDomainOf ax)
            (K.FROM_BL ax.constraintoward) (domainFactor s ax e.2 * rangeShrunkOf ax) := by
          rw [← h2]
        rw [hdom]
        exact resizedDomain_inside _ _ _ hd hc0 hc1 (not_lt.mp hA)
      · rw [if_neg hB, updateDomain_eq K (prepAxis ax) _ (inputDomainOf ax)
          (prepAxis_inputDomain ax)] at h2
        simp only [Option.some.injEq, prepAxis_constraintoward] at h2
        have hdom : ax1.domain = resizedDomain (inputDomainOf ax)
            (K.FROM_BL ax.constraintoward) (domainFactor s ax e.2) := by
          rw [← h2]
        have hrs1 : rangeShrunkOf ax = 1 := le_antisymm hrs (not_lt.mp hB)
        rw [hrs1, mul_one] at hA
        rw [hdom]
        exact resizedDomain_inside _ _ _ hd hc0 hc1 (not_lt.mp hA)

/-- Claim C19 (domain mode is recomputed even at equality), amended: in a group that is
not skipped, a domain-mode member that is not autorange, whose non-zero normalised scale
equals `matchScale`, whose range width equals its `_inputRange` width
(`rangeShrunk = 1`) and whose domain is not wider than its `_inputDomain`
(`0 < domainShrunk ≤ 1`), ends as `updateDomain` with the factor `1 / domainShrunk`
leaves the axis of the first loop: the new domain has the width of the current domain,
its anchor for the current `constraintoward` is that of `_inputDomain`, and the range
is unchanged; a range-mode member whose normalised scale equals `matchScale` ends as
the first loop left it. -/
theorem domain_recomputed_at_equality (K : Consts) (groups : List Group) (L L2 : Layout)
    (hnd : (allKeys groups).Nodup) (h : enforceAxisConstraints K groups L = some L2)
    (g : Group) (hg : g ∈ groups) (s : Scan) (hs : scanGroup g L = some s)
    (hns : almostEqual K s.minScale s.maxScale = false) :
    (∀ e ∈ g, ∀ ax, L e.1 = some ax → ax.constrain = Constrain.domain →
      ax.autorange = false → some (normScaleOf ax e.2) = s.matchScale →
      normScaleOf ax e.2 ≠ 0 → rangeShrunkOf ax = 1 → 0 < domainShrunkOf ax →
      domainShrunkOf ax ≤ 1 →
      ∃ ax1, L2 e.1 = some ax1 ∧
        updateDomain K (prepAxis ax) (1 / domainShrunkOf ax) = some ax1 ∧
        ax1.domain.2 - ax1.domain.1 = ax.domain.2 - ax.domain.1 ∧
        ax1.domain.1 + (ax1.domain.2 - ax1.domain.1) * K.FROM_BL ax.constraintoward
          = (inputDomainOf ax).1 + ((inputDomainOf ax).2 - (inputDomainOf ax).1)
            * K.FROM_BL ax.constraintoward ∧
        ax1.range = ax.range) ∧
    ∀ e ∈ g, ∀ ax, L e.1 = some ax → ax.constrain = Constrain.range →
      some (normScaleOf ax e.2) = s.matchScale → L2 e.1 = some (prepAxis ax) := by
  refine ⟨?_, ?_⟩
  · intro e he ax hax hmode hauto hn hn0 hrs hds0 hds1
    obtain ⟨ax1, h1, h2⟩ := enforce_domain_plain K groups L L2 hnd h g hg s hs hns e he ax hax
      hmode hauto
    have hf : domainFactor s ax e.2 = 1 / domainShrunkOf ax := by
      simp only [domainFactor, domainShrunkOf, ← hn, divInf, div_self hn0]
    have hfge : 1 ≤ 1 / domainShrunkOf ax := by
      rw [le_div_iff₀ hds0]; linarith
    have hIw : (inputDomainOf ax).2 - (inputDomainOf ax).1 ≠ 0 := by
      intro h0
      simp only [domainShrunkOf, h0, div_zero, lt_irrefl] at hds0
    rw [hf, hrs, mul_one, if_neg (not_lt.mpr hfge), if_neg (lt_irrefl _)] at h2
    have h3 := h2
    rw [updateDomain_eq K (prepAxis ax) _ (inputDomainOf ax) (prepAxis_inputDomain ax)] at h3
    simp only [Option.some.injEq, prepAxis_constraintoward] at h3
    have hdom : ax1.domain = resizedDomain (inputDomainOf ax)
        (K.FROM_BL ax.constraintoward) (1 / domainShrunkOf ax) := by rw [← h3]
    refine ⟨ax1, h1, h2, ?_, ?_, ?_⟩
    · rw [hdom, resizedDomain_width]
      simp only [domainShrunkOf]
      field_simp
    · rw [hdom, resizedDomain_anchor]
    · rw [← h3]; exact prepAxis_range ax
  · intro e he ax hax hmode hn
    obtain ⟨_, j, s1, _, hs1, hm⟩ := enforce_member K groups L L2 h hnd g hg
    rw [hs] at hs1
    cases hs1
    obtain ⟨ax0, ax1, h1, h2, h3⟩ := hm e he
    rw [hax] at h1
    cases h1
    have hm1 : (prepAxis ax).constrain = Constrain.range := by rw [prepAxis_constrain, hmode]
    simp only [MemberOutcome, hns, Bool.false_eq_true, if_false, reconcileAxis, hn, hm1] at h3
    simp at h3
    rw [h2, h3]

/-- Claim C16 (the autorange repair only widens, within the outer bounds, and keeps the
direction): when the repair completes with a factor `f ≥ 1`, the ends of the repaired
range satisfy `outerMin ≤ newLo ≤ lo` and `hi ≤ newHi ≤ outerMax`, where `lo`, `hi` are
the ends before the repair and `outerMin`, `outerMax` are `center ∓ halfRange * f`; and
the repaired range is ascending exactly when the range before the repair was. -/
theorem repair_widens (K : Consts) (i : Nat) (a : Axis) (f : ℚ) (a3 : Axis) (f3 : ℚ)
    (hrep : autorangeRepair K i a f = some (a3, f3)) (hf : 1 ≤ f) :
    outerMinOf a f ≤ min a3.range.1 a3.range.2 ∧
    min a3.range.1 a3.range.2 ≤ min a.range.1 a.range.2 ∧
    max a.range.1 a.range.2 ≤ max a3.range.1 a3.range.2 ∧
    max a3.range.1 a3.range.2 ≤ outerMaxOf a f ∧
    (a3.range.1 < a3.range.2 ↔ a.range.1 < a.range.2) := by
  obtain ⟨lo, hi, hlo, hhi, homin, homax, hr, _⟩ := autorangeRepair_bounds K i a f a3 f3 hrep
  have hmm : min a.range.1 a.range.2 ≤ max a.range.1 a.range.2 :=
    le_trans (min_le_left _ _) (le_max_left _ _)
  have hle : lo ≤ hi := le_trans hlo (le_trans hmm hhi)
  obtain ⟨hmin3, hmax3⟩ := min_max_of_oriented a3.range lo hi hle _ hr
  have ho1 : outerMinOf a f ≤ min a.range.1 a.range.2 := by
    simp only [outerMinOf]
    nlinarith
  have ho2 : max a.range.1 a.range.2 ≤ outerMaxOf a f := by
    simp only [outerMaxOf]
    nlinarith
  rw [hmin3, hmax3]
  refine ⟨homin ho1, hlo, hhi, homax ho2, ?_⟩
  by_cases hasc : a.range.1 < a.range.2
  · rw [hr, if_pos hasc]
    simp only [hasc, iff_true]
    have h1 : min a.range.1 a.range.2 = a.range.1 := min_eq_left hasc.le
    have h2 : max a.range.1 a.range.2 = a.range.2 := max_eq_right hasc.le
    rw [h1] at hlo
    rw [h2] at hhi
    linarith
  · rw [hr, if_neg hasc]
    simp only [hasc, iff_false, not_lt]
    exact hle

/-- Claim C15 (autorange compensation keeps the target scale). In a whole call on pairwise
distinct axis ids, take an autorange, domain-mode member of a group that is not skipped,
whose `factor * rangeShrunk` is at least 1, so that it takes the repair of lines 111-166.
Let `f` be the factor that reaches the repair and `W = 2 * halfRange > 0` the width of
the range that reaches it. Then the repair returns an axis `a3` and a factor `f3`, the
axis the call leaves is `updateDomain`'s result on `a3` with `f3`, and with `W'` the
width of the final range: `f3 = f / (W' / W)`; the final domain is the input domain resized
by `f3` about the anchor; the final range is the repaired one; final domain width over
final range width is `(_inputDomain width / f) / W`; and the final scale is the scale of
`updateDomain`'s result with the factor `f` on the unrepaired axis. -/
theorem repair_compensated (K : Consts) (groups : List Group) (L L2 : Layout)
    (hnd : (allKeys groups).Nodup) (h : enforceAxisConstraints K groups L = some L2)
    (g : Group) (hg : g ∈ groups) (s : Scan) (hs : scanGroup g L = some s)
    (hns : almostEqual K s.minScale s.maxScale = false)
    (e : String × ℚ) (he : e ∈ g) (ax : Axis) (hax : L e.1 = some ax)
    (hmode : ax.constrain = Constrain.domain) (hauto : ax.autorange = true)
    (hge : 1 ≤ domainFactor s ax e.2 * rangeShrunkOf ax)
    (hW : 0 < 2 * halfRangeOf (preRepairAxis ax)) :
    ∃ j a3 f3 ax1, groups[j]? = some g ∧
      autorangeRepair K j (preRepairAxis ax) (preRepairFactor s ax e.2) = some (a3, f3) ∧
      updateDomain K a3 f3 = some ax1 ∧
      L2 e.1 = some ax1 ∧
      f3 = preRepairFactor s ax e.2 /
        ((max ax1.range.1 ax1.range.2 - min ax1.range.1 ax1.range.2) /
          (2 * halfRangeOf (preRepairAxis ax))) ∧
      ax1.domain = resizedDomain (inputDomainOf ax) (K.FROM_BL ax.constraintoward) f3 ∧
      ax1.range = a3.range ∧
      (ax1.domain.2 - ax1.domain.1) / (max ax1.range.1 ax1.range.2 - min ax1.range.1 ax1.range.2)
        = ((inputDomainOf ax).2 - (inputDomainOf ax).1) / preRepairFactor s ax e.2 /
          (2 * halfRangeOf (preRepairAxis ax)) ∧
      ∃ a0, updateDomain K (preRepairAxis ax) (preRepairFactor s ax e.2) = some a0 ∧
        a0.range = (preRepairAxis ax).range ∧
        scaleOf ax1 = scaleOf a0 ∧ ∀ w, normScaleOf ax1 w = normScaleOf a0 w := by
  obtain ⟨j, ax1, hj, hL2, hb⟩ := enforce_domain_autorange K groups L L2 hnd h g hg s hs hns
    e he ax hax hmode hauto hge
  obtain ⟨p, hp, hu⟩ := Option.bind_eq_some.mp hb
  obtain ⟨a3, f3⟩ := p
  obtain ⟨h1, h2, h3, h4, h5⟩ := repairBlock_compensated K j (preRepairAxis ax)
    (preRepairFactor s ax e.2) a3 f3 ax1 (inputDomainOf ax) (preRepairAxis_inputDomain ax) hW
    hp hu
  rw [preRepairAxis_constraintoward] at h2
  rw [← h3] at h1 h4
  have h0 := updateDomain_eq K (preRepairAxis ax) (preRepairFactor s ax e.2) (inputDomainOf ax)
    (preRepairAxis_inputDomain ax)
  refine ⟨j, a3, f3, ax1, hj, hp, hu, hL2, h1, h2, h3, h4, _, h0, rfl, h5 _ h0⟩


/-- Claim C17 (scale discovery and the single-use flag): for every group of a call that
returns, with positive weights, the first loop ends with `minScale` and `maxScale` the
least and the greatest `|m| / weight` over all members (`Infinity` and 0 for a group
without members) and with `matchScale` the least `|m| / weight` over exactly the members
whose `_constraintShrinkable` flag is not set on entry (`Infinity` if there is none), so
`matchScale ≥ minScale`; and after the call no member axis of any group, skipped or not,
has the flag set. -/
theorem scale_discovery (K : Consts) (groups : List Group) (L L2 : Layout)
    (hnd : (allKeys groups).Nodup) (hw : ∀ g ∈ groups, ∀ e ∈ g, 0 < e.2)
    (h : enforceAxisConstraints K groups L = some L2) (g : Group) (hg : g ∈ groups) :
    ∃ s, scanGroup g L = some s ∧
      (g = [] → s.minScale = none ∧ s.maxScale = 0) ∧
      (g ≠ [] → ∃ m, s.minScale = some m ∧
        (∃ e ∈ g, ∃ ax, L e.1 = some ax ∧ normScaleOf ax e.2 = m) ∧
        (∃ e ∈ g, ∃ ax, L e.1 = some ax ∧ normScaleOf ax e.2 = s.maxScale) ∧
        ∀ e ∈ g, ∀ ax, L e.1 = some ax →
          m ≤ normScaleOf ax e.2 ∧ normScaleOf ax e.2 ≤ s.maxScale) ∧
      (s.matchScale = none ↔
        ∀ e ∈ g, ∀ ax, L e.1 = some ax → ax._constraintShrinkable = true) ∧
      (∀ ms, s.matchScale = some ms →
        (∃ e ∈ g, ∃ ax, L e.1 = some ax ∧ ax._constraintShrinkable = false ∧
          normScaleOf ax e.2 = ms) ∧
        (∀ e ∈ g, ∀ ax, L e.1 = some ax → ax._constraintShrinkable = false →
          ms ≤ normScaleOf ax e.2) ∧
        ∃ m, s.minScale = some m ∧ m ≤ ms) ∧
      ∀ e ∈ g, ∀ ax, L e.1 = some ax →
        ∃ ax1, L2 e.1 = some ax1 ∧ ax1._constraintShrinkable = false := by
  obtain ⟨hndg, j, s, _, hs, _⟩ := enforce_member K groups L L2 h hnd g hg
  obtain ⟨hmin, hmax, hmatch⟩ := scanGroup_acc g L s hndg hs
  have hk := scanGroup_known g L s hs
  refine ⟨s, hs, ?_, ?_, ?_, ?_, ?_⟩
  · intro hnil
    subst hnil
    rw [hmin, hmax]
    exact ⟨rfl, rfl⟩
  · intro hne
    have hne1 : g.map (memberScale L) ≠ [] := by simpa using hne
    obtain ⟨m, hm, hle⟩ := accMin_none _ hne1
    obtain ⟨p, hp, hpm⟩ := accMin_none_attained _ m hm
    obtain ⟨e1, he1, ax1, hax1, rfl⟩ := memberScale_inv g L hk p hp
    have hnn : ∀ q ∈ g.map (memberScale L), 0 ≤ q.1 := by
      intro q hq
      obtain ⟨e2, he2, ax2, _, rfl⟩ := memberScale_inv g L hk q hq
      exact normScaleOf_nonneg ax2 e2.2 (hw g hg e2 he2)
    obtain ⟨q, hq, hqm⟩ := accMax_zero_attained _ hne1 hnn
    obtain ⟨e2, he2, ax2, hax2, rfl⟩ := memberScale_inv g L hk q hq
    refine ⟨m, by rw [hmin, hm], ⟨e1, he1, ax1, hax1, hpm⟩,
      ⟨e2, he2, ax2, hax2, by rw [hmax]; exact hqm⟩, ?_⟩
    intro e he ax hax
    have hmem := memberScale_mem g L e ax he hax
    exact ⟨hle _ hmem, by rw [hmax]; exact (accMax_ge _ 0).2 _ hmem⟩
  · rw [hmatch, accMatch_none_iff]
    constructor
    · intro hall e he ax hax
      exact hall _ (memberScale_mem g L e ax he hax)
    · intro hall p hp
      obtain ⟨e, he, ax, hax, rfl⟩ := memberScale_inv g L hk p hp
      exact hall e he ax hax
  · intro ms hms
    rw [hmatch] at hms
    obtain ⟨_, hle⟩ := accMatch_le _ none ms hms
    rcases accMatch_mem _ none ms hms with h0 | ⟨p, hp, hp2, hp1⟩
    · cases h0
    · obtain ⟨e, he, ax, hax, rfl⟩ := memberScale_inv g L hk p hp
      refine ⟨⟨e, he, ax, hax, hp2, hp1⟩, ?_, ?_⟩
      · intro e2 he2 ax2 hax2 hf2
        exact hle _ (memberScale_mem g L e2 ax2 he2 hax2) hf2
      · obtain ⟨m, hm, hmle⟩ := accMin_none _ (List.ne_nil_of_mem hp)
        refine ⟨m, by rw [hmin, hm], ?_⟩
        rw [← hp1]
        exact hmle _ hp
  · intro e he ax hax
    obtain ⟨ax1, h1, _, _, h4⟩ := enforce_member_frame K groups L L2 hnd h g hg e he ax hax
    exact ⟨ax1, h1, h4⟩

/-- Claim C18 (ranges are only increased): on a valid input, in a group that is not
skipped and has no flagged member, `matchScale` equals `minScale` and every factor
`normScale / matchScale` of the second loop is at least 1, so a range-mode member that
is handed to the range rescaler gets a factor strictly greater than 1; and in any group
that is not skipped a factor below 1 only arises for a member whose normalised scale is
below that of every member without the flag. -/
theorem ranges_only_increased (K : Consts) (groups : List Group) (L L2 : Layout)
    (hv : validInput groups L = true) (h : enforceAxisConstraints K groups L = some L2)
    (g : Group) (hg : g ∈ groups) (s : Scan) (hs : scanGroup g L = some s)
    (hns : almostEqual K s.minScale s.maxScale = false) :
    ((∀ e ∈ g, ∀ ax, L e.1 = some ax → ax._constraintShrinkable = false) →
      s.matchScale = s.minScale ∧
      ∀ e ∈ g, ∀ ax, L e.1 = some ax →
        1 ≤ divInf (normScaleOf ax e.2) s.matchScale ∧
        (ax.constrain = Constrain.range → some (normScaleOf ax e.2) ≠ s.matchScale →
          1 < divInf (normScaleOf ax e.2) s.matchScale ∧
          L2 e.1 = some (scaleZoom (prepAxis ax)
            (divInf (normScaleOf ax e.2) s.matchScale)))) ∧
    ∀ e ∈ g, ∀ ax, L e.1 = some ax → divInf (normScaleOf ax e.2) s.matchScale < 1 →
      ∀ b ∈ g, ∀ axb, L b.1 = some axb → axb._constraintShrinkable = false →
        normScaleOf ax e.2 < normScaleOf axb b.2 := by
  have hnd := validInput_nodup groups L hv
  have hndg := nodup_keys_of_mem groups hnd g hg
  obtain ⟨hmin, hmax, hmatch⟩ := scanGroup_acc g L s hndg hs
  have hk := scanGroup_known g L s hs
  refine ⟨?_, ?_⟩
  · intro hnf
    have hall : ∀ p ∈ g.map (memberScale L), p.2 = false := by
      intro p hp
      obtain ⟨e, he, ax, hax, rfl⟩ := memberScale_inv g L hk p hp
      exact hnf e he ax hax
    have heq : s.matchScale = s.minScale := by
      rw [hmatch, hmin]
      exact accMatch_eq_accMin _ none hall
    refine ⟨heq, ?_⟩
    intro e he ax hax
    have hmem := memberScale_mem g L e ax he hax
    obtain ⟨m, hm, hle⟩ := accMin_none _ (List.ne_nil_of_mem hmem)
    have hms : s.matchScale = some m := by rw [heq, hmin, hm]
    have hpos := matchScale_pos groups L hv g hg s hs m hms
    have hmn : m ≤ normScaleOf ax e.2 := hle _ hmem
    rw [hms]
    simp only [divInf]
    refine ⟨(one_le_div hpos).mpr hmn, ?_⟩
    intro hmode hne
    have hlt : m < normScaleOf ax e.2 := by
      refine lt_of_le_of_ne hmn ?_
      intro hc
      exact hne (by rw [hc])
    refine ⟨(one_lt_div hpos).mpr hlt, ?_⟩
    obtain ⟨_, j, s1, _, hs1, hmo⟩ := enforce_member K groups L L2 h hnd g hg
    rw [hs] at hs1
    cases hs1
    obtain ⟨ax0, ax1, h1, h2, h3⟩ := hmo e he
    rw [hax] at h1
    cases h1
    have hm1 : (prepAxis ax).constrain = Constrain.range := by rw [prepAxis_constrain, hmode]
    simp only [MemberOutcome, hns, Bool.false_eq_true, if_false, reconcileAxis, hm1, hms,
      divInf] at h3
    have hne2 : some (normScaleOf ax e.2) ≠ some m := hne
    simp only [ne_eq, hne2, not_false_eq_true, true_or, if_true, Option.some.injEq] at h3
    rw [h2, h3]
  · intro e he ax hax hlt b hb axb haxb hfb
    have hmemb := memberScale_mem g L b axb hb haxb
    cases hms : s.matchScale with
    | none =>
      rw [hmatch] at hms
      have := (accMatch_none_iff _).mp hms _ hmemb
      simp only [hfb] at this
      cases this
    | some ms =>
      have hpos := matchScale_pos groups L hv g hg s hs ms hms
      rw [hms] at hlt
      simp only [divInf] at hlt
      have h1 : normScaleOf ax e.2 < ms := by
        rwa [div_lt_one hpos] at hlt
      rw [hmatch] at hms
      exact lt_of_lt_of_le h1 ((accMatch_le _ none ms hms).2 _ hmemb hfb)

/-- Claim C14 on a domain-mode axis of scale 200 px/unit whose range is half its
`_inputRange`, grouped with an axis of scale 50 px/unit: the factor is 4,
`factor * rangeShrunk` is 2, the range is restored to `[0, 1]`, the domain becomes
`[1/4, 3/4]` and the scale 50 px/unit. -/
theorem regime_restore_witness :
    ∃ L2 ax1, enforceAxisConstraints plotlyConsts [xy] restorePair = some L2 ∧
      L2 "y" = some ax1 ∧ ax1.range = (0, 1) ∧ ax1._input.range = some (0, 1) ∧
      ax1.domain = (1 / 4, 3 / 4) ∧ scaleOf ax1 = 50 ∧ normScaleOf ax1 1 = 50 := by
  obtain ⟨ax1, h1, h2, h3, h4, _, _, h7⟩ := regime_restore plotlyConsts [xy] restorePair
    (Option.get _ restorePair_returns) (by decide!) (Option.some_get restorePair_returns).symm xy
    (List.mem_singleton_self _) (Option.get _ restorePair_scans)
    (Option.some_get restorePair_scans).symm (by decide!)
    ("y", 1) (by decide!) shrunkAxis rfl rfl rfl (by decide!) (by decide!)
  obtain ⟨h8, h9⟩ := h7 (by decide!) 50 (by decide!)
  refine ⟨_, ax1, (Option.some_get restorePair_returns).symm, h1, ?_, ?_, ?_, ?_, h9⟩
  · rw [h2]; decide!
  · rw [h3]; decide!
  · rw [h4]; decide!
  · rw [h8]; decide!

/-- Claim C15 on the call with the one group `{x2: 1, y2: 1}` on `fourAxes`: "x2" (scale
50 px/unit, range `[9.5, 10.5]`, candidate `{val: 10, pad: 20}`) reaches the repair with
the factor 2; the repair widens the range to `[9.5, 10.8]` and returns the factor `20/13`;
the call leaves the domain `[7/40, 33/40]`, and the scale 25 px/unit, the scale of the
domain resized by 2 over the unrepaired range. -/
theorem repair_compensated_witness :
    ∃ L2 ax1 a3 f3, enforceAxisConstraints plotlyConsts [xy2] fourAxes = some L2 ∧
      L2 "x2" = some ax1 ∧
      autorangeRepair plotlyConsts 0 (preRepairAxis (paddedAxis (19 / 2, 21 / 2) 50)) 2
        = some (a3, f3) ∧
      updateDomain plotlyConsts a3 f3 = some ax1 ∧
      f3 = 20 / 13 ∧ ax1.range = (19 / 2, 54 / 5) ∧ ax1.domain = (7 / 40, 33 / 40) ∧
      scaleOf ax1 = 25 ∧
      (updateDomain plotlyConsts (preRepairAxis (paddedAxis (19 / 2, 21 / 2) 50)) 2).map
        (fun a0 => (a0.range, scaleOf a0)) = some ((19 / 2, 21 / 2), 25) := by
  obtain ⟨j, a3, f3, ax1, hj, hp, hu, hL2, _, h2, h3, _, a0, h0, _, h5, _⟩ :=
    repair_compensated plotlyConsts [xy2] fourAxes
      (Option.get _ fourAxes_returns) (by decide!) (Option.some_get fourAxes_returns).symm xy2
      (List.mem_singleton_self _) (Option.get _ fourAxes_scans)
      (Option.some_get fourAxes_scans).symm (by decide!)
      ("x2", 1) (by decide!) (paddedAxis (19 / 2, 21 / 2) 50) rfl rfl rfl (by decide!)
      (by decide!)
  have hj0 : j = 0 := by
    cases j with
    | zero => rfl
    | succ n => simp at hj
  subst hj0
  have hpf : preRepairFactor (Option.get _ fourAxes_scans) (paddedAxis (19 / 2, 21 / 2) 50)
      (("x2", 1) : String × ℚ).2 = 2 := by decide!
  rw [hpf] at hp h0
  have hv : (autorangeRepair plotlyConsts 0 (preRepairAxis (paddedAxis (19 / 2, 21 / 2) 50))
      2).map (fun p => (p.1.range, p.2)) = some ((19 / 2, 54 / 5), 20 / 13) := by decide!
  rw [hp] at hv
  simp only [Option.map_some', Option.some.injEq, Prod.mk.injEq] at hv
  obtain ⟨hr, hf⟩ := hv
  have hv0 : (updateDomain plotlyConsts (preRepairAxis (paddedAxis (19 / 2, 21 / 2) 50)) 2).map
      (fun a0 => (a0.range, scaleOf a0)) = some ((19 / 2, 21 / 2), 25) := by decide!
  have hs0 := hv0
  rw [h0] at hs0
  simp only [Option.map_some', Option.some.injEq, Prod.mk.injEq] at hs0
  refine ⟨_, ax1, a3, f3, (Option.some_get fourAxes_returns).symm, hL2, hp, hu, hf, ?_, ?_,
    ?_, hv0⟩
  · rw [h3]; exact hr
  · rw [h2, hf]; decide!
  · rw [h5]; exact hs0.2

/-- Claim C16 on the candidate `{val: 10, pad: 20}`, the range `[9.5, 10.5]` and the
factor 2: the outer bounds are 9 and 11 and the repaired range is `[9.5, 10.8]`,
ascending as before. -/
theorem repair_widens_witness :
    ∃ a3 f3, autorangeRepair plotlyConsts 0 (paddedAxis (19 / 2, 21 / 2) 50) 2 = some (a3, f3) ∧
      a3.range = (19 / 2, 54 / 5) ∧
      outerMinOf (paddedAxis (19 / 2, 21 / 2) 50) 2 = 9 ∧
      outerMaxOf (paddedAxis (19 / 2, 21 / 2) 50) 2 = 11 ∧
      outerMinOf (paddedAxis (19 / 2, 21 / 2) 50) 2 ≤ min a3.range.1 a3.range.2 ∧
      min a3.range.1 a3.range.2 ≤ min (19 / 2 : ℚ) (21 / 2) ∧
      max (19 / 2 : ℚ) (21 / 2) ≤ max a3.range.1 a3.range.2 ∧
      max a3.range.1 a3.range.2 ≤ outerMaxOf (paddedAxis (19 / 2, 21 / 2) 50) 2 ∧
      (a3.range.1 < a3.range.2 ↔ (19 / 2 : ℚ) < 21 / 2) :=
  ⟨((autorangeRepair plotlyConsts 0 (paddedAxis (19 / 2, 21 / 2) 50) 2).get
      paddedRepair_returns).1,
    ((autorangeRepair plotlyConsts 0 (paddedAxis (19 / 2, 21 / 2) 50) 2).get
      paddedRepair_returns).2,
    (Option.some_get paddedRepair_returns).symm, by decide!, by decide!, by decide!,
    repair_widens plotlyConsts 0 (paddedAxis (19 / 2, 21 / 2) 50) 2
      ((autorangeRepair plotlyConsts 0 (paddedAxis (19 / 2, 21 / 2) 50) 2).get
      paddedRepair_returns).1
      ((autorangeRepair plotlyConsts 0 (paddedAxis (19 / 2, 21 / 2) 50) 2).get
      paddedRepair_returns).2
      (Option.some_get paddedRepair_returns).symm (by decide!)⟩

/-- Claim C17 on a group of two axes of scale 100 px/unit, the second one flagged. -/
theorem scale_discovery_witness :
    ∃ L2 s, enforceAxisConstraints plotlyConsts [xy] skipPair = some L2 ∧
      scanGroup xy skipPair = some s ∧
      s.minScale = some 100 ∧ s.maxScale = 100 ∧ s.matchScale = some 100 ∧
      ∀ e ∈ xy, ∀ ax, skipPair e.1 = some ax →
        ∃ ax1, L2 e.1 = some ax1 ∧ ax1._constraintShrinkable = false := by
  obtain ⟨s, hs, _, _, _, _, h6⟩ := scale_discovery plotlyConsts [xy] skipPair
    (Option.get _ skipPair_returns) (by decide!) (by decide!)
    (Option.some_get skipPair_returns).symm xy (List.mem_singleton_self _)
  have hs1 : s = Option.get _ skipPair_scans := by
    have h0 := Option.some_get skipPair_scans
    exact Option.some.inj (hs.symm.trans h0.symm)
  subst hs1
  exact ⟨_, _, (Option.some_get skipPair_returns).symm, hs, by decide!, by decide!, by decide!,
    h6⟩

/-- Claim C18 on two range-mode axes of scales 100 and 200 px/unit without flags:
`matchScale` is `minScale` and the second axis is rescaled with the factor 2. -/
theorem ranges_only_increased_witness :
    ∃ L2 s, enforceAxisConstraints plotlyConsts [xy] rangePair = some L2 ∧
      scanGroup xy rangePair = some s ∧ s.matchScale = s.minScale ∧
      divInf (normScaleOf (freshAxis (0, 1) (0, 1 / 2) 100 Constrain.range) 1) s.matchScale
        = 2 ∧
      L2 "y" = some (scaleZoom (prepAxis (freshAxis (0, 1) (0, 1 / 2) 100 Constrain.range))
        (divInf (normScaleOf (freshAxis (0, 1) (0, 1 / 2) 100 Constrain.range) 1)
          s.matchScale)) := by
  obtain ⟨h1, _⟩ := ranges_only_increased plotlyConsts [xy] rangePair
    (Option.get _ rangePair_returns) (by decide!) (Option.some_get rangePair_returns).symm xy
    (List.mem_singleton_self _) (Option.get _ rangePair_scans)
    (Option.some_get rangePair_scans).symm (by decide!)
  have hnf : ∀ e ∈ xy, ∀ ax, rangePair e.1 = some ax → ax._constraintShrinkable = false := by
    intro e he ax hax
    have he1 : e = ("x", 1) ∨ e = ("y", 1) := by simpa [xy] using he
    rcases he1 with rfl | rfl
    · have : rangePair "x" = some (freshAxis (0, 1) (0, 1) 100 Constrain.range) := rfl
      rw [this] at hax
      cases hax
      rfl
    · have : rangePair "y" = some (freshAxis (0, 1) (0, 1 / 2) 100 Constrain.range) := rfl
      rw [this] at hax
      cases hax
      rfl
  obtain ⟨h2, h3⟩ := h1 hnf
  obtain ⟨_, h5⟩ := h3 ("y", 1) (by decide!)
    (freshAxis (0, 1) (0, 1 / 2) 100 Constrain.range) rfl
  obtain ⟨_, h7⟩ := h5 rfl (by decide!)
  exact ⟨_, _, (Option.some_get rangePair_returns).symm, (Option.some_get rangePair_scans).symm,
    h2, by decide!, h7⟩

/-- Claim C19 fails as stated: a domain-mode axis that is not autorange, whose normalised
scale 100 equals `matchScale` in a group that is not skipped, with `rangeShrunk = 1` and
a domain `[0, 1]` twice as wide as its `_inputDomain` `[1/4, 3/4]`, is not resized to the
width of its current domain: its domain is reset to `[1/4, 3/4]` and its range is
rescaled to `[1/4, 3/4]`. -/
theorem domain_recomputed_counterexample :
    validInput [xy] widePair = true ∧
    (scanGroup xy widePair).map
        (fun s => (almostEqual plotlyConsts s.minScale s.maxScale, s.matchScale))
      = some (false, some 100) ∧
    normScaleOf wideAxis 1 = 100 ∧ rangeShrunkOf wideAxis = 1 ∧ domainShrunkOf wideAxis = 2 ∧
    (enforceAxisConstraints plotlyConsts [xy] widePair).map
        (fun L2 => (L2 "y").map fun a => (a.domain, a.range))
      = some (some ((1 / 4, 3 / 4), (1 / 4, 3 / 4))) := by
  decide!

/-- The amended claim C19 on a domain-mode axis of scale 100 px/unit whose domain
`[0, 1/2]` is half its `_inputDomain` `[0, 1]`, in a group with an axis of scale 200
px/unit: the domain is rewritten with the factor 2 to `[1/4, 3/4]`, of the same width,
around the anchor "center" of `_inputDomain`. -/
theorem domain_recomputed_at_equality_witness :
    ∃ L2 ax1, enforceAxisConstraints plotlyConsts [xy] recomputePair = some L2 ∧
      L2 "y" = some ax1 ∧ updateDomain plotlyConsts (prepAxis halvedAxis) 2 = some ax1 ∧
      ax1.domain = (1 / 4, 3 / 4) ∧ ax1.domain.2 - ax1.domain.1 = 1 / 2 - 0 ∧
      ax1.range = (0, 1) := by
  obtain ⟨h1, _⟩ := domain_recomputed_at_equality plotlyConsts [xy] recomputePair
    (Option.get _ recomputePair_returns) (by decide!)
    (Option.some_get recomputePair_returns).symm xy (List.mem_singleton_self _)
    (Option.get _ recomputePair_scans) (Option.some_get recomputePair_scans).symm (by decide!)
  obtain ⟨ax1, h2, h3, h4, _, h6⟩ := h1 ("y", 1) (by decide!) halvedAxis rfl rfl rfl
    (by decide!) (by decide!) (by decide!) (by decide!) (by decide!)
  have hf : (1 : ℚ) / domainShrunkOf halvedAxis = 2 := by decide!
  rw [hf] at h3
  have hd : ((updateDomain plotlyConsts (prepAxis halvedAxis) 2).map fun a => a.domain)
      = some (1 / 4, 3 / 4) := by decide!
  rw [h3] at hd
  exact ⟨_, ax1, (Option.some_get recomputePair_returns).symm, h2, h3, by simpa using hd, h4, h6⟩

/-- Claim C20 on the anchor "center", `_inputDomain` `[0.1, 0.9]` and the factor 1/2:
the domain `[-0.3, 1.3]` covers the input domain and leaves `[0, 1]`. -/
theorem resize_inside_or_covering_witness :
    ∃ a, updateDomain plotlyConsts anchoredAxis (1 / 2) = some a ∧
      a.domain = (-3 / 10, 13 / 10) ∧ a.domain.1 ≤ 1 / 10 ∧ 9 / 10 ≤ a.domain.2 := by
  obtain ⟨a, h1, _, h3⟩ := (resize_inside_or_covering plotlyConsts).1 anchoredAxis (1 / 2)
    (1 / 10) (9 / 10) rfl (by decide!) (by decide!) (by decide!)
  have hd : ((updateDomain plotlyConsts anchoredAxis (1 / 2)).map fun a => a.domain)
      = some (-3 / 10, 13 / 10) := by decide!
  rw [h1] at hd
  obtain ⟨h4, h5⟩ := h3 (by decide!) (by decide!)
  exact ⟨a, h1, by simpa using hd, h4, h5⟩

end Constraints
